import Mathlib

/-!
# LandscapeCombinator: download cache, fetcher and XYZ tile pipeline

A shallow embedding of

* `Source/LandscapeCombinator/Private/Utils/Download.cpp`
  (`Download::SynchronousFromURL`, `SynchronousFromURLExpecting`, `FromURL`,
  `FromURLExpecting`, `AddExpectedSize`), and
* `Source/ImageDownloader/Private/ImageDownloader/Downloaders/HMXYZ.cpp`
  (`HMXYZ::Fetch` and the lambdas it hands to `Concurrency::RunMany`).

Stateful code is written as explicit state passing.  The state of the fetcher
is the platform file system, the process-wide `ExpectedSizeCache`, the list of
HTTP requests handed to `ProcessRequest`, and the number of times the cache
file was saved.  Engine services that are not part of the repository (the HTTP
transport, `FCString::Atoi`, `EHttpResponseCodes::IsOk`, the disk) are fields of
an `Engine` record, so every theorem holds for all their behaviours.
-/

namespace LandscapeCombinator

/-- The engine string type. -/
abbrev FString := String

/-- Conversion of a 64-bit quantity to `int32`, as happens when an `int64` is
passed for an `int32` parameter (two's complement wrap-around). -/
def toInt32 (x : Int) : Int := (x + 2147483648) % 4294967296 - 2147483648

/-! ## `TMap<FString, int32>` -/

namespace TMap

/-- The engine function `TMap::Contains`. -/
def Contains (m : List (FString × Int)) (k : FString) : Bool :=
  m.any (fun p => p.1 == k)

/-- The engine function `TMap::Find`, which is what `operator[]` reads once `Contains` holds. -/
def Find (m : List (FString × Int)) (k : FString) : Option Int :=
  (m.find? (fun p => p.1 == k)).map (fun p => p.2)

/-- The engine function `TMap::Add`: a key that is present gets its value replaced, a new key gets
a new pair. -/
def Add (m : List (FString × Int)) (k : FString) (v : Int) : List (FString × Int) :=
  if Contains m k then m.map (fun p => if p.1 == k then (k, v) else p)
  else m ++ [(k, v)]

end TMap

/-! ## The platform file system -/

/-- Files on disk: path and content (a list of bytes). -/
abbrev Files := List (FString × List Nat)

/-- The engine function `IPlatformFile::FileExists`. -/
def FileExists (fs : Files) (File : FString) : Bool :=
  fs.any (fun p => p.1 == File)

/-- Content of a file, if it exists. -/
def FileContent (fs : Files) (File : FString) : Option (List Nat) :=
  (fs.find? (fun p => p.1 == File)).map (fun p => p.2)

/-- The engine function `IPlatformFile::FileSize`: the size in bytes (an `int64`), `-1` when the
file does not exist. -/
def FileSize (fs : Files) (File : FString) : Int :=
  match FileContent fs File with
  | some c => (c.length : Int)
  | none => -1

/-- The file system after `File` has been written with `Content`. -/
def WriteFile (fs : Files) (File : FString) (Content : List Nat) : Files :=
  (File, Content) :: fs.filter (fun p => !(p.1 == File))

/-! ## HTTP -/

inductive Verb where
  | HEAD
  | GET
  deriving DecidableEq, Repr

/-- A request as configured by `SetURL` and `SetVerb`. -/
structure HttpRequest where
  URL : FString
  Verb : Verb
  deriving DecidableEq, Repr

/-- What the handlers read from an `IHttpResponse`. -/
structure HttpResponse where
  ResponseCode : Int
  ContentLength : String
  Content : List Nat
  deriving DecidableEq, Repr

/-- The arguments of one invocation of `OnProcessRequestComplete`;
`Response = none` is an invalid `FHttpResponsePtr`. -/
structure Completion where
  Response : Option HttpResponse
  bWasSuccessful : Bool
  deriving DecidableEq, Repr

/-- Engine services used by the fetcher.  `Transport history request` is the
list of completions the transport delivers to the handler of `request`, in
order, when `history` are the requests processed before it; the empty list is
a request whose completion never arrives (for the synchronous fetcher: not
within `TimeoutSeconds`). -/
structure Engine where
  Atoi : String → Int
  IsOk : Int → Bool
  CanSave : FString → List Nat → Bool
  Transport : List HttpRequest → HttpRequest → List Completion

/-- State touched by the fetcher. -/
structure State where
  Files : Files
  ExpectedSizeCache : List (FString × Int)
  Requests : List HttpRequest
  CacheSaves : Nat
  deriving DecidableEq, Repr

/-- Modelled from the spec: `FFileHelper::SaveArrayToFile` is an engine function
outside the repository.  Following section 4.2 step 4, saving is atomic
relative to partial writes: either the file holds the whole array afterwards
and the call returns `true`, or the call returns `false` and the file system is
left unmodified.  Whether the disk accepts the write is `Engine.CanSave`. -/
def SaveArrayToFile (E : Engine) (fs : Files) (Content : List Nat) (File : FString) :
    Bool × Files :=
  if E.CanSave File Content then (true, WriteFile fs File Content) else (false, fs)

/-- The source function `Download::SaveExpectedSizeCache`: the whole mapping is written to the cache
file; in the state only the number of saves is kept. -/
def SaveExpectedSizeCache (s : State) : State :=
  { s with CacheSaves := s.CacheSaves + 1 }

/-- The source function `Download::AddExpectedSize`. -/
def AddExpectedSize (s : State) (URL : FString) (ExpectedSize : Int) : State :=
  if !(TMap.Contains s.ExpectedSizeCache URL) then
    SaveExpectedSizeCache
      { s with ExpectedSizeCache := TMap.Add s.ExpectedSizeCache URL ExpectedSize }
  else s

/-- The engine call `Request->ProcessRequest()`: the request is handed to the
transport and recorded in the request log. -/
def ProcessRequest (s : State) (r : HttpRequest) : State :=
  { s with Requests := s.Requests ++ [r] }

/-- The test `bWasSuccessful && Response.IsValid() && IsOk(Response->GetResponseCode())`. -/
def ResponseOk (E : Engine) (c : Completion) : Bool :=
  c.bWasSuccessful &&
    (match c.Response with
     | some r => E.IsOk r.ResponseCode
     | none => false)

/-- The skip test shared by both fetchers:
`FileExists(File) && ExpectedSize != 0 && FileSize(File) == ExpectedSize`. -/
def SkipDownload (fs : Files) (File : FString) (ExpectedSize : Int) : Bool :=
  FileExists fs File && ExpectedSize != 0 && FileSize fs File == ExpectedSize

/-! ## The asynchronous fetcher -/

/-- Variables of the completion handler bound in `FromURLExpecting`, together
with the state and the values passed to `OnComplete` so far. -/
structure AsyncHandler where
  st : State
  bTriggered : Bool
  OnCompleteCalls : List Bool
  deriving DecidableEq, Repr

/-- The lambda bound to `OnProcessRequestComplete` in `FromURLExpecting`. -/
def FromURLExpecting.OnProcessRequestComplete (E : Engine) (URL File : FString)
    (h : AsyncHandler) (c : Completion) : AsyncHandler :=
  if h.bTriggered then h
  else
    let DownloadSuccess := ResponseOk E c
    match DownloadSuccess, c.Response with
    | true, some r =>
      let saved := SaveArrayToFile E h.st.Files r.Content File
      let SavedFile := saved.1
      let st1 := { h.st with Files := saved.2 }
      let st2 :=
        if SavedFile then AddExpectedSize st1 URL (toInt32 (FileSize st1.Files File))
        else st1
      { st := st2, bTriggered := true,
        OnCompleteCalls := h.OnCompleteCalls ++ [DownloadSuccess && SavedFile] }
    | _, _ =>
      { st := h.st, bTriggered := true,
        OnCompleteCalls := h.OnCompleteCalls ++ [DownloadSuccess && false] }

/-- The source function `Download::FromURLExpecting`, run at the moment the game-thread task runs.
Returns the final state and the values passed to `OnComplete`, in order. -/
def FromURLExpecting (E : Engine) (s : State) (URL File : FString) (ExpectedSize : Int) :
    State × List Bool :=
  if SkipDownload s.Files File ExpectedSize then (s, [true])
  else
    let Request : HttpRequest := { URL := URL, Verb := Verb.GET }
    let h := (E.Transport s.Requests Request).foldl
      (FromURLExpecting.OnProcessRequestComplete E URL File)
      { st := ProcessRequest s Request, bTriggered := false, OnCompleteCalls := [] }
    (h.st, h.OnCompleteCalls)

/-- The lambda bound to `OnProcessRequestComplete` of the HEAD probe in
`FromURL`. -/
def FromURL.OnProcessRequestComplete (E : Engine) (URL File : FString)
    (h : AsyncHandler) (c : Completion) : AsyncHandler :=
  if h.bTriggered then h
  else
    let ExpectedSize : Int :=
      match ResponseOk E c, c.Response with
      | true, some r => E.Atoi r.ContentLength
      | _, _ => 0
    let res := FromURLExpecting E h.st URL File ExpectedSize
    { st := res.1, bTriggered := true, OnCompleteCalls := h.OnCompleteCalls ++ res.2 }

/-- The source function `Download::FromURL`. -/
def FromURL (E : Engine) (s : State) (URL File : FString) : State × List Bool :=
  if TMap.Contains s.ExpectedSizeCache URL then
    FromURLExpecting E s URL File ((TMap.Find s.ExpectedSizeCache URL).getD 0)
  else
    let Request : HttpRequest := { URL := URL, Verb := Verb.HEAD }
    let h := (E.Transport s.Requests Request).foldl
      (FromURL.OnProcessRequestComplete E URL File)
      { st := ProcessRequest s Request, bTriggered := false, OnCompleteCalls := [] }
    (h.st, h.OnCompleteCalls)

/-! ## The synchronous fetcher -/

/-- Variables of the GET handler of `SynchronousFromURLExpecting`.  `bCrashed`
records that the handler dereferenced an invalid `Response` (the `UE_LOG` of
the failure branch reads `Response->GetResponseCode()` without an `IsValid`
test). -/
structure SyncHandler where
  st : State
  bTriggered : Bool
  bDownloadResult : Bool
  bIsComplete : Bool
  bCrashed : Bool
  deriving DecidableEq, Repr

/-- The lambda bound to `OnProcessRequestComplete` in
`SynchronousFromURLExpecting`. -/
def SynchronousFromURLExpecting.OnProcessRequestComplete (E : Engine) (URL File : FString)
    (h : SyncHandler) (c : Completion) : SyncHandler :=
  if h.bCrashed then h
  else if h.bTriggered then h
  else
    let DownloadSuccess := ResponseOk E c
    match DownloadSuccess, c.Response with
    | true, some r =>
      let saved := SaveArrayToFile E h.st.Files r.Content File
      let st1 := { h.st with Files := saved.2 }
      if saved.1 then
        { st := AddExpectedSize st1 URL (toInt32 (FileSize st1.Files File)),
          bTriggered := true, bDownloadResult := true, bIsComplete := true, bCrashed := false }
      else
        { st := st1, bTriggered := true, bDownloadResult := false, bIsComplete := true,
          bCrashed := false }
    | _, some _ =>
      { st := h.st, bTriggered := true, bDownloadResult := false, bIsComplete := true,
        bCrashed := false }
    | _, none =>
      { st := h.st, bTriggered := true, bDownloadResult := h.bDownloadResult,
        bIsComplete := h.bIsComplete, bCrashed := true }

/-- The source function `Download::SynchronousFromURLExpecting`.  The result is `some b` when the
function returns `b` and `none` when the process died in the handler. -/
def SynchronousFromURLExpecting (E : Engine) (s : State) (URL File : FString)
    (ExpectedSize : Int) : State × Option Bool :=
  if SkipDownload s.Files File ExpectedSize then (s, some true)
  else
    let Request : HttpRequest := { URL := URL, Verb := Verb.GET }
    let h := (E.Transport s.Requests Request).foldl
      (SynchronousFromURLExpecting.OnProcessRequestComplete E URL File)
      { st := ProcessRequest s Request, bTriggered := false, bDownloadResult := false,
        bIsComplete := false, bCrashed := false }
    (h.st, if h.bCrashed then none else some h.bDownloadResult)

/-- Variables of the HEAD handler of `SynchronousFromURL`. -/
structure ProbeHandler where
  ExpectedSize : Int
  bIsComplete : Bool
  bTriggered : Bool
  deriving DecidableEq, Repr

/-- The lambda bound to `OnProcessRequestComplete` of the HEAD probe in
`SynchronousFromURL`. -/
def SynchronousFromURL.OnProcessRequestComplete (E : Engine)
    (h : ProbeHandler) (c : Completion) : ProbeHandler :=
  if h.bTriggered then h
  else
    match ResponseOk E c, c.Response with
    | true, some r =>
      { ExpectedSize := E.Atoi r.ContentLength, bIsComplete := true, bTriggered := true }
    | _, _ => { ExpectedSize := h.ExpectedSize, bIsComplete := true, bTriggered := true }

/-- The source function `Download::SynchronousFromURL`. -/
def SynchronousFromURL (E : Engine) (s : State) (URL File : FString) :
    State × Option Bool :=
  if TMap.Contains s.ExpectedSizeCache URL then
    SynchronousFromURLExpecting E s URL File ((TMap.Find s.ExpectedSizeCache URL).getD 0)
  else
    let Request : HttpRequest := { URL := URL, Verb := Verb.HEAD }
    let h := (E.Transport s.Requests Request).foldl
      (SynchronousFromURL.OnProcessRequestComplete E)
      { ExpectedSize := 0, bIsComplete := false, bTriggered := false }
    SynchronousFromURLExpecting E (ProcessRequest s Request) URL File h.ExpectedSize

/-! ## `Concurrency::RunMany` -/

namespace Concurrency

/-- Bookkeeping of one `RunMany` call: the number of units, the number of
per-unit completions observed, the conjunction of their results, and the
values passed to the final completion so far. -/
structure FanIn where
  Count : Nat
  Observed : Nat
  bSuccess : Bool
  OnAllDoneCalls : List Bool
  deriving DecidableEq, Repr

/-- Modelled from the spec: `Concurrency::RunMany` lives in the module
`ConcurrencyHelpers`, of which the repository sources contain only the call in
`HMXYZ::Fetch`.  Section 4.3: the orchestrator starts all `count` units, waits
until all `count` completions have been observed, with no early exit on a
failure, and then invokes `onAllDone(overallSuccess)` where `overallSuccess` is
the logical AND over all per-unit results.  This is the state right after all
units have been started; with no unit there is nothing to wait for. -/
def RunMany.Start (Count : Nat) : FanIn :=
  { Count := Count, Observed := 0, bSuccess := true,
    OnAllDoneCalls := if Count = 0 then [true] else [] }

/-- Modelled from the spec: the per-unit completion `taskCompletionFn(success)`
that `Concurrency::RunMany` (not in the repository sources) hands to each unit.
It folds the result into the conjunction and fires the final completion when
the last of the `count` completions has been observed. -/
def RunMany.OnCompleteElement (f : FanIn) (bOneSuccess : Bool) : FanIn :=
  let Observed := f.Observed + 1
  let bSuccess := f.bSuccess && bOneSuccess
  { Count := f.Count, Observed := Observed, bSuccess := bSuccess,
    OnAllDoneCalls :=
      if Observed = f.Count then f.OnAllDoneCalls ++ [bSuccess] else f.OnAllDoneCalls }

/-- Modelled from the spec: a whole `Concurrency::RunMany` call (absent from the
repository sources), given the per-unit completions in the order in which they
arrive; an arrival is the index of the unit and its result. -/
def RunMany (Count : Nat) (Arrivals : List (Nat × Bool)) : FanIn :=
  Arrivals.foldl (fun f a => RunMany.OnCompleteElement f a.2) (RunMany.Start Count)

end Concurrency

/-! ## `HMXYZ::Fetch` -/

namespace HMXYZ

/-- The engine function `FString::FromInt`. -/
def FromInt (n : Int) : FString := toString n

/-- The engine function `FPaths::Combine` of two path fragments. -/
def Combine (a b : FString) : FString := a ++ "/" ++ b

/-- Case-insensitive test that `From` starts the text `s`, as `Stristr` compares. -/
def StartsWith (From s : List Char) : Bool :=
  (From.map Char.toUpper).isPrefixOf (s.map Char.toUpper)

/-- The engine function `FString::Replace(From, To)` on character lists: scan left to right, on
each occurrence of `From` (compared ignoring case, the default of
`FString::Replace`) emit `To` and continue after the occurrence.  The counter
is the number of characters of the occurrence just found that are still to be
stepped over. -/
def ReplaceChars (From To : List Char) : Nat → List Char → List Char
  | _, [] => []
  | skip + 1, _ :: cs => ReplaceChars From To skip cs
  | 0, c :: cs =>
    if StartsWith From (c :: cs) then To ++ ReplaceChars From To (From.length - 1) cs
    else c :: ReplaceChars From To 0 cs

/-- The engine function `FString::Replace`; an empty `From` leaves the string as it is. -/
def Replace (s From To : FString) : FString :=
  if From.data.isEmpty then s else String.mk (ReplaceChars From.data To.data 0 s.data)

/-- The engine function `FString::Contains(".")`. -/
def ContainsDot (s : FString) : Bool := s.data.any (fun c => c == '.')

/-- The source expression `Format.Left(Format.Find("."))`, evaluated only when
`Format` contains a dot: the part before the first dot. -/
def LeftOfDot (s : FString) : FString := String.mk (s.data.takeWhile (fun c => !(c == '.')))

/-- Members of `HMXYZ` read by `Fetch`, and the two directories it uses. -/
structure Config where
  URL : FString
  Name : FString
  Layer : FString
  Format : FString
  CRS : FString
  MinX : Int
  MaxX : Int
  MinY : Int
  MaxY : Int
  Zoom : Int
  bMaxY_IsNorth : Bool
  bGeoreferenceSlippyTiles : Bool
  bDecodeMapbox : Bool
  DownloadDir : FString
  ImageDownloaderDir : FString

/-- The `int` expression `MaxX - MinX + 1`. -/
def Width (p : Config) : Int := toInt32 (toInt32 (p.MaxX - p.MinX) + 1)

/-- The `int` expression `MaxY - MinY + 1`. -/
def Height (p : Config) : Int := toInt32 (toInt32 (p.MaxY - p.MinY) + 1)

/-- The source line `int NumTiles = (MaxX - MinX + 1) * (MaxY - MinY + 1);` -/
def NumTiles (p : Config) : Int := toInt32 (Width p * Height p)

/-- The source line `int X = i % (MaxX - MinX + 1) + MinX;` -/
def TileX (p : Config) (i : Int) : Int := toInt32 (Int.tmod i (Width p) + p.MinX)

/-- The source line `int Y = i / (MaxX - MinX + 1) + MinY;` -/
def TileY (p : Config) (i : Int) : Int := toInt32 (Int.tdiv i (Width p) + p.MinY)

/-- The source line `int XOffset = X - MinX;` -/
def XOffset (p : Config) (X : Int) : Int := toInt32 (X - p.MinX)

/-- The source line `int YOffset = bMaxY_IsNorth ? MaxY - Y : Y - MinY;` -/
def YOffset (p : Config) (Y : Int) : Int :=
  if p.bMaxY_IsNorth then toInt32 (p.MaxY - Y) else toInt32 (Y - p.MinY)

/-- The URL of a tile: the three chained `Replace` calls. -/
def ReplacedURL (p : Config) (X Y : Int) : FString :=
  Replace
    (Replace (Replace p.URL "\x7bz\x7d" (FromInt p.Zoom)) "\x7bx\x7d" (FromInt X))
    "\x7by\x7d" (FromInt Y)

/-- The download destination of a tile, `{Layer}-{Zoom}-{X}-{Y}.{Format}` under
the download directory. -/
def DownloadFile (p : Config) (X Y : Int) : FString :=
  Combine p.DownloadDir
    (p.Layer ++ "-" ++ FromInt p.Zoom ++ "-" ++ FromInt X ++ "-" ++ FromInt Y ++ "." ++ p.Format)

/-- The output name of a tile, `{Name}_x{XOffset}_y{YOffset}`. -/
def FileName (p : Config) (X Y : Int) : FString :=
  p.Name ++ "_x" ++ FromInt (XOffset p X) ++ "_y" ++ FromInt (YOffset p Y)

/-- The local `XYZFolder` of `Fetch`: `{Name}-XYZ` under the image downloader
directory. -/
def XYZFolder (p : Config) : FString := Combine p.ImageDownloaderDir (p.Name ++ "-XYZ")

/-- A call of an external collaborator made by a tile task, with its result. -/
inductive Step where
  | Decode (InputFile OutputFile : FString) (bOk : Bool)
  | Extract (ExtractParams : FString) (bOk : Bool)
  | FindFiles (ExtractionDir Pattern : FString) (Num : Nat)
  | AddGeoreference (InputFile OutputFile : FString) (NorthWest SouthEast : Int × Int × Int)
      (bOk : Bool)
  | Copy (OutputFile InputFile : FString) (bOk : Bool)
  deriving DecidableEq, Repr

/-- Whether the call recorded in a step succeeded; for the file search this is
the test `TileFiles.Num() == 1` made on its result. -/
def Step.Ok : Step → Bool
  | Step.Decode _ _ b => b
  | Step.Extract _ b => b
  | Step.FindFiles _ _ n => n == 1
  | Step.AddGeoreference _ _ _ _ b => b
  | Step.Copy _ _ b => b

/-- What the external collaborators answer for one tile: the values the
fetcher started with a URL and a destination passes to its completion callback
(one value when it honours its contract), and the results of the decoder, of
`7z`, of the recursive file search, of `GDALInterface::AddGeoreference`, of
`IFileManager::Copy` and of `FPaths::GetExtension`.  `bDecodeReports` says
whether a failing decoder asks for an error dialog. -/
structure TileOutcome where
  Download : FString → FString → List Bool
  bDecodeOk : Bool
  bDecodeReports : Bool
  bExtractOk : Bool
  TileFiles : List FString
  bGeoreferenceOk : Bool
  bCopyOk : Bool
  GetExtension : FString → FString

/-- State shared by the tile tasks of one run: the member `OutputFiles`, the
flag `*bShowedDialog`, the number of error dialogs opened, the progress frames
entered, and the external calls made so far. -/
structure RunState where
  OutputFiles : List FString
  bShowedDialog : Bool
  Dialogs : Nat
  Progress : Nat
  Steps : List Step
  deriving DecidableEq, Repr

/-- The guarded report `if (!(*bShowedDialog)) { *bShowedDialog = true; Open(...) }`. -/
def ShowDialogOnce (r : RunState) : RunState :=
  if !r.bShowedDialog then { r with bShowedDialog := true, Dialogs := r.Dialogs + 1 } else r

/-- Modelled from the spec: `MapboxHelpers::DecodeMapboxThreeBands` is declared in
`MapboxHelpers.h` but its body is not in the repository sources.  Section 4.4:
the decoder may fail, and its failure is reported once per overall run, the
"showed dialog" guard it is given preventing duplicate reports. -/
def DecodeMapboxThreeBands (o : TileOutcome) (InputFile OutputFile : FString) (r : RunState) :
    Bool × RunState :=
  let r1 := { r with Steps := r.Steps ++ [Step.Decode InputFile OutputFile o.bDecodeOk] }
  if o.bDecodeOk then (true, r1)
  else (false, if o.bDecodeReports then ShowDialogOnce r1 else r1)

/-- Lines 187-216 of the download callback: `AddGeoreference` with the corners
taken from `(X, Y)` and `(X+1, Y+1)` when `bGeoreferenceSlippyTiles`, a
verbatim copy otherwise; the output path is appended to `OutputFiles` when the
step succeeds.  The boolean is `false` when the callback leaves through the
failure exit of the step (`OnCompleteElement(false); return;`). -/
def Materialize (p : Config) (o : TileOutcome) (X Y : Int) (DecodedFile : FString)
    (r : RunState) : Bool × RunState :=
  if p.bGeoreferenceSlippyTiles then
    let OutputFile := Combine (XYZFolder p) (FileName p X Y ++ ".tif")
    let r1 := { r with Steps := r.Steps ++
      [Step.AddGeoreference DecodedFile OutputFile (X, Y, p.Zoom)
        (toInt32 (X + 1), toInt32 (Y + 1), p.Zoom) o.bGeoreferenceOk] }
    if !o.bGeoreferenceOk then (false, r1)
    else (true, { r1 with OutputFiles := r1.OutputFiles ++ [OutputFile] })
  else
    let OutputFile := Combine (XYZFolder p) (FileName p X Y ++ o.GetExtension DecodedFile)
    let r1 := { r with Steps := r.Steps ++ [Step.Copy OutputFile DecodedFile o.bCopyOk] }
    if !o.bCopyOk then (false, r1)
    else (true, { r1 with OutputFiles := r1.OutputFiles ++ [OutputFile] })

/-- Lines 187-221 of the download callback, reached with `bOneSuccess` true:
the materialize step, then `Task->EnterProgressFrame(1)` and
`OnCompleteElement(bOneSuccess)`. -/
def MaterializeAndReport (p : Config) (o : TileOutcome) (X Y : Int) (DecodedFile : FString)
    (r : RunState) : RunState × List Bool :=
  let res := Materialize p o X Y DecodedFile r
  if !res.1 then (res.2, [false])
  else ({ res.2 with Progress := res.2.Progress + 1 }, [true])

/-- Lines 152-221 of the download callback, reached with `bOneSuccess` true:
the extraction when `Format` contains a dot, then the materialize step. -/
def ExtractAndMaterialize (p : Config) (o : TileOutcome) (X Y : Int) (DecodedFile : FString)
    (r : RunState) : RunState × List Bool :=
  if ContainsDot p.Format then
    let ExtractionDir := Combine p.DownloadDir
      (p.Layer ++ "-" ++ FromInt p.Zoom ++ "-" ++ FromInt X ++ "-" ++ FromInt Y)
    let ExtractParams :=
      "x -aos \"" ++ DownloadFile p X Y ++ "\" -o\"" ++ ExtractionDir ++ "\""
    let r1 := { r with Steps := r.Steps ++ [Step.Extract ExtractParams o.bExtractOk] }
    if !o.bExtractOk then (r1, [false])
    else
      let ImageFormat := LeftOfDot p.Format
      let r2 := { r1 with Steps := r1.Steps ++
        [Step.FindFiles ExtractionDir ("*." ++ ImageFormat) o.TileFiles.length] }
      if o.TileFiles.length != 1 then (ShowDialogOnce r2, [false])
      else MaterializeAndReport p o X Y (o.TileFiles.headD "") r2
  else MaterializeAndReport p o X Y DecodedFile r

/-- The callback that the per-tile lambda passes to `Download::FromURL`.
Returns the state after the callback and the values it passed to
`OnCompleteElement`, in order. -/
def OnDownloadComplete (p : Config) (o : TileOutcome) (X Y : Int) (r : RunState)
    (bOneSuccess : Bool) : RunState × List Bool :=
  if bOneSuccess then
    if p.bDecodeMapbox then
      let DecodedFile := Combine p.DownloadDir
        ("MapboxTerrainDEMV1-" ++ FromInt p.Zoom ++ "-" ++ FromInt X ++ "-" ++ FromInt Y ++
          "-decoded.tif")
      let res := DecodeMapboxThreeBands o (DownloadFile p X Y) DecodedFile r
      if !res.1 then (ShowDialogOnce res.2, [false])
      else ExtractAndMaterialize p o X Y DecodedFile res.2
    else ExtractAndMaterialize p o X Y (DownloadFile p X Y) r
  else
    ({ r with Progress := r.Progress + 1 }, [bOneSuccess])

/-- The per-tile lambda handed to `Concurrency::RunMany`: it resolves the tile
of index `i` and starts `Download::FromURL` with the callback above, which the
fetcher then invokes with each value it delivers. -/
def PerTile (p : Config) (o : TileOutcome) (r : RunState) (i : Int) : RunState × List Bool :=
  let X := TileX p i
  let Y := TileY p i
  (o.Download (ReplacedURL p X Y) (DownloadFile p X Y)).foldl
    (fun acc bOneSuccess =>
      let res := OnDownloadComplete p o X Y acc.1 bOneSuccess
      (res.1, acc.2 ++ res.2))
    (r, [])

/-- The tile tasks of one run, their download callbacks taken in the order
`Order` of the tile indices; `Outcomes i` is what the collaborators answer for
tile `i`.  Returns the final state and every `OnCompleteElement` call as the
pair of the tile index and the value passed. -/
def RunTiles (p : Config) (Outcomes : Int → TileOutcome) (Order : List Int) (r : RunState) :
    RunState × List (Int × Bool) :=
  Order.foldl
    (fun acc i =>
      let res := PerTile p (Outcomes i) acc.1 i
      (res.1, acc.2 ++ res.2.map (fun b => (i, b))))
    (r, [])

/-! ### The whole of `HMXYZ::Fetch` -/

/-- What the collaborators of `Fetch` answer outside the tile tasks: whether
the XYZ folder could be deleted and created again, whether the user answers
Cancel to the confirmation, whether `7z` can be run, what the collaborators
answer for each tile, and the order in which the orchestrator lets the tile
tasks run (a permutation of the indices below `NumTiles`). -/
structure FetchEnv where
  bFolderOk : Bool
  bUserCancels : Bool
  bSevenZipOk : Bool
  Outcomes : Int → TileOutcome
  Order : List Int

/-- What a call of `Fetch` did: the values passed to `OnComplete`, the calls of
`Directories::CouldNotInitializeDirectory`, the message dialogs it opened
itself before the tile tasks, the confirmations it asked for, the number of
tile tasks handed to `Concurrency::RunMany` (`none` when `RunMany` was not
called), the value assigned to `OutputCRS` (`none` when it was not assigned),
the `Download::FromURL` calls of the tile tasks as pairs of URL and
destination, and the state shared by the tile tasks. -/
structure FetchResult where
  OnCompleteCalls : List Bool
  FolderErrors : Nat
  MessageDialogs : Nat
  Confirmations : Nat
  Scheduled : Option Int
  OutputCRS : Option FString
  Downloads : List (FString × FString)
  Run : RunState

/-- The function `HMXYZ::Fetch`, for a `HMXYZ` object whose member `OutputFiles`
holds `OutputFiles` when it is called. -/
def Fetch (p : Config) (env : FetchEnv) (OutputFiles : List FString) : FetchResult :=
  let Run0 : RunState :=
    { OutputFiles := OutputFiles, bShowedDialog := false, Dialogs := 0, Progress := 0,
      Steps := [] }
  if !env.bFolderOk then
    { OnCompleteCalls := [false], FolderErrors := 1, MessageDialogs := 0, Confirmations := 0,
      Scheduled := none, OutputCRS := none, Downloads := [], Run := Run0 }
  else if !p.bGeoreferenceSlippyTiles && p.CRS.isEmpty then
    { OnCompleteCalls := [false], FolderErrors := 0, MessageDialogs := 1, Confirmations := 0,
      Scheduled := none, OutputCRS := none, Downloads := [], Run := Run0 }
  else
    let OutputCRS : FString := if p.bGeoreferenceSlippyTiles then "EPSG:3857" else p.CRS
    if decide (p.MinX > p.MaxX) || decide (p.MinY > p.MaxY) then
      { OnCompleteCalls := [false], FolderErrors := 0, MessageDialogs := 1, Confirmations := 0,
        Scheduled := none, OutputCRS := some OutputCRS, Downloads := [],
        Run := Run0 }
    else
      let Confirmations : Nat := if NumTiles p > 16 then 1 else 0
      if decide (NumTiles p > 16) && env.bUserCancels then
        { OnCompleteCalls := [false], FolderErrors := 0, MessageDialogs := 0,
          Confirmations := Confirmations, Scheduled := none, OutputCRS := some OutputCRS,
          Downloads := [], Run := Run0 }
      else if ContainsDot p.Format && !env.bSevenZipOk then
        { OnCompleteCalls := [false], FolderErrors := 0, MessageDialogs := 1,
          Confirmations := Confirmations, Scheduled := none, OutputCRS := some OutputCRS,
          Downloads := [], Run := Run0 }
      else
        let Tiles := RunTiles p env.Outcomes env.Order Run0
        let FanIn := Concurrency.RunMany (NumTiles p).toNat
          (Tiles.2.map (fun a => (a.1.toNat, a.2)))
        { OnCompleteCalls := FanIn.OnAllDoneCalls, FolderErrors := 0, MessageDialogs := 0,
          Confirmations := Confirmations, Scheduled := some (NumTiles p),
          OutputCRS := some OutputCRS,
          Downloads := env.Order.map (fun i =>
            (ReplacedURL p (TileX p i) (TileY p i), DownloadFile p (TileX p i) (TileY p i))),
          Run := Tiles.1 }

/-! ### The tile outcome in the words of the specification -/

/-- Result of the materialize step: the georeferencing when
`bGeoreferenceSlippyTiles`, the verbatim copy otherwise. -/
def MaterializeOk (p : Config) (o : TileOutcome) : Bool :=
  if p.bGeoreferenceSlippyTiles then o.bGeoreferenceOk else o.bCopyOk

/-- The outcome of a tile as the specification states it: the download
succeeded, and decoding is disabled or the decode succeeded, and the format is
not an archive or the extraction succeeded with exactly one matching file, and
the materialize step succeeded. -/
def TileSucceeds (p : Config) (o : TileOutcome) (bOneSuccess : Bool) : Bool :=
  bOneSuccess && (!p.bDecodeMapbox || o.bDecodeOk) &&
    (!ContainsDot p.Format || (o.bExtractOk && o.TileFiles.length == 1)) &&
    MaterializeOk p o

/-- The file handed to the materialize step: the single extracted file for an
archive format, else the decoded file when decoding is enabled, else the
downloaded file. -/
def MaterializeInput (p : Config) (o : TileOutcome) (X Y : Int) : FString :=
  if ContainsDot p.Format then o.TileFiles.headD ""
  else if p.bDecodeMapbox then
    Combine p.DownloadDir
      ("MapboxTerrainDEMV1-" ++ FromInt p.Zoom ++ "-" ++ FromInt X ++ "-" ++ FromInt Y ++
        "-decoded.tif")
  else DownloadFile p X Y

/-- The output path of a tile: `{Name}_x{XOffset}_y{YOffset}` under the XYZ
folder, with extension `.tif` when georeferencing and the extension of the
materialized file otherwise. -/
def OutputFileOf (p : Config) (o : TileOutcome) (X Y : Int) : FString :=
  Combine (XYZFolder p)
    (FileName p X Y ++
      (if p.bGeoreferenceSlippyTiles then ".tif"
       else o.GetExtension (MaterializeInput p o X Y)))

/-- Whether a step is the materialize step of a tile: the georeferencing or the
verbatim copy. -/
def Step.IsMaterialize : Step → Bool
  | Step.AddGeoreference _ _ _ _ _ => true
  | Step.Copy _ _ _ => true
  | _ => false

/-- A list of executed steps stops at its first failure: every step but the
last one succeeded. -/
def StopsAtFailure : List Step → Bool
  | [] => true
  | [_] => true
  | st :: st2 :: rest => st.Ok && StopsAtFailure (st2 :: rest)

/-- The error dialogs opened so far plus the one dialog that the guard
`*bShowedDialog` still allows. -/
def DialogBudget (r : RunState) : Nat := r.Dialogs + (if r.bShowedDialog then 0 else 1)

/-- The dialog guard is respected between two states of a run: the budget of
dialogs is the same and a guard that was set is still set. -/
def KeepsGuard (r t : RunState) : Prop :=
  DialogBudget t = DialogBudget r ∧ (r.bShowedDialog = true → t.bShowedDialog = true)

/-- The value the fetcher delivers for tile `i`, when it delivers one. -/
def Delivered (p : Config) (o : TileOutcome) (i : Int) : Bool :=
  (o.Download (ReplacedURL p (TileX p i) (TileY p i))
    (DownloadFile p (TileX p i) (TileY p i))).headD false

/-! ### Tokens of the URL template -/

/-- A character of a decimal rendering: a digit or the minus sign. -/
def IsNumeric (c : Char) : Bool := c.isDigit || c == '-'

/-- The number written by a list of decimal digits. -/
def DigitsValue (l : List Char) : Nat := l.foldl (fun a c => a * 10 + (c.toNat - 48)) 0

/-- The token with letter `a`: an opening brace, the letter, a closing brace. -/
def Tok (a : Char) : List Char := ['{', a, '}']

/-- A letter that can name a token: its upper case is neither a character of a
decimal rendering nor the opening brace. -/
def IsLetter (a : Char) : Bool := !(IsNumeric a.toUpper) && !(a.toUpper == '{')

/-- The replacement of the first token of `toks` that starts the text `l`,
compared ignoring case. -/
def TokenAt (toks : List (Char × List Char)) (l : List Char) : Option (List Char) :=
  (toks.find? (fun t => StartsWith (Tok t.1) l)).map (fun t => t.2)

/-- The substitution in the words of the specification: one pass from left to
right over a text that replaces every occurrence of a token of `toks` by the
replacement of the token and leaves all other text unchanged.  The counter is
the number of characters of the occurrence just found that are still to be
stepped over. -/
def Substitute (toks : List (Char × List Char)) : Nat → List Char → List Char
  | _, [] => []
  | skip + 1, _ :: cs => Substitute toks skip cs
  | 0, c :: cs =>
    match TokenAt toks (c :: cs) with
    | some To => To ++ Substitute toks 2 cs
    | none => c :: Substitute toks 0 cs

/-- Whether the token with letter `a`, compared ignoring case, occurs in a
text. -/
def HasToken (a : Char) : List Char → Bool
  | [] => false
  | c :: cs => StartsWith (Tok a) (c :: cs) || HasToken a cs

/-- The replacements of a token list are decimal renderings: not empty and
made of digits and minus signs. -/
def NumericToks (toks : List (Char × List Char)) : Prop :=
  ∀ t ∈ toks, t.2 ≠ [] ∧ ∀ d ∈ t.2, IsNumeric d = true

/-- The `Replace` calls for the tokens of `order`, applied one after the other
in the order of the list. -/
def ReplaceAll (order : List (Char × List Char)) (s : List Char) : List Char :=
  order.foldl (fun acc t => ReplaceChars (Tok t.1) t.2 0 acc) s

/-- The three tokens of a tile URL with their replacements, in the order in
which `Fetch` replaces them. -/
def URLTokens (p : Config) (X Y : Int) : List (Char × List Char) :=
  [('z', (FromInt p.Zoom).data), ('x', (FromInt X).data), ('y', (FromInt Y).data)]

end HMXYZ

/-- The expected size that a HEAD probe yields, in the words of the
specification: the advertised `Content-Length` when the probe succeeded with an
OK status, and 0 when it failed, had no valid response or a non-OK status. -/
def ProbedSize (E : Engine) (c : Completion) : Int :=
  match c.Response with
  | some r => if c.bWasSuccessful && E.IsOk r.ResponseCode then E.Atoi r.ContentLength else 0
  | none => 0

/-- The state after a response body has been saved to `File` and its size
recorded for `URL`. -/
def Saved (s : State) (URL File : FString) (Content : List Nat) : State :=
  AddExpectedSize { s with Files := WriteFile s.Files File Content } URL
    (toInt32 (Content.length : Int))

/-- A sequence of `AddExpectedSize(URL, Size)` calls. -/
def AddExpectedSizes (s : State) (Calls : List (FString × Int)) : State :=
  Calls.foldl (fun st c => AddExpectedSize st c.1 c.2) s

/-! ## Sample data -/

namespace Sample

/-- Leading decimal digits of a text, as a number. -/
def AtoiDigits : List Char → Nat → Nat
  | [], acc => acc
  | c :: cs, acc =>
    if 48 ≤ c.toNat ∧ c.toNat ≤ 57 then AtoiDigits cs (acc * 10 + (c.toNat - 48)) else acc

/-- An `Atoi` for unsigned decimal texts. -/
def Atoi (s : String) : Int := toInt32 (AtoiDigits s.data 0)

/-- Status codes 200 to 206. -/
def IsOk (c : Int) : Bool := decide (200 ≤ c ∧ c ≤ 206)

/-- A server that answers every HEAD with status 200 and `Content-Length: 3`
and every GET with status 200 and a body of three bytes; the disk accepts
every write. -/
def Server : Engine :=
  { Atoi := Atoi
    IsOk := IsOk
    CanSave := fun _ _ => true
    Transport := fun _ r =>
      match r.Verb with
      | Verb.HEAD =>
        [{ Response := some { ResponseCode := 200, ContentLength := "3", Content := [] },
           bWasSuccessful := true }]
      | Verb.GET =>
        [{ Response := some { ResponseCode := 200, ContentLength := "3", Content := [7, 8, 9] },
           bWasSuccessful := true }] }

/-- A server that answers every request with status 404. -/
def NotFound : Engine :=
  { Atoi := Atoi
    IsOk := IsOk
    CanSave := fun _ _ => true
    Transport := fun _ _ =>
      [{ Response := some { ResponseCode := 404, ContentLength := "", Content := [] },
         bWasSuccessful := true }] }

/-- The server `Server` in front of a disk that refuses every write. -/
def DiskFull : Engine := { Server with CanSave := fun _ _ => false }

/-- A state with nothing on disk and an empty cache. -/
def Fresh : State := { Files := [], ExpectedSizeCache := [], Requests := [], CacheSaves := 0 }

/-- An empty file `f` on disk, and the cache record `(u, 0)`. -/
def EmptyFileCachedZero : State :=
  { Files := [("f", [])], ExpectedSizeCache := [("u", 0)], Requests := [], CacheSaves := 0 }

/-- A three-byte file `f` on disk, and the cache record `(u, 3)`. -/
def Downloaded : State :=
  { Files := [("f", [7, 8, 9])], ExpectedSizeCache := [("u", 3)], Requests := [],
    CacheSaves := 1 }

/-- Nothing on disk, and the stale cache record `(u, 5)`. -/
def StaleCache : State :=
  { Files := [], ExpectedSizeCache := [("u", 5)], Requests := [], CacheSaves := 1 }

/-- A grid of 3 x 3 tiles at zoom 3, a zipped format, georeferenced. -/
def Grid : HMXYZ.Config :=
  { URL := "http://tiles/\x7bz\x7d/\x7bx\x7d/\x7by\x7d.zip"
    Name := "N"
    Layer := "L"
    Format := "tif.zip"
    CRS := ""
    MinX := 5
    MaxX := 7
    MinY := 10
    MaxY := 12
    Zoom := 3
    bMaxY_IsNorth := true
    bGeoreferenceSlippyTiles := true
    bDecodeMapbox := false
    DownloadDir := "dl"
    ImageDownloaderDir := "img" }

/-- A tile for which every collaborator succeeds and the archive holds one
matching file. -/
def GoodTile : HMXYZ.TileOutcome :=
  { Download := fun _ _ => [true]
    bDecodeOk := true
    bDecodeReports := true
    bExtractOk := true
    TileFiles := ["dl/L-3-5-10/a.tif"]
    bGeoreferenceOk := true
    bCopyOk := true
    GetExtension := fun _ => ".tif" }

/-- A tile whose archive holds two matching files. -/
def TwoFilesTile : HMXYZ.TileOutcome :=
  { GoodTile with TileFiles := ["dl/L-3-6-10/a.tif", "dl/L-3-6-10/b.tif"] }

/-- The state of a run before any tile has completed. -/
def RunStart : HMXYZ.RunState :=
  { OutputFiles := [], bShowedDialog := false, Dialogs := 0, Progress := 0, Steps := [] }

/-- Outcomes of a run in which tile 1 has two matching files and every other
tile is good. -/
def Outcomes (i : Int) : HMXYZ.TileOutcome := if i = 1 then TwoFilesTile else GoodTile

/-- The sample grid with the X range turned around: `MinX = 3`, `MaxX = 1`. -/
def BadRange : HMXYZ.Config := { Grid with MinX := 3, MaxX := 1 }

/-- All tiles of zoom level 16: 65536 x 65536 tiles, a plain format. -/
def WholeWorld : HMXYZ.Config :=
  { Grid with MinX := 0, MaxX := 65535, MinY := 0, MaxY := 65535, Zoom := 16, Format := "png" }

/-- The sample grid widened to 6 x 3 = 18 tiles. -/
def Grid18 : HMXYZ.Config := { Grid with MaxX := 10 }

/-- Collaborators of `Fetch` that all succeed, for a user who answers OK. -/
def Env (Order : List Int) : HMXYZ.FetchEnv :=
  { bFolderOk := true, bUserCancels := false, bSevenZipOk := true, Outcomes := Outcomes,
    Order := Order }

/-- Collaborators of `Fetch` that all succeed, for a user who answers Cancel. -/
def EnvCancel (Order : List Int) : HMXYZ.FetchEnv :=
  { Env Order with bUserCancels := true }

/-- A tile whose decoder fails and asks for a dialog. -/
def UndecodableTile : HMXYZ.TileOutcome := { GoodTile with bDecodeOk := false }

/-- The sample grid with decoding of the Mapbox encoding switched on. -/
def MapboxGrid : HMXYZ.Config := { Grid with bDecodeMapbox := true }

/-- Outcomes of a run in which tiles 0 and 2 cannot be decoded and tile 1 has two
matching files. -/
def FailingOutcomes (i : Int) : HMXYZ.TileOutcome :=
  if i = 1 then TwoFilesTile else UndecodableTile

/-- A transport on which every request fails without a response: the handler is
invoked with an invalid `Response` and `bWasSuccessful = false`. -/
def Refused : Engine :=
  { Atoi := Atoi
    IsOk := IsOk
    CanSave := fun _ _ => true
    Transport := fun _ _ => [{ Response := none, bWasSuccessful := false }] }

/-- The server `Server` on a transport that invokes every completion handler
three times. -/
def Repeating : Engine :=
  { Server with
    Transport := fun h r => Server.Transport h r ++ Server.Transport h r ++ Server.Transport h r }

/-- The grid with the tokens of its template written in upper case. -/
def UpperTemplate : HMXYZ.Config :=
  { Grid with URL := "http://tiles/\x7bZ\x7d/\x7bX\x7d/\x7bY\x7d.png" }

/-- The grid with a template that has no token for the row. -/
def NoRowToken : HMXYZ.Config := { Grid with URL := "http://tiles/\x7bz\x7d/\x7bx\x7d.png" }

/-- A server whose resource is empty: it answers 200 with a `Content-Length`
of 0 and no body. -/
def EmptyBody : Engine :=
  { Atoi := Atoi
    IsOk := IsOk
    CanSave := fun _ _ => true
    Transport := fun _ r =>
      match r.Verb with
      | Verb.HEAD =>
        [{ Response := some { ResponseCode := 200, ContentLength := "0", Content := [] },
           bWasSuccessful := true }]
      | Verb.GET =>
        [{ Response := some { ResponseCode := 200, ContentLength := "0", Content := [] },
           bWasSuccessful := true }] }

end Sample

/-! ## Lemmas on the fetcher -/

theorem SkipDownload_iff (fs : Files) (File : FString) (ExpectedSize : Int) :
    SkipDownload fs File ExpectedSize = true ↔
      (FileExists fs File = true ∧ ExpectedSize ≠ 0 ∧ FileSize fs File = ExpectedSize) := by
  simp [SkipDownload, and_assoc]

theorem AddExpectedSize_Requests (s : State) (URL : FString) (n : Int) :
    (AddExpectedSize s URL n).Requests = s.Requests := by
  unfold AddExpectedSize SaveExpectedSizeCache
  split <;> rfl

theorem AddExpectedSize_Files (s : State) (URL : FString) (n : Int) :
    (AddExpectedSize s URL n).Files = s.Files := by
  unfold AddExpectedSize SaveExpectedSizeCache
  split <;> rfl

theorem asyncGet_triggered (E : Engine) (URL File : FString) (h : AsyncHandler)
    (c : Completion) (ht : h.bTriggered = true) :
    FromURLExpecting.OnProcessRequestComplete E URL File h c = h := by
  simp [FromURLExpecting.OnProcessRequestComplete, ht]

theorem asyncGet_sets_triggered (E : Engine) (URL File : FString) (h : AsyncHandler)
    (c : Completion) :
    (FromURLExpecting.OnProcessRequestComplete E URL File h c).bTriggered = true := by
  unfold FromURLExpecting.OnProcessRequestComplete
  by_cases ht : h.bTriggered = true
  · simp [ht]
  · rw [if_neg ht]
    dsimp only
    split <;> rfl

theorem asyncGet_foldl_triggered (E : Engine) (URL File : FString) (cs : List Completion)
    (h : AsyncHandler) (ht : h.bTriggered = true) :
    cs.foldl (FromURLExpecting.OnProcessRequestComplete E URL File) h = h := by
  induction cs with
  | nil => rfl
  | cons c cs ih => simp [List.foldl, asyncGet_triggered E URL File h c ht, ih]

/-- Only the first completion delivered to the GET handler has an effect. -/
theorem asyncGet_foldl_cons (E : Engine) (URL File : FString) (c : Completion)
    (cs : List Completion) (h : AsyncHandler) :
    (c :: cs).foldl (FromURLExpecting.OnProcessRequestComplete E URL File) h =
      FromURLExpecting.OnProcessRequestComplete E URL File h c := by
  simp only [List.foldl]
  exact asyncGet_foldl_triggered E URL File cs _ (asyncGet_sets_triggered E URL File h c)

theorem asyncGet_Requests (E : Engine) (URL File : FString) (h : AsyncHandler)
    (c : Completion) :
    (FromURLExpecting.OnProcessRequestComplete E URL File h c).st.Requests = h.st.Requests := by
  unfold FromURLExpecting.OnProcessRequestComplete
  by_cases ht : h.bTriggered = true
  · simp [ht]
  · rw [if_neg ht]
    dsimp only
    split
    · dsimp only
      split
      · rw [AddExpectedSize_Requests]
      · rfl
    · rfl

theorem asyncGet_foldl_Requests (E : Engine) (URL File : FString) (cs : List Completion)
    (h : AsyncHandler) :
    (cs.foldl (FromURLExpecting.OnProcessRequestComplete E URL File) h).st.Requests =
      h.st.Requests := by
  cases cs with
  | nil => rfl
  | cons c cs => rw [asyncGet_foldl_cons, asyncGet_Requests]

theorem FromURLExpecting_Requests (E : Engine) (s : State) (URL File : FString)
    (ExpectedSize : Int) :
    (FromURLExpecting E s URL File ExpectedSize).1.Requests =
      s.Requests ++ (if SkipDownload s.Files File ExpectedSize then []
        else [{ URL := URL, Verb := Verb.GET }]) := by
  unfold FromURLExpecting
  by_cases hs : SkipDownload s.Files File ExpectedSize = true
  · simp [hs]
  · simp only [hs, Bool.false_eq_true, if_false]
    rw [asyncGet_foldl_Requests]
    rfl

theorem syncGet_done (E : Engine) (URL File : FString) (h : SyncHandler) (c : Completion)
    (hd : h.bCrashed = true ∨ h.bTriggered = true) :
    SynchronousFromURLExpecting.OnProcessRequestComplete E URL File h c = h := by
  unfold SynchronousFromURLExpecting.OnProcessRequestComplete
  by_cases hc : h.bCrashed = true
  · simp [hc]
  · rcases hd with hd | hd
    · exact absurd hd hc
    · simp [hd]

theorem syncGet_sets_done (E : Engine) (URL File : FString) (h : SyncHandler)
    (c : Completion) :
    (SynchronousFromURLExpecting.OnProcessRequestComplete E URL File h c).bCrashed = true ∨
      (SynchronousFromURLExpecting.OnProcessRequestComplete E URL File h c).bTriggered = true := by
  by_cases hc : h.bCrashed = true
  · rw [syncGet_done E URL File h c (Or.inl hc)]
    exact Or.inl hc
  · by_cases ht : h.bTriggered = true
    · rw [syncGet_done E URL File h c (Or.inr ht)]
      exact Or.inr ht
    · right
      unfold SynchronousFromURLExpecting.OnProcessRequestComplete
      rw [if_neg hc, if_neg ht]
      dsimp only
      split
      · split <;> rfl
      · rfl
      · rfl

theorem syncGet_foldl_done (E : Engine) (URL File : FString) (cs : List Completion)
    (h : SyncHandler) (hd : h.bCrashed = true ∨ h.bTriggered = true) :
    cs.foldl (SynchronousFromURLExpecting.OnProcessRequestComplete E URL File) h = h := by
  induction cs with
  | nil => rfl
  | cons c cs ih => simp [List.foldl, syncGet_done E URL File h c hd, ih]

/-- Only the first completion delivered to the synchronous GET handler has an
effect. -/
theorem syncGet_foldl_cons (E : Engine) (URL File : FString) (c : Completion)
    (cs : List Completion) (h : SyncHandler) :
    (c :: cs).foldl (SynchronousFromURLExpecting.OnProcessRequestComplete E URL File) h =
      SynchronousFromURLExpecting.OnProcessRequestComplete E URL File h c := by
  simp only [List.foldl]
  exact syncGet_foldl_done E URL File cs _ (syncGet_sets_done E URL File h c)

theorem syncGet_Requests (E : Engine) (URL File : FString) (h : SyncHandler)
    (c : Completion) :
    (SynchronousFromURLExpecting.OnProcessRequestComplete E URL File h c).st.Requests =
      h.st.Requests := by
  unfold SynchronousFromURLExpecting.OnProcessRequestComplete
  by_cases hc : h.bCrashed = true
  · simp [hc]
  · rw [if_neg hc]
    by_cases ht : h.bTriggered = true
    · simp [ht]
    · rw [if_neg ht]
      dsimp only
      split
      · split
        · exact AddExpectedSize_Requests _ _ _
        · rfl
      · rfl
      · rfl

theorem syncGet_foldl_Requests (E : Engine) (URL File : FString) (cs : List Completion)
    (h : SyncHandler) :
    (cs.foldl (SynchronousFromURLExpecting.OnProcessRequestComplete E URL File) h).st.Requests =
      h.st.Requests := by
  cases cs with
  | nil => rfl
  | cons c cs => rw [syncGet_foldl_cons, syncGet_Requests]

theorem SynchronousFromURLExpecting_Requests (E : Engine) (s : State) (URL File : FString)
    (ExpectedSize : Int) :
    (SynchronousFromURLExpecting E s URL File ExpectedSize).1.Requests =
      s.Requests ++ (if SkipDownload s.Files File ExpectedSize then []
        else [{ URL := URL, Verb := Verb.GET }]) := by
  unfold SynchronousFromURLExpecting
  by_cases hs : SkipDownload s.Files File ExpectedSize = true
  · simp [hs]
  · simp only [hs, Bool.false_eq_true, if_false]
    rw [syncGet_foldl_Requests]
    rfl

theorem TMap.Contains_eq_isSome (m : List (FString × Int)) (k : FString) :
    TMap.Contains m k = (TMap.Find m k).isSome := by
  induction m with
  | nil => rfl
  | cons p m ih =>
    unfold TMap.Contains TMap.Find at *
    by_cases hp : (p.1 == k) = true
    · simp [List.any_cons, List.find?_cons, hp]
    · simp only [Bool.not_eq_true] at hp
      simp only [List.any_cons, List.find?_cons, hp, Bool.false_or]
      exact ih

theorem TMap.Contains_of_Find (m : List (FString × Int)) (k : FString) (v : Int)
    (h : TMap.Find m k = some v) : TMap.Contains m k = true := by
  rw [TMap.Contains_eq_isSome, h]
  rfl

theorem TMap.Find_none_of_not_Contains (m : List (FString × Int)) (k : FString)
    (h : TMap.Contains m k = false) : TMap.Find m k = none := by
  rw [TMap.Contains_eq_isSome] at h
  cases hf : TMap.Find m k with
  | none => rfl
  | some v => rw [hf] at h; cases h

theorem asyncHead_triggered (E : Engine) (URL File : FString) (h : AsyncHandler)
    (c : Completion) (ht : h.bTriggered = true) :
    FromURL.OnProcessRequestComplete E URL File h c = h := by
  simp [FromURL.OnProcessRequestComplete, ht]

theorem asyncHead_foldl_triggered (E : Engine) (URL File : FString) (cs : List Completion)
    (h : AsyncHandler) (ht : h.bTriggered = true) :
    cs.foldl (FromURL.OnProcessRequestComplete E URL File) h = h := by
  induction cs with
  | nil => rfl
  | cons c cs ih => simp [List.foldl, asyncHead_triggered E URL File h c ht, ih]

theorem asyncHead_sets_triggered (E : Engine) (URL File : FString) (h : AsyncHandler)
    (c : Completion) :
    (FromURL.OnProcessRequestComplete E URL File h c).bTriggered = true := by
  unfold FromURL.OnProcessRequestComplete
  by_cases ht : h.bTriggered = true
  · simp [ht]
  · rw [if_neg ht]

/-- Only the first completion delivered to the handler of the probe has an
effect. -/
theorem asyncHead_foldl_cons (E : Engine) (URL File : FString) (c : Completion)
    (cs : List Completion) (h : AsyncHandler) :
    (c :: cs).foldl (FromURL.OnProcessRequestComplete E URL File) h =
      FromURL.OnProcessRequestComplete E URL File h c := by
  simp only [List.foldl]
  exact asyncHead_foldl_triggered E URL File cs _ (asyncHead_sets_triggered E URL File h c)

/-- The expected size computed by both probe handlers is `ProbedSize`. -/
theorem probe_match_eq (E : Engine) (c : Completion) :
    (match ResponseOk E c, c.Response with
      | true, some r => E.Atoi r.ContentLength
      | _, _ => 0) = ProbedSize E c := by
  unfold ProbedSize ResponseOk
  cases hr : c.Response with
  | none => simp
  | some r =>
    cases hb : c.bWasSuccessful <;> cases hk : E.IsOk r.ResponseCode <;> simp [*]

/-- A first probe completion makes `FromURL` continue as `FromURLExpecting` with
the probed size. -/
theorem asyncHead_first (E : Engine) (URL File : FString) (s : State) (c : Completion) :
    FromURL.OnProcessRequestComplete E URL File
        { st := s, bTriggered := false, OnCompleteCalls := [] } c =
      { st := (FromURLExpecting E s URL File (ProbedSize E c)).1, bTriggered := true,
        OnCompleteCalls := (FromURLExpecting E s URL File (ProbedSize E c)).2 } := by
  unfold FromURL.OnProcessRequestComplete
  simp only [Bool.false_eq_true, if_false, List.nil_append]
  rw [probe_match_eq]

theorem FromURL_cached (E : Engine) (s : State) (URL File : FString) (n : Int)
    (h : TMap.Find s.ExpectedSizeCache URL = some n) :
    FromURL E s URL File = FromURLExpecting E s URL File n := by
  unfold FromURL
  rw [if_pos (TMap.Contains_of_Find _ _ _ h), h]
  rfl

theorem FromURL_probe_lost (E : Engine) (s : State) (URL File : FString)
    (h : TMap.Contains s.ExpectedSizeCache URL = false)
    (ht : E.Transport s.Requests { URL := URL, Verb := Verb.HEAD } = []) :
    FromURL E s URL File = (ProcessRequest s { URL := URL, Verb := Verb.HEAD }, []) := by
  unfold FromURL
  simp [h, ht]

theorem FromURL_probed (E : Engine) (s : State) (URL File : FString) (c : Completion)
    (cs : List Completion) (h : TMap.Contains s.ExpectedSizeCache URL = false)
    (ht : E.Transport s.Requests { URL := URL, Verb := Verb.HEAD } = c :: cs) :
    FromURL E s URL File =
      FromURLExpecting E (ProcessRequest s { URL := URL, Verb := Verb.HEAD }) URL File
        (ProbedSize E c) := by
  unfold FromURL
  simp only [h, Bool.false_eq_true, if_false, ht]
  rw [asyncHead_foldl_cons, asyncHead_first]

theorem syncHead_triggered (E : Engine) (h : ProbeHandler) (c : Completion)
    (ht : h.bTriggered = true) :
    SynchronousFromURL.OnProcessRequestComplete E h c = h := by
  simp [SynchronousFromURL.OnProcessRequestComplete, ht]

theorem syncHead_foldl_triggered (E : Engine) (cs : List Completion) (h : ProbeHandler)
    (ht : h.bTriggered = true) :
    cs.foldl (SynchronousFromURL.OnProcessRequestComplete E) h = h := by
  induction cs with
  | nil => rfl
  | cons c cs ih => simp [List.foldl, syncHead_triggered E h c ht, ih]

theorem syncHead_first (E : Engine) (c : Completion) :
    SynchronousFromURL.OnProcessRequestComplete E
        { ExpectedSize := 0, bIsComplete := false, bTriggered := false } c =
      { ExpectedSize := ProbedSize E c, bIsComplete := true, bTriggered := true } := by
  unfold SynchronousFromURL.OnProcessRequestComplete ProbedSize ResponseOk
  cases hr : c.Response with
  | none => simp
  | some r =>
    cases hb : c.bWasSuccessful <;> cases hk : E.IsOk r.ResponseCode <;> simp [*]

theorem syncHead_foldl_cons (E : Engine) (c : Completion) (cs : List Completion) :
    (c :: cs).foldl (SynchronousFromURL.OnProcessRequestComplete E)
        { ExpectedSize := 0, bIsComplete := false, bTriggered := false } =
      { ExpectedSize := ProbedSize E c, bIsComplete := true, bTriggered := true } := by
  simp only [List.foldl]
  rw [syncHead_first]
  exact syncHead_foldl_triggered E cs _ rfl

theorem SynchronousFromURL_cached (E : Engine) (s : State) (URL File : FString) (n : Int)
    (h : TMap.Find s.ExpectedSizeCache URL = some n) :
    SynchronousFromURL E s URL File = SynchronousFromURLExpecting E s URL File n := by
  unfold SynchronousFromURL
  rw [if_pos (TMap.Contains_of_Find _ _ _ h), h]
  rfl

theorem SynchronousFromURL_probe_lost (E : Engine) (s : State) (URL File : FString)
    (h : TMap.Contains s.ExpectedSizeCache URL = false)
    (ht : E.Transport s.Requests { URL := URL, Verb := Verb.HEAD } = []) :
    SynchronousFromURL E s URL File =
      SynchronousFromURLExpecting E (ProcessRequest s { URL := URL, Verb := Verb.HEAD })
        URL File 0 := by
  unfold SynchronousFromURL
  simp [h, ht]

theorem SynchronousFromURL_probed (E : Engine) (s : State) (URL File : FString)
    (c : Completion) (cs : List Completion)
    (h : TMap.Contains s.ExpectedSizeCache URL = false)
    (ht : E.Transport s.Requests { URL := URL, Verb := Verb.HEAD } = c :: cs) :
    SynchronousFromURL E s URL File =
      SynchronousFromURLExpecting E (ProcessRequest s { URL := URL, Verb := Verb.HEAD })
        URL File (ProbedSize E c) := by
  unfold SynchronousFromURL
  simp only [h, Bool.false_eq_true, if_false, ht]
  rw [syncHead_foldl_cons]

/-! ## Lemmas on the cache -/

theorem AddExpectedSize_of_Contains (s : State) (URL : FString) (n : Int)
    (h : TMap.Contains s.ExpectedSizeCache URL = true) : AddExpectedSize s URL n = s := by
  simp [AddExpectedSize, h]

theorem AddExpectedSize_of_not_Contains (s : State) (URL : FString) (n : Int)
    (h : TMap.Contains s.ExpectedSizeCache URL = false) :
    AddExpectedSize s URL n =
      { s with ExpectedSizeCache := s.ExpectedSizeCache ++ [(URL, n)],
               CacheSaves := s.CacheSaves + 1 } := by
  simp [AddExpectedSize, h, TMap.Add, SaveExpectedSizeCache]

theorem TMap.Find_append_singleton (m : List (FString × Int)) (u k : FString) (n : Int) :
    TMap.Find (m ++ [(u, n)]) k =
      (match TMap.Find m k with
       | some v => some v
       | none => if u = k then some n else none) := by
  induction m with
  | nil =>
    by_cases hu : u = k
    · simp [TMap.Find, List.find?_cons, hu]
    · simp [TMap.Find, List.find?_cons, hu]
  | cons p m ih =>
    unfold TMap.Find at *
    by_cases hp : (p.1 == k) = true
    · simp [List.find?_cons, hp]
    · simp only [Bool.not_eq_true] at hp
      simp only [List.cons_append, List.find?_cons, hp]
      exact ih

theorem TMap.not_mem_keys_of_not_Contains (m : List (FString × Int)) (k : FString)
    (h : TMap.Contains m k = false) : k ∉ m.map Prod.fst := by
  intro hk
  rcases List.mem_map.1 hk with ⟨p, hp, hpk⟩
  have : TMap.Contains m k = true := by
    unfold TMap.Contains
    exact List.any_eq_true.2 ⟨p, hp, by simp [hpk]⟩
  rw [h] at this
  cases this

theorem AddExpectedSize_Contains (s : State) (URL : FString) (n : Int) :
    TMap.Contains (AddExpectedSize s URL n).ExpectedSizeCache URL = true := by
  cases hc : TMap.Contains s.ExpectedSizeCache URL with
  | true => rw [AddExpectedSize_of_Contains s URL n hc]; exact hc
  | false =>
    rw [AddExpectedSize_of_not_Contains s URL n hc]
    simp [TMap.Contains]

theorem AddExpectedSize_Nodup (s : State) (URL : FString) (n : Int)
    (hN : (s.ExpectedSizeCache.map Prod.fst).Nodup) :
    ((AddExpectedSize s URL n).ExpectedSizeCache.map Prod.fst).Nodup := by
  cases hc : TMap.Contains s.ExpectedSizeCache URL with
  | true => rw [AddExpectedSize_of_Contains s URL n hc]; exact hN
  | false =>
    rw [AddExpectedSize_of_not_Contains s URL n hc]
    have hk := TMap.not_mem_keys_of_not_Contains _ _ hc
    simp only [List.map_append, List.map_cons, List.map_nil]
    rw [List.nodup_append]
    refine ⟨hN, List.nodup_singleton _, ?_⟩
    intro a ha hb
    rw [List.mem_singleton] at hb
    exact hk (hb ▸ ha)

theorem AddExpectedSize_Find (s : State) (URL k : FString) (n : Int) :
    TMap.Find (AddExpectedSize s URL n).ExpectedSizeCache k =
      (match TMap.Find s.ExpectedSizeCache k with
       | some v => some v
       | none => if URL = k then some n else none) := by
  cases hc : TMap.Contains s.ExpectedSizeCache URL with
  | true =>
    rw [AddExpectedSize_of_Contains s URL n hc]
    cases hf : TMap.Find s.ExpectedSizeCache k with
    | some v => rfl
    | none =>
      by_cases hu : URL = k
      · subst hu
        rw [TMap.Contains_eq_isSome, hf] at hc
        cases hc
      · simp [hu]
  | false =>
    rw [AddExpectedSize_of_not_Contains s URL n hc]
    exact TMap.Find_append_singleton _ _ _ _

theorem AddExpectedSize_keeps (s : State) (URL : FString) (n : Int) :
    s.ExpectedSizeCache <+: (AddExpectedSize s URL n).ExpectedSizeCache := by
  cases hc : TMap.Contains s.ExpectedSizeCache URL with
  | true => rw [AddExpectedSize_of_Contains s URL n hc]
  | false =>
    rw [AddExpectedSize_of_not_Contains s URL n hc]
    exact List.prefix_append _ _

theorem AddExpectedSizes_Nodup (Calls : List (FString × Int)) (s : State)
    (hN : (s.ExpectedSizeCache.map Prod.fst).Nodup) :
    ((AddExpectedSizes s Calls).ExpectedSizeCache.map Prod.fst).Nodup := by
  induction Calls generalizing s with
  | nil => exact hN
  | cons c cs ih =>
    unfold AddExpectedSizes
    rw [List.foldl_cons]
    exact ih _ (AddExpectedSize_Nodup s c.1 c.2 hN)

theorem AddExpectedSizes_keeps (Calls : List (FString × Int)) (s : State) :
    s.ExpectedSizeCache <+: (AddExpectedSizes s Calls).ExpectedSizeCache := by
  induction Calls generalizing s with
  | nil => exact List.prefix_refl _
  | cons c cs ih =>
    unfold AddExpectedSizes
    rw [List.foldl_cons]
    exact List.IsPrefix.trans (AddExpectedSize_keeps s c.1 c.2) (ih _)

theorem AddExpectedSizes_Find (Calls : List (FString × Int)) (s : State) (k : FString) :
    TMap.Find (AddExpectedSizes s Calls).ExpectedSizeCache k =
      (match TMap.Find s.ExpectedSizeCache k with
       | some v => some v
       | none => TMap.Find Calls k) := by
  induction Calls generalizing s with
  | nil =>
    have he : AddExpectedSizes s [] = s := rfl
    rw [he]
    cases hf : TMap.Find s.ExpectedSizeCache k with
    | some v => rfl
    | none => rfl
  | cons c cs ih =>
    have h := ih (AddExpectedSize s c.1 c.2)
    unfold AddExpectedSizes at h ⊢
    rw [List.foldl_cons, h, AddExpectedSize_Find]
    cases hf : TMap.Find s.ExpectedSizeCache k with
    | some v => rfl
    | none =>
      by_cases hu : c.1 = k
      · simp [hu, TMap.Find, List.find?_cons]
      · simp [hu, TMap.Find, List.find?_cons]

/-! ## Closed forms of the GET stage -/

theorem State.with_Files_self (s : State) : { s with Files := s.Files } = s := by
  cases s
  rfl

theorem FileContent_WriteFile (fs : Files) (File : FString) (Content : List Nat) :
    FileContent (WriteFile fs File Content) File = some Content := by
  simp [FileContent, WriteFile, List.find?_cons]

theorem FileSize_WriteFile (fs : Files) (File : FString) (Content : List Nat) :
    FileSize (WriteFile fs File Content) File = (Content.length : Int) := by
  unfold FileSize
  rw [FileContent_WriteFile]

/-- Effect of the first completion on the asynchronous GET handler. -/
theorem asyncGet_first (E : Engine) (URL File : FString) (s : State) (c : Completion) :
    FromURLExpecting.OnProcessRequestComplete E URL File
        { st := s, bTriggered := false, OnCompleteCalls := [] } c =
      (match c.Response with
       | some r =>
         if (c.bWasSuccessful && E.IsOk r.ResponseCode && E.CanSave File r.Content) = true then
           { st := Saved s URL File r.Content, bTriggered := true, OnCompleteCalls := [true] }
         else { st := s, bTriggered := true, OnCompleteCalls := [false] }
       | none => { st := s, bTriggered := true, OnCompleteCalls := [false] }) := by
  unfold FromURLExpecting.OnProcessRequestComplete ResponseOk SaveArrayToFile Saved
  cases hr : c.Response with
  | none => simp
  | some r =>
    cases hb : c.bWasSuccessful <;> cases hk : E.IsOk r.ResponseCode <;>
      cases hsv : E.CanSave File r.Content <;>
      simp [*, FileSize_WriteFile, State.with_Files_self]

/-- Closed form of `FromURLExpecting`. -/
theorem FromURLExpecting_eq (E : Engine) (s : State) (URL File : FString) (n : Int) :
    FromURLExpecting E s URL File n =
      if SkipDownload s.Files File n = true then (s, [true])
      else
        match E.Transport s.Requests { URL := URL, Verb := Verb.GET } with
        | [] => (ProcessRequest s { URL := URL, Verb := Verb.GET }, [])
        | c :: _ =>
          match c.Response with
          | some r =>
            if (c.bWasSuccessful && E.IsOk r.ResponseCode && E.CanSave File r.Content) = true
            then (Saved (ProcessRequest s { URL := URL, Verb := Verb.GET }) URL File r.Content,
                  [true])
            else (ProcessRequest s { URL := URL, Verb := Verb.GET }, [false])
          | none => (ProcessRequest s { URL := URL, Verb := Verb.GET }, [false]) := by
  unfold FromURLExpecting
  by_cases hs : SkipDownload s.Files File n = true
  · rw [if_pos hs, if_pos hs]
  · rw [if_neg hs, if_neg hs]
    dsimp only
    cases ht : E.Transport s.Requests { URL := URL, Verb := Verb.GET } with
    | nil => rfl
    | cons c cs =>
      rw [asyncGet_foldl_cons, asyncGet_first]
      dsimp only
      cases hr : c.Response with
      | none => rfl
      | some r =>
        dsimp only
        split <;> rfl

/-- Effect of the first completion on the synchronous GET handler. -/
theorem syncGet_first (E : Engine) (URL File : FString) (s : State) (c : Completion) :
    SynchronousFromURLExpecting.OnProcessRequestComplete E URL File
        { st := s, bTriggered := false, bDownloadResult := false, bIsComplete := false,
          bCrashed := false } c =
      (match c.Response with
       | some r =>
         if (c.bWasSuccessful && E.IsOk r.ResponseCode && E.CanSave File r.Content) = true then
           { st := Saved s URL File r.Content, bTriggered := true, bDownloadResult := true,
             bIsComplete := true, bCrashed := false }
         else { st := s, bTriggered := true, bDownloadResult := false, bIsComplete := true,
                bCrashed := false }
       | none => { st := s, bTriggered := true, bDownloadResult := false,
                   bIsComplete := false, bCrashed := true }) := by
  unfold SynchronousFromURLExpecting.OnProcessRequestComplete ResponseOk SaveArrayToFile Saved
  cases hr : c.Response with
  | none => simp
  | some r =>
    cases hb : c.bWasSuccessful <;> cases hk : E.IsOk r.ResponseCode <;>
      cases hsv : E.CanSave File r.Content <;>
      simp [*, FileSize_WriteFile, State.with_Files_self]

/-- Closed form of `SynchronousFromURLExpecting`. -/
theorem SynchronousFromURLExpecting_eq (E : Engine) (s : State) (URL File : FString)
    (n : Int) :
    SynchronousFromURLExpecting E s URL File n =
      if SkipDownload s.Files File n = true then (s, some true)
      else
        match E.Transport s.Requests { URL := URL, Verb := Verb.GET } with
        | [] => (ProcessRequest s { URL := URL, Verb := Verb.GET }, some false)
        | c :: _ =>
          match c.Response with
          | some r =>
            if (c.bWasSuccessful && E.IsOk r.ResponseCode && E.CanSave File r.Content) = true
            then (Saved (ProcessRequest s { URL := URL, Verb := Verb.GET }) URL File r.Content,
                  some true)
            else (ProcessRequest s { URL := URL, Verb := Verb.GET }, some false)
          | none => (ProcessRequest s { URL := URL, Verb := Verb.GET }, none) := by
  unfold SynchronousFromURLExpecting
  by_cases hs : SkipDownload s.Files File n = true
  · rw [if_pos hs, if_pos hs]
  · rw [if_neg hs, if_neg hs]
    dsimp only
    cases ht : E.Transport s.Requests { URL := URL, Verb := Verb.GET } with
    | nil => rfl
    | cons c cs =>
      rw [syncGet_foldl_cons, syncGet_first]
      dsimp only
      cases hr : c.Response with
      | none => rfl
      | some r =>
        dsimp only
        split <;> rfl

/-! ## What a fetch leaves behind -/

theorem toInt32_of_lt (x : Int) (h0 : 0 ≤ x) (h1 : x < 2147483648) : toInt32 x = x := by
  unfold toInt32
  omega

theorem Saved_Files (s : State) (URL File : FString) (Content : List Nat) :
    (Saved s URL File Content).Files = WriteFile s.Files File Content := by
  unfold Saved
  rw [AddExpectedSize_Files]

theorem Saved_Find (s : State) (URL File : FString) (Content : List Nat) :
    TMap.Find (Saved s URL File Content).ExpectedSizeCache URL =
      (match TMap.Find s.ExpectedSizeCache URL with
       | some v => some v
       | none => some (toInt32 (Content.length : Int))) := by
  unfold Saved
  rw [AddExpectedSize_Find]
  dsimp only
  cases hf : TMap.Find s.ExpectedSizeCache URL with
  | some v => rfl
  | none => simp

/-- A fetch stage that does not report success leaves files and cache alone. -/
theorem FromURLExpecting_unchanged (E : Engine) (s : State) (URL File : FString) (n : Int)
    (h : (FromURLExpecting E s URL File n).2 ≠ [true]) :
    (FromURLExpecting E s URL File n).1.Files = s.Files ∧
    (FromURLExpecting E s URL File n).1.ExpectedSizeCache = s.ExpectedSizeCache := by
  rw [FromURLExpecting_eq] at h ⊢
  by_cases hs : SkipDownload s.Files File n = true
  · rw [if_pos hs] at h
    exact absurd rfl h
  · rw [if_neg hs] at h ⊢
    cases ht : E.Transport s.Requests { URL := URL, Verb := Verb.GET } with
    | nil => exact ⟨rfl, rfl⟩
    | cons c cs =>
      rw [ht] at h
      dsimp only at h ⊢
      cases hr : c.Response with
      | none => exact ⟨rfl, rfl⟩
      | some r =>
        rw [hr] at h
        dsimp only at h ⊢
        by_cases hk : (c.bWasSuccessful && E.IsOk r.ResponseCode &&
            E.CanSave File r.Content) = true
        · rw [if_pos hk] at h
          exact absurd rfl h
        · rw [if_neg hk]
          exact ⟨rfl, rfl⟩

theorem SynchronousFromURLExpecting_unchanged (E : Engine) (s : State) (URL File : FString)
    (n : Int) (h : (SynchronousFromURLExpecting E s URL File n).2 ≠ some true) :
    (SynchronousFromURLExpecting E s URL File n).1.Files = s.Files ∧
    (SynchronousFromURLExpecting E s URL File n).1.ExpectedSizeCache =
      s.ExpectedSizeCache := by
  rw [SynchronousFromURLExpecting_eq] at h ⊢
  by_cases hs : SkipDownload s.Files File n = true
  · rw [if_pos hs] at h
    exact absurd rfl h
  · rw [if_neg hs] at h ⊢
    cases ht : E.Transport s.Requests { URL := URL, Verb := Verb.GET } with
    | nil => exact ⟨rfl, rfl⟩
    | cons c cs =>
      rw [ht] at h
      dsimp only at h ⊢
      cases hr : c.Response with
      | none => exact ⟨rfl, rfl⟩
      | some r =>
        rw [hr] at h
        dsimp only at h ⊢
        by_cases hk : (c.bWasSuccessful && E.IsOk r.ResponseCode &&
            E.CanSave File r.Content) = true
        · rw [if_pos hk] at h
          exact absurd rfl h
        · rw [if_neg hk]
          exact ⟨rfl, rfl⟩

/-- The function `FromURL` is its GET stage, run on the initial state or on the state after
the HEAD probe, unless the completion of the probe never arrives. -/
theorem FromURL_cases (E : Engine) (s : State) (URL File : FString) :
    (∃ n, FromURL E s URL File = FromURLExpecting E s URL File n) ∨
    FromURL E s URL File = (ProcessRequest s { URL := URL, Verb := Verb.HEAD }, []) ∨
    (∃ n, FromURL E s URL File =
      FromURLExpecting E (ProcessRequest s { URL := URL, Verb := Verb.HEAD }) URL File n) := by
  cases hf : TMap.Find s.ExpectedSizeCache URL with
  | some n => exact Or.inl ⟨n, FromURL_cached E s URL File n hf⟩
  | none =>
    have hc : TMap.Contains s.ExpectedSizeCache URL = false := by
      rw [TMap.Contains_eq_isSome, hf]; rfl
    cases ht : E.Transport s.Requests { URL := URL, Verb := Verb.HEAD } with
    | nil => exact Or.inr (Or.inl (FromURL_probe_lost E s URL File hc ht))
    | cons c cs => exact Or.inr (Or.inr ⟨_, FromURL_probed E s URL File c cs hc ht⟩)

/-- The function `SynchronousFromURL` is its GET stage, run on the initial state or on the
state after the HEAD probe. -/
theorem SynchronousFromURL_cases (E : Engine) (s : State) (URL File : FString) :
    (∃ n, SynchronousFromURL E s URL File = SynchronousFromURLExpecting E s URL File n) ∨
    (∃ n, SynchronousFromURL E s URL File =
      SynchronousFromURLExpecting E (ProcessRequest s { URL := URL, Verb := Verb.HEAD })
        URL File n) := by
  cases hf : TMap.Find s.ExpectedSizeCache URL with
  | some n => exact Or.inl ⟨n, SynchronousFromURL_cached E s URL File n hf⟩
  | none =>
    have hc : TMap.Contains s.ExpectedSizeCache URL = false := by
      rw [TMap.Contains_eq_isSome, hf]; rfl
    cases ht : E.Transport s.Requests { URL := URL, Verb := Verb.HEAD } with
    | nil => exact Or.inr ⟨_, SynchronousFromURL_probe_lost E s URL File hc ht⟩
    | cons c cs => exact Or.inr ⟨_, SynchronousFromURL_probed E s URL File c cs hc ht⟩

theorem gained_GET (l p0 pre : List HttpRequest) (g : HttpRequest) (b : Bool)
    (hp0 : g ∉ p0)
    (h : l ++ p0 ++ (if b = true then [] else [g]) = l ++ pre ++ [g]) :
    b = false ∧ p0 = pre := by
  rw [List.append_assoc, List.append_assoc, List.append_cancel_left_eq] at h
  cases b with
  | true =>
    simp only [if_true, List.append_nil] at h
    exact absurd (h ▸ List.mem_append_right pre (List.mem_singleton_self g)) hp0
  | false =>
    simp only [Bool.false_eq_true, if_false] at h
    exact ⟨rfl, List.append_cancel_right h⟩

/-- A successful GET stage that extended the log `s.Requests ++ pre` by its GET
ends in the state `Saved` built from the body of the first completion. -/
theorem FromURLExpecting_success (E : Engine) (s t : State) (URL File : FString) (n : Int)
    (p0 pre : List HttpRequest) (c : Completion) (cs : List Completion) (r : HttpResponse)
    (hR : t.Requests = s.Requests ++ p0) (hp0 : ({ URL := URL, Verb := Verb.GET } : HttpRequest) ∉ p0)
    (ht : E.Transport (s.Requests ++ pre) { URL := URL, Verb := Verb.GET } = c :: cs)
    (hr : c.Response = some r)
    (hok : (FromURLExpecting E t URL File n).2 = [true])
    (hreq : (FromURLExpecting E t URL File n).1.Requests =
      s.Requests ++ pre ++ [{ URL := URL, Verb := Verb.GET }]) :
    (FromURLExpecting E t URL File n).1 =
      Saved (ProcessRequest t { URL := URL, Verb := Verb.GET }) URL File r.Content := by
  rw [FromURLExpecting_Requests, hR] at hreq
  obtain ⟨hs, hp⟩ := gained_GET _ _ _ _ _ hp0 hreq
  subst hp
  rw [← hR] at ht
  rw [FromURLExpecting_eq] at hok ⊢
  simp only [hs, Bool.false_eq_true, if_false, ht, hr] at hok ⊢
  by_cases hk : (c.bWasSuccessful && E.IsOk r.ResponseCode && E.CanSave File r.Content) = true
  · rw [if_pos hk]
  · rw [if_neg hk] at hok
    simp at hok

theorem SynchronousFromURLExpecting_success (E : Engine) (s t : State) (URL File : FString)
    (n : Int) (p0 pre : List HttpRequest) (c : Completion) (cs : List Completion)
    (r : HttpResponse)
    (hR : t.Requests = s.Requests ++ p0) (hp0 : ({ URL := URL, Verb := Verb.GET } : HttpRequest) ∉ p0)
    (ht : E.Transport (s.Requests ++ pre) { URL := URL, Verb := Verb.GET } = c :: cs)
    (hr : c.Response = some r)
    (hok : (SynchronousFromURLExpecting E t URL File n).2 = some true)
    (hreq : (SynchronousFromURLExpecting E t URL File n).1.Requests =
      s.Requests ++ pre ++ [{ URL := URL, Verb := Verb.GET }]) :
    (SynchronousFromURLExpecting E t URL File n).1 =
      Saved (ProcessRequest t { URL := URL, Verb := Verb.GET }) URL File r.Content := by
  rw [SynchronousFromURLExpecting_Requests, hR] at hreq
  obtain ⟨hs, hp⟩ := gained_GET _ _ _ _ _ hp0 hreq
  subst hp
  rw [← hR] at ht
  rw [SynchronousFromURLExpecting_eq] at hok ⊢
  simp only [hs, Bool.false_eq_true, if_false, ht, hr] at hok ⊢
  by_cases hk : (c.bWasSuccessful && E.IsOk r.ResponseCode && E.CanSave File r.Content) = true
  · rw [if_pos hk]
  · rw [if_neg hk] at hok
    simp at hok

/-- What the state `Saved` holds, for a body that fits a `TArray`. -/
theorem Saved_post (s t : State) (URL File : FString) (g : HttpRequest) (Content : List Nat)
    (hC : t.ExpectedSizeCache = s.ExpectedSizeCache)
    (hlen : Content.length < 2147483648) :
    FileContent (Saved (ProcessRequest t g) URL File Content).Files File = some Content ∧
    FileSize (Saved (ProcessRequest t g) URL File Content).Files File = (Content.length : Int) ∧
    TMap.Find (Saved (ProcessRequest t g) URL File Content).ExpectedSizeCache URL =
      (match TMap.Find s.ExpectedSizeCache URL with
       | some v => some v
       | none => some (Content.length : Int)) := by
  refine ⟨?_, ?_, ?_⟩
  · rw [Saved_Files, FileContent_WriteFile]
  · rw [Saved_Files, FileSize_WriteFile]
  · rw [Saved_Find]
    have : (ProcessRequest t g).ExpectedSizeCache = s.ExpectedSizeCache := hC
    rw [this, toInt32_of_lt _ (Int.natCast_nonneg _) (by exact_mod_cast hlen)]

/-! ## Claims on the fetcher -/

/-- C1. Skip rule of the fetcher: `FromURLExpecting`, and likewise
`SynchronousFromURLExpecting`, reports success with the state untouched, so
without any request, exactly when the destination file exists and
`ExpectedSize` is non-zero and the size of the file equals `ExpectedSize`; in
every other case the request log grows by exactly one request, a GET of the
URL. -/
theorem C1_skip_rule (E : Engine) (s : State) (URL File : FString) (ExpectedSize : Int) :
    (FromURLExpecting E s URL File ExpectedSize = (s, [true]) ↔
      (FileExists s.Files File = true ∧ ExpectedSize ≠ 0 ∧
        FileSize s.Files File = ExpectedSize)) ∧
    (FromURLExpecting E s URL File ExpectedSize).1.Requests =
      s.Requests ++
        (if FileExists s.Files File = true ∧ ExpectedSize ≠ 0 ∧
            FileSize s.Files File = ExpectedSize then []
         else [{ URL := URL, Verb := Verb.GET }]) ∧
    (SynchronousFromURLExpecting E s URL File ExpectedSize = (s, some true) ↔
      (FileExists s.Files File = true ∧ ExpectedSize ≠ 0 ∧
        FileSize s.Files File = ExpectedSize)) ∧
    (SynchronousFromURLExpecting E s URL File ExpectedSize).1.Requests =
      s.Requests ++
        (if FileExists s.Files File = true ∧ ExpectedSize ≠ 0 ∧
            FileSize s.Files File = ExpectedSize then []
         else [{ URL := URL, Verb := Verb.GET }]) := by
  have ha := FromURLExpecting_Requests E s URL File ExpectedSize
  have hb := SynchronousFromURLExpecting_Requests E s URL File ExpectedSize
  by_cases hs : SkipDownload s.Files File ExpectedSize = true
  · have hc := (SkipDownload_iff s.Files File ExpectedSize).1 hs
    rw [if_pos hs] at ha hb
    rw [if_pos hc]
    refine ⟨⟨fun _ => hc, fun _ => ?_⟩, ha, ⟨fun _ => hc, fun _ => ?_⟩, hb⟩
    · simp [FromURLExpecting, hs]
    · simp [SynchronousFromURLExpecting, hs]
  · have hc : ¬(FileExists s.Files File = true ∧ ExpectedSize ≠ 0 ∧
        FileSize s.Files File = ExpectedSize) :=
      fun h => hs ((SkipDownload_iff s.Files File ExpectedSize).2 h)
    rw [if_neg hs] at ha hb
    rw [if_neg hc]
    refine ⟨⟨fun h => ?_, fun h => absurd h hc⟩, ha, ⟨fun h => ?_, fun h => absurd h hc⟩, hb⟩
    · rw [h] at ha
      simp at ha
    · rw [h] at hb
      simp at hb

/-- C2, as stated, fails: the URL `u` has the cache record 0 and the destination
`f` exists with size 0, equal to the cached size, yet both fetchers issue a GET
request. -/
theorem C2_counterexample :
    TMap.Find Sample.EmptyFileCachedZero.ExpectedSizeCache "u" = some 0 ∧
    FileExists Sample.EmptyFileCachedZero.Files "f" = true ∧
    FileSize Sample.EmptyFileCachedZero.Files "f" = 0 ∧
    (FromURL Sample.Server Sample.EmptyFileCachedZero "u" "f").1.Requests =
      [{ URL := "u", Verb := Verb.GET }] ∧
    (SynchronousFromURL Sample.Server Sample.EmptyFileCachedZero "u" "f").1.Requests =
      [{ URL := "u", Verb := Verb.GET }] := by
  decide

/-- C2, amended. For every URL with a non-zero record `n` in `ExpectedSizeCache`
and every destination file that exists with size `n`, `FromURL` and
`SynchronousFromURL` report success and leave the whole state as it was; in
particular the request log is unchanged, so no HEAD probe and no GET transfer
is issued. -/
theorem C2_cached_size_hit (E : Engine) (s : State) (URL File : FString) (n : Int)
    (hc : TMap.Find s.ExpectedSizeCache URL = some n) (hn : n ≠ 0)
    (he : FileExists s.Files File = true) (hsz : FileSize s.Files File = n) :
    FromURL E s URL File = (s, [true]) ∧
    SynchronousFromURL E s URL File = (s, some true) := by
  have hs : SkipDownload s.Files File n = true :=
    (SkipDownload_iff s.Files File n).2 ⟨he, hn, hsz⟩
  constructor
  · rw [FromURL_cached E s URL File n hc]
    simp [FromURLExpecting, hs]
  · rw [SynchronousFromURL_cached E s URL File n hc]
    simp [SynchronousFromURLExpecting, hs]

/-- C2, amended, at a concrete input: the file `f` of three bytes and the cache
record `(u, 3)`, in front of a server that would answer 404. -/
theorem C2_cached_size_hit_witness :
    FromURL Sample.NotFound Sample.Downloaded "u" "f" = (Sample.Downloaded, [true]) ∧
    SynchronousFromURL Sample.NotFound Sample.Downloaded "u" "f" =
      (Sample.Downloaded, some true) :=
  C2_cached_size_hit Sample.NotFound Sample.Downloaded "u" "f" 3
    (by decide) (by decide) (by decide) (by decide)

/-- C3. Request counts of one fetch. For a URL with a cache record `n` the
request log gains no HEAD, and a GET exactly when the skip test with expected
size `n` fails. For a URL without a record it gains one HEAD probe and then, in
`FromURL`, a GET exactly when a probe completion arrives and the skip test with
the probed size fails; `SynchronousFromURL` treats the probe whose completion
did not arrive as expected size 0. The probed size is the advertised
`Content-Length` for an OK probe and 0 otherwise, and with expected size 0 the
skip test always fails, also when the destination exists. -/
theorem C3_request_counts (E : Engine) (s : State) (URL File : FString) :
    (FromURL E s URL File).1.Requests =
      s.Requests ++
        (match TMap.Find s.ExpectedSizeCache URL with
         | some n =>
           if SkipDownload s.Files File n then [] else [{ URL := URL, Verb := Verb.GET }]
         | none =>
           { URL := URL, Verb := Verb.HEAD } ::
             (match E.Transport s.Requests { URL := URL, Verb := Verb.HEAD } with
              | [] => []
              | c :: _ =>
                if SkipDownload s.Files File (ProbedSize E c) then []
                else [{ URL := URL, Verb := Verb.GET }])) ∧
    (SynchronousFromURL E s URL File).1.Requests =
      s.Requests ++
        (match TMap.Find s.ExpectedSizeCache URL with
         | some n =>
           if SkipDownload s.Files File n then [] else [{ URL := URL, Verb := Verb.GET }]
         | none =>
           { URL := URL, Verb := Verb.HEAD } ::
             (if SkipDownload s.Files File
                  (match E.Transport s.Requests { URL := URL, Verb := Verb.HEAD } with
                   | [] => 0
                   | c :: _ => ProbedSize E c) then []
              else [{ URL := URL, Verb := Verb.GET }])) ∧
    (∀ (fs : Files) (F : FString), SkipDownload fs F 0 = false) := by
  refine ⟨?_, ?_, ?_⟩
  · cases hf : TMap.Find s.ExpectedSizeCache URL with
    | some n =>
      rw [FromURL_cached E s URL File n hf, FromURLExpecting_Requests]
    | none =>
      have hc : TMap.Contains s.ExpectedSizeCache URL = false := by
        rw [TMap.Contains_eq_isSome, hf]; rfl
      cases ht : E.Transport s.Requests { URL := URL, Verb := Verb.HEAD } with
      | nil =>
        rw [FromURL_probe_lost E s URL File hc ht]
        rfl
      | cons c cs =>
        rw [FromURL_probed E s URL File c cs hc ht, FromURLExpecting_Requests]
        simp [ProcessRequest]
  · cases hf : TMap.Find s.ExpectedSizeCache URL with
    | some n =>
      rw [SynchronousFromURL_cached E s URL File n hf, SynchronousFromURLExpecting_Requests]
    | none =>
      have hc : TMap.Contains s.ExpectedSizeCache URL = false := by
        rw [TMap.Contains_eq_isSome, hf]; rfl
      cases ht : E.Transport s.Requests { URL := URL, Verb := Verb.HEAD } with
      | nil =>
        rw [SynchronousFromURL_probe_lost E s URL File hc ht,
          SynchronousFromURLExpecting_Requests]
        simp [ProcessRequest]
      | cons c cs =>
        rw [SynchronousFromURL_probed E s URL File c cs hc ht,
          SynchronousFromURLExpecting_Requests]
        simp [ProcessRequest]
  · intro fs F
    simp [SkipDownload]

/-- C4. The download cache is write-once per URL. A second `AddExpectedSize` for
a URL is a no-op, and a call for a URL that has a record leaves the whole
state unchanged, the save counter included, so the cache file is not saved.
After any sequence of calls the cache still holds at most one record per URL,
every earlier record is still there verbatim, and the lookup of a URL is its
earlier record if it had one and otherwise the size given by the first call of
the sequence for that URL; a call never changes the lookup of another URL. -/
theorem C4_write_once (s : State) (URL : FString) (s1 s2 : Int)
    (Calls : List (FString × Int)) (hN : (s.ExpectedSizeCache.map Prod.fst).Nodup) :
    AddExpectedSize (AddExpectedSize s URL s1) URL s2 = AddExpectedSize s URL s1 ∧
    (TMap.Contains s.ExpectedSizeCache URL = true → AddExpectedSize s URL s2 = s) ∧
    ((AddExpectedSizes s Calls).ExpectedSizeCache.map Prod.fst).Nodup ∧
    s.ExpectedSizeCache <+: (AddExpectedSizes s Calls).ExpectedSizeCache ∧
    (∀ k : FString, TMap.Find (AddExpectedSizes s Calls).ExpectedSizeCache k =
      (match TMap.Find s.ExpectedSizeCache k with
       | some v => some v
       | none => TMap.Find Calls k)) ∧
    (∀ k : FString, k ≠ URL →
      TMap.Find (AddExpectedSize s URL s2).ExpectedSizeCache k =
        TMap.Find s.ExpectedSizeCache k) := by
  refine ⟨?_, ?_, ?_, ?_, ?_, ?_⟩
  · exact AddExpectedSize_of_Contains _ URL s2 (AddExpectedSize_Contains s URL s1)
  · exact AddExpectedSize_of_Contains s URL s2
  · exact AddExpectedSizes_Nodup Calls s hN
  · exact AddExpectedSizes_keeps Calls s
  · exact AddExpectedSizes_Find Calls s
  · intro k hk
    rw [AddExpectedSize_Find]
    cases hf : TMap.Find s.ExpectedSizeCache k with
    | some v => rfl
    | none => simp [Ne.symm hk]

/-- C4 at a concrete input: the cache holds `(u, 3)`; a call `(u, 4)` changes
nothing, and after the calls `(u, 9)`, `(v, 1)`, `(v, 2)` the cache is
`(u, 3)`, `(v, 1)`, saved once more. -/
theorem C4_write_once_witness :
    (Sample.Downloaded.ExpectedSizeCache.map Prod.fst).Nodup ∧
    AddExpectedSize Sample.Downloaded "u" 4 = Sample.Downloaded ∧
    AddExpectedSizes Sample.Downloaded [("u", 9), ("v", 1), ("v", 2)] =
      { Sample.Downloaded with ExpectedSizeCache := [("u", 3), ("v", 1)], CacheSaves := 2 } ∧
    TMap.Find (AddExpectedSizes Sample.Downloaded [("u", 9), ("v", 1), ("v", 2)]).ExpectedSizeCache
      "v" = some 1 :=
  have h := C4_write_once Sample.Downloaded "u" 3 4 [("u", 9), ("v", 1), ("v", 2)] (by decide)
  ⟨by decide, h.2.1 (by decide), by decide, (h.2.2.2.2.1 "v").trans (by decide)⟩

/-- C5. Failure leaves state unchanged: whenever a fetch, asynchronous or
synchronous, with or without the probe stage, does not report success (it
passes `false` to `OnComplete`, returns `false`, or does not return at all),
the files on disk and `ExpectedSizeCache` are the same as before the fetch. -/
theorem C5_failure_leaves_state (E : Engine) (s : State) (URL File : FString) (n : Int) :
    ((FromURLExpecting E s URL File n).2 ≠ [true] →
      (FromURLExpecting E s URL File n).1.Files = s.Files ∧
      (FromURLExpecting E s URL File n).1.ExpectedSizeCache = s.ExpectedSizeCache) ∧
    ((FromURL E s URL File).2 ≠ [true] →
      (FromURL E s URL File).1.Files = s.Files ∧
      (FromURL E s URL File).1.ExpectedSizeCache = s.ExpectedSizeCache) ∧
    ((SynchronousFromURLExpecting E s URL File n).2 ≠ some true →
      (SynchronousFromURLExpecting E s URL File n).1.Files = s.Files ∧
      (SynchronousFromURLExpecting E s URL File n).1.ExpectedSizeCache =
        s.ExpectedSizeCache) ∧
    ((SynchronousFromURL E s URL File).2 ≠ some true →
      (SynchronousFromURL E s URL File).1.Files = s.Files ∧
      (SynchronousFromURL E s URL File).1.ExpectedSizeCache = s.ExpectedSizeCache) := by
  refine ⟨FromURLExpecting_unchanged E s URL File n, ?_,
    SynchronousFromURLExpecting_unchanged E s URL File n, ?_⟩
  · intro h
    rcases FromURL_cases E s URL File with ⟨m, hm⟩ | hm | ⟨m, hm⟩
    · rw [hm] at h ⊢
      exact FromURLExpecting_unchanged E s URL File m h
    · rw [hm]
      exact ⟨rfl, rfl⟩
    · rw [hm] at h ⊢
      exact FromURLExpecting_unchanged E _ URL File m h
  · intro h
    rcases SynchronousFromURL_cases E s URL File with ⟨m, hm⟩ | ⟨m, hm⟩
    · rw [hm] at h ⊢
      exact SynchronousFromURLExpecting_unchanged E s URL File m h
    · rw [hm] at h ⊢
      exact SynchronousFromURLExpecting_unchanged E _ URL File m h

/-- C5 at concrete inputs: a 404 answer and a disk that refuses the write both
make the fetch report `false`, with the disk still empty and the old cache
record still in place. -/
theorem C5_failure_leaves_state_witness :
    (FromURL Sample.NotFound Sample.StaleCache "u" "f").2 = [false] ∧
    (SynchronousFromURL Sample.DiskFull Sample.StaleCache "u" "f").2 = some false ∧
    (FromURL Sample.NotFound Sample.StaleCache "u" "f").1.Files = [] ∧
    (SynchronousFromURL Sample.DiskFull Sample.StaleCache "u" "f").1.ExpectedSizeCache =
      [("u", 5)] :=
  have h := C5_failure_leaves_state Sample.DiskFull Sample.StaleCache "u" "f" 0
  have g := C5_failure_leaves_state Sample.NotFound Sample.StaleCache "u" "f" 0
  ⟨by decide, by decide, (g.2.1 (by decide)).1, (h.2.2.2 (by decide)).2⟩

/-- C6, as stated, fails: with the stale cache record `(u, 5)` and no file on
disk, `FromURL` performs the GET, reports success and writes the three-byte
body, but the cache still holds `(u, 5)` and no record `(u, 3)`. -/
theorem C6_counterexample :
    (FromURL Sample.Server Sample.StaleCache "u" "f").2 = [true] ∧
    (FromURL Sample.Server Sample.StaleCache "u" "f").1.Requests =
      [{ URL := "u", Verb := Verb.GET }] ∧
    FileContent (FromURL Sample.Server Sample.StaleCache "u" "f").1.Files "f" =
      some [7, 8, 9] ∧
    FileSize (FromURL Sample.Server Sample.StaleCache "u" "f").1.Files "f" = 3 ∧
    (FromURL Sample.Server Sample.StaleCache "u" "f").1.ExpectedSizeCache = [("u", 5)] ∧
    (("u", 3) : FString × Int) ∉
      (FromURL Sample.Server Sample.StaleCache "u" "f").1.ExpectedSizeCache := by
  decide

/-- C6, amended. Let a fetch (either stage, asynchronous or synchronous) extend
the request log by `pre` and a GET of the URL and report success, and let `r`
be the response of the first completion delivered for that GET, its body
shorter than 2^31 bytes as a `TArray` is. Then the destination file holds
exactly the body, its size is the length of the body, and the lookup of the
URL in `ExpectedSizeCache` is that size when the URL had no record before the
fetch, and the record it had before otherwise. -/
theorem C6_success_postcondition (E : Engine) (s : State) (URL File : FString) (n : Int)
    (pre : List HttpRequest) (c : Completion) (cs : List Completion) (r : HttpResponse)
    (ht : E.Transport (s.Requests ++ pre) { URL := URL, Verb := Verb.GET } = c :: cs)
    (hr : c.Response = some r) (hlen : r.Content.length < 2147483648) :
    ((FromURLExpecting E s URL File n).2 = [true] →
      (FromURLExpecting E s URL File n).1.Requests =
        s.Requests ++ pre ++ [{ URL := URL, Verb := Verb.GET }] →
      FileContent (FromURLExpecting E s URL File n).1.Files File = some r.Content ∧
      FileSize (FromURLExpecting E s URL File n).1.Files File = (r.Content.length : Int) ∧
      TMap.Find (FromURLExpecting E s URL File n).1.ExpectedSizeCache URL =
        (match TMap.Find s.ExpectedSizeCache URL with
         | some v => some v
         | none => some (r.Content.length : Int))) ∧
    ((FromURL E s URL File).2 = [true] →
      (FromURL E s URL File).1.Requests =
        s.Requests ++ pre ++ [{ URL := URL, Verb := Verb.GET }] →
      FileContent (FromURL E s URL File).1.Files File = some r.Content ∧
      FileSize (FromURL E s URL File).1.Files File = (r.Content.length : Int) ∧
      TMap.Find (FromURL E s URL File).1.ExpectedSizeCache URL =
        (match TMap.Find s.ExpectedSizeCache URL with
         | some v => some v
         | none => some (r.Content.length : Int))) ∧
    ((SynchronousFromURLExpecting E s URL File n).2 = some true →
      (SynchronousFromURLExpecting E s URL File n).1.Requests =
        s.Requests ++ pre ++ [{ URL := URL, Verb := Verb.GET }] →
      FileContent (SynchronousFromURLExpecting E s URL File n).1.Files File =
        some r.Content ∧
      FileSize (SynchronousFromURLExpecting E s URL File n).1.Files File =
        (r.Content.length : Int) ∧
      TMap.Find (SynchronousFromURLExpecting E s URL File n).1.ExpectedSizeCache URL =
        (match TMap.Find s.ExpectedSizeCache URL with
         | some v => some v
         | none => some (r.Content.length : Int))) ∧
    ((SynchronousFromURL E s URL File).2 = some true →
      (SynchronousFromURL E s URL File).1.Requests =
        s.Requests ++ pre ++ [{ URL := URL, Verb := Verb.GET }] →
      FileContent (SynchronousFromURL E s URL File).1.Files File = some r.Content ∧
      FileSize (SynchronousFromURL E s URL File).1.Files File = (r.Content.length : Int) ∧
      TMap.Find (SynchronousFromURL E s URL File).1.ExpectedSizeCache URL =
        (match TMap.Find s.ExpectedSizeCache URL with
         | some v => some v
         | none => some (r.Content.length : Int))) := by
  have hH : ({ URL := URL, Verb := Verb.GET } : HttpRequest) ∉
      [({ URL := URL, Verb := Verb.HEAD } : HttpRequest)] := by simp
  have hN : ({ URL := URL, Verb := Verb.GET } : HttpRequest) ∉ ([] : List HttpRequest) := by
    simp
  refine ⟨?_, ?_, ?_, ?_⟩
  · intro hok hreq
    rw [FromURLExpecting_success E s s URL File n [] pre c cs r (by simp) hN ht hr hok hreq]
    exact Saved_post s s URL File _ r.Content rfl hlen
  · intro hok hreq
    rcases FromURL_cases E s URL File with ⟨m, hm⟩ | hm | ⟨m, hm⟩
    · rw [hm] at hok hreq ⊢
      rw [FromURLExpecting_success E s s URL File m [] pre c cs r (by simp) hN ht hr hok hreq]
      exact Saved_post s s URL File _ r.Content rfl hlen
    · rw [hm] at hok
      simp at hok
    · rw [hm] at hok hreq ⊢
      rw [FromURLExpecting_success E s _ URL File m [_] pre c cs r rfl hH ht hr hok hreq]
      exact Saved_post s _ URL File _ r.Content rfl hlen
  · intro hok hreq
    rw [SynchronousFromURLExpecting_success E s s URL File n [] pre c cs r (by simp) hN ht hr
      hok hreq]
    exact Saved_post s s URL File _ r.Content rfl hlen
  · intro hok hreq
    rcases SynchronousFromURL_cases E s URL File with ⟨m, hm⟩ | ⟨m, hm⟩
    · rw [hm] at hok hreq ⊢
      rw [SynchronousFromURLExpecting_success E s s URL File m [] pre c cs r (by simp) hN ht hr
        hok hreq]
      exact Saved_post s s URL File _ r.Content rfl hlen
    · rw [hm] at hok hreq ⊢
      rw [SynchronousFromURLExpecting_success E s _ URL File m [_] pre c cs r rfl hH ht hr
        hok hreq]
      exact Saved_post s _ URL File _ r.Content rfl hlen

/-- C6, amended, at a concrete input: a first fetch of `u` into `f` on a fresh
state sends HEAD then GET, succeeds, writes the three bytes and records
`(u, 3)`. -/
theorem C6_success_postcondition_witness :
    (FromURL Sample.Server Sample.Fresh "u" "f").2 = [true] ∧
    (FromURL Sample.Server Sample.Fresh "u" "f").1.Requests =
      [{ URL := "u", Verb := Verb.HEAD }, { URL := "u", Verb := Verb.GET }] ∧
    FileContent (FromURL Sample.Server Sample.Fresh "u" "f").1.Files "f" = some [7, 8, 9] ∧
    TMap.Find (FromURL Sample.Server Sample.Fresh "u" "f").1.ExpectedSizeCache "u" = some 3 :=
  have h := (C6_success_postcondition Sample.Server Sample.Fresh "u" "f" 0
    [{ URL := "u", Verb := Verb.HEAD }]
    { Response := some { ResponseCode := 200, ContentLength := "3", Content := [7, 8, 9] },
      bWasSuccessful := true } []
    { ResponseCode := 200, ContentLength := "3", Content := [7, 8, 9] }
    (by decide) rfl (by decide)).2.1 (by decide) (by decide)
  ⟨by decide, by decide, h.1, h.2.2⟩

/-! ## The two fetchers side by side -/

/-- On a GET whose first completion carries a valid response, the synchronous
GET stage returns what the asynchronous one passes to `OnComplete` and ends in
the same state. -/
theorem Expecting_agree (E : Engine) (s : State) (URL File : FString) (n : Int)
    (c : Completion) (cs : List Completion) (r : HttpResponse)
    (ht : E.Transport s.Requests { URL := URL, Verb := Verb.GET } = c :: cs)
    (hr : c.Response = some r) :
    ∃ b, (FromURLExpecting E s URL File n).2 = [b] ∧
      SynchronousFromURLExpecting E s URL File n =
        ((FromURLExpecting E s URL File n).1, some b) := by
  rw [FromURLExpecting_eq, SynchronousFromURLExpecting_eq]
  by_cases hs : SkipDownload s.Files File n = true
  · rw [if_pos hs, if_pos hs]
    exact ⟨true, rfl, rfl⟩
  · rw [if_neg hs, if_neg hs, ht]
    dsimp only
    rw [hr]
    dsimp only
    by_cases hk : (c.bWasSuccessful && E.IsOk r.ResponseCode &&
        E.CanSave File r.Content) = true
    · rw [if_pos hk, if_pos hk]
      exact ⟨true, rfl, rfl⟩
    · rw [if_neg hk, if_neg hk]
      exact ⟨false, rfl, rfl⟩

/-- When the transport delivers to every request a first completion with a
valid response, `SynchronousFromURL` returns what `FromURL` passes to
`OnComplete`, and both end in the same state: the same files, the same cache
and the same request log. -/
theorem fetchers_agree_on_valid_responses (E : Engine) (s : State) (URL File : FString)
    (hE : ∀ (hist : List HttpRequest) (req : HttpRequest),
      ∃ c cs r, E.Transport hist req = c :: cs ∧ c.Response = some r) :
    ∃ b, (FromURL E s URL File).2 = [b] ∧
      SynchronousFromURL E s URL File = ((FromURL E s URL File).1, some b) := by
  cases hf : TMap.Find s.ExpectedSizeCache URL with
  | some n =>
    rw [FromURL_cached E s URL File n hf, SynchronousFromURL_cached E s URL File n hf]
    obtain ⟨c, cs, r, ht, hr⟩ := hE s.Requests { URL := URL, Verb := Verb.GET }
    exact Expecting_agree E s URL File n c cs r ht hr
  | none =>
    have hc : TMap.Contains s.ExpectedSizeCache URL = false := by
      rw [TMap.Contains_eq_isSome, hf]; rfl
    obtain ⟨c0, cs0, _, ht0, _⟩ := hE s.Requests { URL := URL, Verb := Verb.HEAD }
    rw [FromURL_probed E s URL File c0 cs0 hc ht0,
      SynchronousFromURL_probed E s URL File c0 cs0 hc ht0]
    obtain ⟨c, cs, r, ht, hr⟩ :=
      hE (ProcessRequest s { URL := URL, Verb := Verb.HEAD }).Requests
        { URL := URL, Verb := Verb.GET }
    exact Expecting_agree E _ URL File _ c cs r ht hr

/-- C16, the code at a failing input: on a transport that completes every request
without a response, both fetchers send the same HEAD and GET, `FromURL` passes
`false` to `OnComplete`, and `SynchronousFromURL` does not return: its GET
handler reads `Response->GetResponseCode()` of the invalid response. -/
theorem C16_sync_reads_invalid_response :
    (FromURL Sample.Refused Sample.Fresh "u" "f").2 = [false] ∧
    (SynchronousFromURL Sample.Refused Sample.Fresh "u" "f").2 = none ∧
    (FromURL Sample.Refused Sample.Fresh "u" "f").1.Requests =
      [{ URL := "u", Verb := Verb.HEAD }, { URL := "u", Verb := Verb.GET }] ∧
    (SynchronousFromURL Sample.Refused Sample.Fresh "u" "f").1.Requests =
      [{ URL := "u", Verb := Verb.HEAD }, { URL := "u", Verb := Verb.GET }] := by
  decide

/-! ## The one-shot guard -/

theorem asyncHead_twice (E : Engine) (URL File : FString) (h : AsyncHandler)
    (c d : Completion) :
    FromURL.OnProcessRequestComplete E URL File
        (FromURL.OnProcessRequestComplete E URL File h c) d =
      FromURL.OnProcessRequestComplete E URL File h c :=
  asyncHead_triggered E URL File _ d (asyncHead_sets_triggered E URL File h c)

theorem syncHead_sets_triggered (E : Engine) (h : ProbeHandler) (c : Completion) :
    (SynchronousFromURL.OnProcessRequestComplete E h c).bTriggered = true := by
  unfold SynchronousFromURL.OnProcessRequestComplete
  by_cases ht : h.bTriggered = true
  · simp [ht]
  · rw [if_neg ht]
    split <;> rfl

theorem FromURLExpecting_calls_le (E : Engine) (s : State) (URL File : FString) (n : Int) :
    (FromURLExpecting E s URL File n).2.length ≤ 1 ∧
    (FromURLExpecting E s URL File n).1.CacheSaves ≤ s.CacheSaves + 1 ∧
    s.CacheSaves ≤ (FromURLExpecting E s URL File n).1.CacheSaves := by
  have hS : ∀ (t : State) (C : List Nat), (Saved t URL File C).CacheSaves ≤ t.CacheSaves + 1 ∧
      t.CacheSaves ≤ (Saved t URL File C).CacheSaves := by
    intro t C
    unfold Saved AddExpectedSize SaveExpectedSizeCache
    split <;> simp
  rw [FromURLExpecting_eq]
  split
  · simp
  · split
    · simp [ProcessRequest]
    · split
      · split
        · have := hS (ProcessRequest s { URL := URL, Verb := Verb.GET }) ‹HttpResponse›.Content
          simpa [ProcessRequest] using this
        · simp [ProcessRequest]
      · simp [ProcessRequest]

/-- C17. One-shot completion guard. For each of the four completion handlers
(transfer and probe, asynchronous and synchronous) and every handler state, a
second invocation after a first one changes nothing, so delivering `c :: cs`
has the effect of delivering `c` alone. Hence a whole fetch invokes
`OnComplete` at most once and saves the cache file at most once, however often
the transport invokes the handlers. -/
theorem C17_one_shot_guard (E : Engine) (s : State) (URL File : FString) (n : Int)
    (c d : Completion) (cs : List Completion) (a : AsyncHandler) (g : SyncHandler)
    (q : ProbeHandler) :
    FromURLExpecting.OnProcessRequestComplete E URL File
        (FromURLExpecting.OnProcessRequestComplete E URL File a c) d =
      FromURLExpecting.OnProcessRequestComplete E URL File a c ∧
    FromURL.OnProcessRequestComplete E URL File
        (FromURL.OnProcessRequestComplete E URL File a c) d =
      FromURL.OnProcessRequestComplete E URL File a c ∧
    SynchronousFromURLExpecting.OnProcessRequestComplete E URL File
        (SynchronousFromURLExpecting.OnProcessRequestComplete E URL File g c) d =
      SynchronousFromURLExpecting.OnProcessRequestComplete E URL File g c ∧
    SynchronousFromURL.OnProcessRequestComplete E
        (SynchronousFromURL.OnProcessRequestComplete E q c) d =
      SynchronousFromURL.OnProcessRequestComplete E q c ∧
    (c :: cs).foldl (FromURLExpecting.OnProcessRequestComplete E URL File) a =
      FromURLExpecting.OnProcessRequestComplete E URL File a c ∧
    (c :: cs).foldl (FromURL.OnProcessRequestComplete E URL File) a =
      FromURL.OnProcessRequestComplete E URL File a c ∧
    (c :: cs).foldl (SynchronousFromURLExpecting.OnProcessRequestComplete E URL File) g =
      SynchronousFromURLExpecting.OnProcessRequestComplete E URL File g c ∧
    (c :: cs).foldl (SynchronousFromURL.OnProcessRequestComplete E) q =
      SynchronousFromURL.OnProcessRequestComplete E q c ∧
    (FromURLExpecting E s URL File n).2.length ≤ 1 ∧
    (FromURL E s URL File).2.length ≤ 1 ∧
    (FromURLExpecting E s URL File n).1.CacheSaves ≤ s.CacheSaves + 1 ∧
    (FromURL E s URL File).1.CacheSaves ≤ s.CacheSaves + 1 := by
  have hF : (FromURL E s URL File).2.length ≤ 1 ∧
      (FromURL E s URL File).1.CacheSaves ≤ s.CacheSaves + 1 := by
    rcases FromURL_cases E s URL File with ⟨m, hm⟩ | hm | ⟨m, hm⟩
    · rw [hm]
      exact ⟨(FromURLExpecting_calls_le E s URL File m).1,
        (FromURLExpecting_calls_le E s URL File m).2.1⟩
    · rw [hm]
      simp [ProcessRequest]
    · rw [hm]
      exact ⟨(FromURLExpecting_calls_le E _ URL File m).1,
        (FromURLExpecting_calls_le E _ URL File m).2.1⟩
  refine ⟨?_, asyncHead_twice E URL File a c d, ?_, ?_, asyncGet_foldl_cons E URL File c cs a,
    asyncHead_foldl_cons E URL File c cs a, syncGet_foldl_cons E URL File c cs g, ?_,
    (FromURLExpecting_calls_le E s URL File n).1, hF.1,
    (FromURLExpecting_calls_le E s URL File n).2.1, hF.2⟩
  · exact asyncGet_triggered E URL File _ d (asyncGet_sets_triggered E URL File a c)
  · exact syncGet_done E URL File _ d (syncGet_sets_done E URL File g c)
  · exact syncHead_triggered E _ d (syncHead_sets_triggered E q c)
  · simp only [List.foldl]
    exact syncHead_foldl_triggered E cs _ (syncHead_sets_triggered E q c)

/-- C17 at a concrete input: on a transport that invokes every completion
handler three times, `FromURL` calls `OnComplete` once, saves the cache file
once and records the size of the body once. -/
theorem C17_one_shot_guard_witness :
    (FromURL Sample.Repeating Sample.Fresh "u" "f").2 = [true] ∧
    (FromURL Sample.Repeating Sample.Fresh "u" "f").1.CacheSaves = 1 ∧
    (FromURL Sample.Repeating Sample.Fresh "u" "f").1.ExpectedSizeCache = [("u", 3)] ∧
    (FromURL Sample.Repeating Sample.Fresh "u" "f").2.length ≤ 1 :=
  ⟨by decide, by decide, by decide,
    (C17_one_shot_guard Sample.Repeating Sample.Fresh "u" "f" 0 ⟨none, false⟩ ⟨none, false⟩ []
      ⟨Sample.Fresh, false, []⟩ ⟨Sample.Fresh, false, false, false, false⟩
      ⟨0, false, false⟩).2.2.2.2.2.2.2.2.2.1⟩

/-! ## The orchestrator -/

namespace Concurrency

theorem RunMany.OnCompleteElement_early (f : FanIn) (b : Bool)
    (h : f.Observed + 1 ≠ f.Count) :
    RunMany.OnCompleteElement f b =
      { Count := f.Count, Observed := f.Observed + 1, bSuccess := f.bSuccess && b,
        OnAllDoneCalls := f.OnAllDoneCalls } := by
  unfold RunMany.OnCompleteElement
  simp [h]

theorem RunMany.OnCompleteElement_last (f : FanIn) (b : Bool)
    (h : f.Observed + 1 = f.Count) :
    RunMany.OnCompleteElement f b =
      { Count := f.Count, Observed := f.Observed + 1, bSuccess := f.bSuccess && b,
        OnAllDoneCalls := f.OnAllDoneCalls ++ [f.bSuccess && b] } := by
  unfold RunMany.OnCompleteElement
  simp [h]

/-- While completions are still missing the final completion is not invoked. -/
theorem RunMany.foldl_early (as : List (Nat × Bool)) (f : FanIn)
    (h : f.Observed + as.length < f.Count) :
    as.foldl (fun f a => RunMany.OnCompleteElement f a.2) f =
      { Count := f.Count, Observed := f.Observed + as.length,
        bSuccess := f.bSuccess && as.all (fun a => a.2),
        OnAllDoneCalls := f.OnAllDoneCalls } := by
  induction as generalizing f with
  | nil => cases f; simp
  | cons a as ih =>
    rw [List.foldl_cons, RunMany.OnCompleteElement_early f a.2 (by simp at h; omega)]
    rw [ih _ (by simp at h ⊢; omega)]
    simp [Bool.and_assoc]
    omega

theorem all_snd_of_perm (Results : List Bool) (Arrivals : List (Nat × Bool))
    (hperm : Arrivals.Perm Results.enum) :
    Arrivals.all (fun a => a.2) = Results.all id := by
  have hm : (Arrivals.map Prod.snd).Perm Results := by
    have := hperm.map Prod.snd
    rwa [List.enum_map_snd] at this
  rw [Bool.eq_iff_iff, List.all_eq_true, List.all_eq_true]
  constructor
  · intro h x hx
    rcases List.mem_map.1 (hm.mem_iff.2 hx) with ⟨a, ha, rfl⟩
    exact h a ha
  · intro h a ha
    exact h a.2 (hm.mem_iff.1 (List.mem_map.2 ⟨a, ha, rfl⟩))

/-- C7. Fan-in result of the orchestrator. Let `Results` be the per-unit
results of the `N = Results.length` units and let the completions arrive in any
order, each unit completing once (`Arrivals` is a permutation of the indexed
results). Then after all arrivals the final completion has been invoked exactly
once, with the logical AND of the `N` results, and after any `k < N` arrivals
it has not been invoked at all, whatever failures are among them. -/
theorem C7_fan_in (Results : List Bool) (Arrivals : List (Nat × Bool))
    (hperm : Arrivals.Perm Results.enum) :
    (RunMany Results.length Arrivals).OnAllDoneCalls = [Results.all id] ∧
    (∀ k, k < Results.length →
      (RunMany Results.length (Arrivals.take k)).OnAllDoneCalls = []) := by
  have hlen : Arrivals.length = Results.length := by
    rw [hperm.length_eq, List.enum_length]
  have hall := all_snd_of_perm Results Arrivals hperm
  constructor
  · rcases List.eq_nil_or_concat Arrivals with hnil | ⟨L, b, hL⟩
    · subst hnil
      have h0 : Results.length = 0 := by simpa using hlen.symm
      have hR : Results = [] := List.length_eq_zero.1 h0
      subst hR
      rfl
    · subst hL
      rw [List.concat_eq_append] at hlen hall ⊢
      rw [List.length_append, List.length_singleton] at hlen
      unfold RunMany
      rw [List.foldl_append, List.foldl_cons, List.foldl_nil]
      rw [RunMany.foldl_early L (RunMany.Start Results.length)
        (by simp [RunMany.Start]; omega)]
      rw [RunMany.OnCompleteElement_last _ _ (by simp [RunMany.Start]; omega)]
      have hne : Results.length ≠ 0 := by omega
      rw [← hall]
      simp [RunMany.Start, hne]
  · intro k hk
    unfold RunMany
    rw [RunMany.foldl_early _ (RunMany.Start Results.length)
      (by simp [RunMany.Start, List.length_take]; omega)]
    have hne : Results.length ≠ 0 := by omega
    simp [RunMany.Start, hne]

/-- C7 at a concrete input: three units, the second failing, completing in the
order 2, 0, 1. -/
theorem C7_fan_in_witness :
    (RunMany 3 [(2, true), (0, true), (1, false)]).OnAllDoneCalls = [false] ∧
    (RunMany 3 [(2, true), (0, true)]).OnAllDoneCalls = [] :=
  have h := C7_fan_in [true, false, true] [(2, true), (0, true), (1, false)] (by decide)
  ⟨h.1, h.2 2 (by decide)⟩

end Concurrency

/-! ## The tile pipeline -/

namespace HMXYZ

theorem ShowDialogOnce_OutputFiles (r : RunState) :
    (ShowDialogOnce r).OutputFiles = r.OutputFiles := by
  unfold ShowDialogOnce
  split <;> rfl

theorem ShowDialogOnce_Steps (r : RunState) : (ShowDialogOnce r).Steps = r.Steps := by
  unfold ShowDialogOnce
  split <;> rfl

theorem StopsAtFailure_cons (st : Step) (l : List Step) (h : st.Ok = true) :
    StopsAtFailure (st :: l) = StopsAtFailure l := by
  cases l with
  | nil => rfl
  | cons a l => simp [StopsAtFailure, h]

/-- The materialize step: its result, the output it appends, the one external
call it makes. -/
theorem Materialize_spec (p : Config) (o : TileOutcome) (X Y : Int) (D : FString)
    (r : RunState) :
    (Materialize p o X Y D r).1 = MaterializeOk p o ∧
    (Materialize p o X Y D r).2.OutputFiles =
      r.OutputFiles ++
        (if MaterializeOk p o = true then
          [Combine (XYZFolder p) (FileName p X Y ++
            (if p.bGeoreferenceSlippyTiles then ".tif" else o.GetExtension D))]
         else []) ∧
    (∃ st, (Materialize p o X Y D r).2.Steps = r.Steps ++ [st] ∧
      st.Ok = MaterializeOk p o) := by
  unfold Materialize MaterializeOk
  cases hg : p.bGeoreferenceSlippyTiles
  · cases hc : o.bCopyOk
    · simp [Step.Ok]
    · simp [Step.Ok]
  · cases hk : o.bGeoreferenceOk
    · simp [Step.Ok]
    · simp [Step.Ok]

theorem MaterializeAndReport_spec (p : Config) (o : TileOutcome) (X Y : Int) (D : FString)
    (r : RunState) :
    (MaterializeAndReport p o X Y D r).2 = [MaterializeOk p o] ∧
    (MaterializeAndReport p o X Y D r).1.OutputFiles =
      r.OutputFiles ++
        (if MaterializeOk p o = true then
          [Combine (XYZFolder p) (FileName p X Y ++
            (if p.bGeoreferenceSlippyTiles then ".tif" else o.GetExtension D))]
         else []) ∧
    (∃ st, (MaterializeAndReport p o X Y D r).1.Steps = r.Steps ++ [st] ∧
      st.Ok = MaterializeOk p o) := by
  obtain ⟨h1, h2, st, h3, h4⟩ := Materialize_spec p o X Y D r
  unfold MaterializeAndReport
  dsimp only
  rw [h1]
  cases hm : MaterializeOk p o
  · rw [hm] at h2 h4
    exact ⟨rfl, h2, st, h3, h4⟩
  · rw [hm] at h2 h4
    exact ⟨rfl, h2, st, h3, h4⟩

/-- Lines 152-221 of the callback: the value reported, the output appended and
the external calls made. -/
theorem ExtractAndMaterialize_spec (p : Config) (o : TileOutcome) (X Y : Int) (D : FString)
    (r : RunState) :
    (ExtractAndMaterialize p o X Y D r).2 =
      [(!ContainsDot p.Format || (o.bExtractOk && o.TileFiles.length == 1)) &&
        MaterializeOk p o] ∧
    (ExtractAndMaterialize p o X Y D r).1.OutputFiles =
      r.OutputFiles ++
        (if ((!ContainsDot p.Format || (o.bExtractOk && o.TileFiles.length == 1)) &&
            MaterializeOk p o) = true then
          [Combine (XYZFolder p) (FileName p X Y ++
            (if p.bGeoreferenceSlippyTiles then ".tif"
             else o.GetExtension (if ContainsDot p.Format then o.TileFiles.headD "" else D)))]
         else []) ∧
    (∃ new, (ExtractAndMaterialize p o X Y D r).1.Steps = r.Steps ++ new ∧
      StopsAtFailure new = true) := by
  unfold ExtractAndMaterialize
  cases hd : ContainsDot p.Format
  · obtain ⟨h1, h2, st, h3, _⟩ := MaterializeAndReport_spec p o X Y D r
    simp only [Bool.false_eq_true, if_false, Bool.not_false, Bool.true_or, Bool.true_and]
    exact ⟨h1, h2, [st], h3, rfl⟩
  · simp only [if_true, Bool.not_true, Bool.false_or]
    cases he : o.bExtractOk
    · simp only [Bool.not_false, if_true, Bool.false_and, Bool.false_eq_true, if_false,
        List.append_nil, true_and]
      exact ⟨_, rfl, rfl⟩
    · simp only [Bool.not_true, Bool.false_eq_true, if_false, Bool.true_and]
      by_cases hn : o.TileFiles.length = 1
      · have hb : (o.TileFiles.length != 1) = false := by simp [hn]
        have hb2 : (o.TileFiles.length == 1) = true := by simp [hn]
        rw [hb, hb2]
        simp only [Bool.false_eq_true, if_false, Bool.true_and]
        obtain ⟨h1, h2, st, h3, h4⟩ := MaterializeAndReport_spec p o X Y
          (o.TileFiles.headD "")
          { r with Steps := r.Steps ++ [Step.Extract
              ("x -aos \"" ++ DownloadFile p X Y ++ "\" -o\"" ++
                Combine p.DownloadDir
                  (p.Layer ++ "-" ++ FromInt p.Zoom ++ "-" ++ FromInt X ++ "-" ++ FromInt Y) ++
                "\"") true] ++
              [Step.FindFiles (Combine p.DownloadDir
                  (p.Layer ++ "-" ++ FromInt p.Zoom ++ "-" ++ FromInt X ++ "-" ++ FromInt Y))
                ("*." ++ LeftOfDot p.Format) o.TileFiles.length] }
        refine ⟨h1, h2, ?_⟩
        rw [h3]
        simp only [List.append_assoc, List.cons_append, List.nil_append]
        exact ⟨_, rfl, by simp [StopsAtFailure, Step.Ok, hn]⟩
      · have hb : (o.TileFiles.length != 1) = true := by simp [hn]
        have hb2 : (o.TileFiles.length == 1) = false := by simp [hn]
        rw [hb, hb2]
        simp only [if_true, Bool.false_and, Bool.false_eq_true, if_false, List.append_nil,
          ShowDialogOnce_OutputFiles, ShowDialogOnce_Steps, true_and]
        simp only [List.append_assoc, List.cons_append, List.nil_append]
        exact ⟨_, rfl, by simp [StopsAtFailure, Step.Ok]⟩

/-- The download callback: the value it reports, the output it appends and the
external calls it makes. -/
theorem OnDownloadComplete_spec (p : Config) (o : TileOutcome) (X Y : Int) (r : RunState)
    (b : Bool) :
    (OnDownloadComplete p o X Y r b).2 = [TileSucceeds p o b] ∧
    (OnDownloadComplete p o X Y r b).1.OutputFiles =
      r.OutputFiles ++ (if TileSucceeds p o b = true then [OutputFileOf p o X Y] else []) ∧
    (∃ new, (OnDownloadComplete p o X Y r b).1.Steps = r.Steps ++ new ∧
      StopsAtFailure new = true ∧ (b = false → new = [])) := by
  unfold OnDownloadComplete TileSucceeds OutputFileOf MaterializeInput
  cases b
  · simp [StopsAtFailure]
  · simp only [if_true, Bool.true_and]
    cases hdec : p.bDecodeMapbox
    · obtain ⟨h1, h2, new, h3, h4⟩ :=
        ExtractAndMaterialize_spec p o X Y (DownloadFile p X Y) r
      simp only [Bool.false_eq_true, if_false, Bool.not_false, Bool.true_or, Bool.true_and]
      refine ⟨h1, ?_, new, h3, h4, fun h => by cases h⟩
      rw [h2]
    · simp only [if_true, Bool.not_true, Bool.false_or]
      unfold DecodeMapboxThreeBands
      cases hok : o.bDecodeOk
      · simp only [Bool.false_eq_true, if_false, Bool.not_false, if_true, Bool.false_and,
          List.append_nil, true_and, ShowDialogOnce_OutputFiles, ShowDialogOnce_Steps]
        refine ⟨?_, ?_⟩
        · split
          · rw [ShowDialogOnce_OutputFiles]
          · rfl
        · cases hrep : o.bDecodeReports
          · exact ⟨_, rfl, rfl, fun h => by cases h⟩
          · simp only [if_true, ShowDialogOnce_Steps]
            exact ⟨_, rfl, rfl, fun h => by cases h⟩
      · simp only [if_true, Bool.not_true, Bool.false_eq_true, if_false, Bool.true_and]
        obtain ⟨h1, h2, new, h3, h4⟩ := ExtractAndMaterialize_spec p o X Y
          (Combine p.DownloadDir
            ("MapboxTerrainDEMV1-" ++ FromInt p.Zoom ++ "-" ++ FromInt X ++ "-" ++ FromInt Y ++
              "-decoded.tif"))
          { r with Steps := r.Steps ++ [Step.Decode (DownloadFile p X Y)
            (Combine p.DownloadDir
              ("MapboxTerrainDEMV1-" ++ FromInt p.Zoom ++ "-" ++ FromInt X ++ "-" ++
                FromInt Y ++ "-decoded.tif")) true] }
        refine ⟨h1, ?_, ?_⟩
        · rw [h2]
        · rw [h3]
          simp only [List.append_assoc, List.cons_append, List.nil_append]
          exact ⟨_, rfl, (StopsAtFailure_cons (Step.Decode _ _ true) new rfl).trans h4,
            fun h => by cases h⟩

theorem PerTile_single (p : Config) (o : TileOutcome) (r : RunState) (i : Int)
    (h : (o.Download (ReplacedURL p (TileX p i) (TileY p i))
      (DownloadFile p (TileX p i) (TileY p i))).length = 1) :
    PerTile p o r i = OnDownloadComplete p o (TileX p i) (TileY p i) r (Delivered p o i) := by
  unfold PerTile Delivered
  obtain ⟨b, hb⟩ := List.length_eq_one.1 h
  dsimp only
  rw [hb]
  simp

theorem PerTile_calls_length (p : Config) (o : TileOutcome) (r : RunState) (i : Int) :
    (PerTile p o r i).2.length =
      (o.Download (ReplacedURL p (TileX p i) (TileY p i))
        (DownloadFile p (TileX p i) (TileY p i))).length := by
  unfold PerTile
  dsimp only
  generalize o.Download (ReplacedURL p (TileX p i) (TileY p i))
    (DownloadFile p (TileX p i) (TileY p i)) = ds
  suffices h : ∀ (acc : RunState × List Bool),
      (ds.foldl (fun acc bOneSuccess =>
        ((OnDownloadComplete p o (TileX p i) (TileY p i) acc.1 bOneSuccess).1,
          acc.2 ++ (OnDownloadComplete p o (TileX p i) (TileY p i) acc.1 bOneSuccess).2))
        acc).2.length = acc.2.length + ds.length by
    simpa using h (r, [])
  induction ds with
  | nil => intro acc; rfl
  | cons d ds ih =>
    intro acc
    rw [List.foldl_cons, ih]
    simp [(OnDownloadComplete_spec p o (TileX p i) (TileY p i) acc.1 d).1]
    omega

theorem RunTiles_spec (p : Config) (Outcomes : Int → TileOutcome) (Order : List Int)
    (acc : RunState × List (Int × Bool))
    (hone : ∀ i ∈ Order, ((Outcomes i).Download (ReplacedURL p (TileX p i) (TileY p i))
      (DownloadFile p (TileX p i) (TileY p i))).length = 1) :
    (Order.foldl (fun acc i =>
        ((PerTile p (Outcomes i) acc.1 i).1,
          acc.2 ++ (PerTile p (Outcomes i) acc.1 i).2.map (fun b => (i, b)))) acc).2 =
      acc.2 ++ Order.map (fun i =>
        (i, TileSucceeds p (Outcomes i) (Delivered p (Outcomes i) i))) ∧
    (Order.foldl (fun acc i =>
        ((PerTile p (Outcomes i) acc.1 i).1,
          acc.2 ++ (PerTile p (Outcomes i) acc.1 i).2.map (fun b => (i, b)))) acc).1.OutputFiles =
      acc.1.OutputFiles ++
        (Order.filter (fun i =>
          TileSucceeds p (Outcomes i) (Delivered p (Outcomes i) i))).map
          (fun i => OutputFileOf p (Outcomes i) (TileX p i) (TileY p i)) := by
  induction Order generalizing acc with
  | nil => simp
  | cons i Order ih =>
    have hi := hone i (List.mem_cons_self _ _)
    have hrest : ∀ j ∈ Order, ((Outcomes j).Download (ReplacedURL p (TileX p j) (TileY p j))
        (DownloadFile p (TileX p j) (TileY p j))).length = 1 :=
      fun j hj => hone j (List.mem_cons_of_mem _ hj)
    obtain ⟨h1, h2, _⟩ := OnDownloadComplete_spec p (Outcomes i) (TileX p i) (TileY p i)
      acc.1 (Delivered p (Outcomes i) i)
    rw [List.foldl_cons]
    obtain ⟨g1, g2⟩ := ih _ hrest
    rw [g1, g2]
    dsimp only
    rw [PerTile_single p (Outcomes i) acc.1 i hi, h1, h2]
    constructor
    · simp
    · cases hs : TileSucceeds p (Outcomes i) (Delivered p (Outcomes i) i) <;>
        simp [List.filter_cons, hs]

/-- C8. The tile task honours the per-unit obligation: whatever the step
outcomes and flags, every invocation of the download callback invokes
`OnCompleteElement` exactly once, so when the fetcher delivers its completion
exactly once, the per-tile function invokes `OnCompleteElement` exactly once. -/
theorem C8_completion_exactly_once (p : Config) (o : TileOutcome) (r : RunState) (i : Int)
    (b : Bool)
    (hd : o.Download (ReplacedURL p (TileX p i) (TileY p i))
      (DownloadFile p (TileX p i) (TileY p i)) = [b]) :
    (PerTile p o r i).2.length = 1 ∧
    (∀ (X Y : Int) (t : RunState) (d : Bool), (OnDownloadComplete p o X Y t d).2.length = 1) := by
  constructor
  · rw [PerTile_calls_length, hd]
    rfl
  · intro X Y t d
    rw [(OnDownloadComplete_spec p o X Y t d).1]
    rfl

/-- C8 at a concrete input: tile 1 of the sample run, whose archive holds two
matching files, reports once, and reports failure. -/
theorem C8_completion_exactly_once_witness :
    (PerTile Sample.Grid Sample.TwoFilesTile Sample.RunStart 1).2.length = 1 ∧
    (PerTile Sample.Grid Sample.TwoFilesTile Sample.RunStart 1).2 = [false] :=
  ⟨(C8_completion_exactly_once Sample.Grid Sample.TwoFilesTile Sample.RunStart 1 true rfl).1,
    by decide⟩

/-- C9. Per-tile outcome and best-effort outputs. The download callback reports
`TileSucceeds`, that is success iff the download succeeded and (decoding is
disabled or the decode succeeded) and (the format is not an archive, or the
extraction succeeded and exactly one matching file was found) and the
materialize step succeeded. It appends exactly one path, the output file of
the tile, when it reports success and none when it reports failure. The
external calls it makes stop at the first failing one, and there are none when
the download failed. Hence, when the fetcher delivers one completion per tile,
a run over the tiles in any order `Order` reports one value per tile and
`OutputFiles` gains exactly the outputs of the tiles that succeeded. -/
theorem C9_tile_outcome (p : Config) (Outcomes : Int → TileOutcome) (Order : List Int)
    (o : TileOutcome) (X Y : Int) (r : RunState) (b : Bool)
    (hone : ∀ i ∈ Order, ((Outcomes i).Download (ReplacedURL p (TileX p i) (TileY p i))
      (DownloadFile p (TileX p i) (TileY p i))).length = 1) :
    (OnDownloadComplete p o X Y r b).2 = [TileSucceeds p o b] ∧
    (TileSucceeds p o b = true ↔
      (b = true ∧ (p.bDecodeMapbox = false ∨ o.bDecodeOk = true) ∧
        (ContainsDot p.Format = false ∨ (o.bExtractOk = true ∧ o.TileFiles.length = 1)) ∧
        (if p.bGeoreferenceSlippyTiles = true then o.bGeoreferenceOk = true
         else o.bCopyOk = true))) ∧
    (OnDownloadComplete p o X Y r b).1.OutputFiles =
      r.OutputFiles ++ (if TileSucceeds p o b = true then [OutputFileOf p o X Y] else []) ∧
    (∃ new, (OnDownloadComplete p o X Y r b).1.Steps = r.Steps ++ new ∧
      StopsAtFailure new = true ∧ (b = false → new = [])) ∧
    (RunTiles p Outcomes Order r).2 =
      Order.map (fun i => (i, TileSucceeds p (Outcomes i) (Delivered p (Outcomes i) i))) ∧
    (RunTiles p Outcomes Order r).1.OutputFiles =
      r.OutputFiles ++
        (Order.filter (fun i =>
          TileSucceeds p (Outcomes i) (Delivered p (Outcomes i) i))).map
          (fun i => OutputFileOf p (Outcomes i) (TileX p i) (TileY p i)) := by
  obtain ⟨h1, h2, h3⟩ := OnDownloadComplete_spec p o X Y r b
  obtain ⟨g1, g2⟩ := RunTiles_spec p Outcomes Order (r, []) hone
  refine ⟨h1, ?_, h2, h3, ?_, g2⟩
  · unfold TileSucceeds MaterializeOk
    cases p.bGeoreferenceSlippyTiles <;> cases p.bDecodeMapbox <;> simp [and_assoc]
  · unfold RunTiles
    simpa using g1

/-- C9 at a concrete input: the sample run in the completion order 2, 1, 0, in
which tile 1 fails at the file count; the two other tiles still deliver their
outputs. -/
theorem C9_tile_outcome_witness :
    (RunTiles Sample.Grid Sample.Outcomes [2, 1, 0] Sample.RunStart).2 =
      [(2, true), (1, false), (0, true)] ∧
    (RunTiles Sample.Grid Sample.Outcomes [2, 1, 0] Sample.RunStart).1.OutputFiles =
      ["img/N-XYZ/N_x2_y2.tif", "img/N-XYZ/N_x0_y2.tif"] :=
  have h := C9_tile_outcome Sample.Grid Sample.Outcomes [2, 1, 0] Sample.GoodTile 5 10
    Sample.RunStart true (by decide)
  ⟨h.2.2.2.2.1.trans (by decide), h.2.2.2.2.2.trans (by decide)⟩

/-! ## Tile indices -/

theorem toInt32_of_range (x : Int) (h0 : -2147483648 ≤ x) (h1 : x < 2147483648) :
    toInt32 x = x := by
  unfold toInt32
  omega

/-- Without overflow, `Width`, `Height` and `NumTiles` are the mathematical
values. -/
theorem grid_sizes (p : Config) (hX : p.MinX ≤ p.MaxX) (hY : p.MinY ≤ p.MaxY)
    (hN : (p.MaxX - p.MinX + 1) * (p.MaxY - p.MinY + 1) < 2147483648) :
    Width p = p.MaxX - p.MinX + 1 ∧ Height p = p.MaxY - p.MinY + 1 ∧
    NumTiles p = (p.MaxX - p.MinX + 1) * (p.MaxY - p.MinY + 1) := by
  have hW : 1 ≤ p.MaxX - p.MinX + 1 := by omega
  have hH : 1 ≤ p.MaxY - p.MinY + 1 := by omega
  have hW2 : p.MaxX - p.MinX + 1 < 2147483648 := by nlinarith
  have hH2 : p.MaxY - p.MinY + 1 < 2147483648 := by nlinarith
  have hw : Width p = p.MaxX - p.MinX + 1 := by
    unfold Width
    rw [toInt32_of_range (p.MaxX - p.MinX) (by omega) (by omega),
      toInt32_of_range _ (by omega) hW2]
  have hh : Height p = p.MaxY - p.MinY + 1 := by
    unfold Height
    rw [toInt32_of_range (p.MaxY - p.MinY) (by omega) (by omega),
      toInt32_of_range _ (by omega) hH2]
  refine ⟨hw, hh, ?_⟩
  unfold NumTiles
  rw [hw, hh, toInt32_of_range _ (by nlinarith) hN]

/-- Without overflow, the tile of a linear index in range is given by the
mathematical remainder and quotient. -/
theorem tile_of_index (p : Config) (hX : p.MinX ≤ p.MaxX) (hY : p.MinY ≤ p.MaxY)
    (hr : -2147483648 ≤ p.MinX ∧ p.MaxX < 2147483648 ∧
      -2147483648 ≤ p.MinY ∧ p.MaxY < 2147483648)
    (hN : (p.MaxX - p.MinX + 1) * (p.MaxY - p.MinY + 1) < 2147483648)
    (i : Int) (h0 : 0 ≤ i) (h1 : i < (p.MaxX - p.MinX + 1) * (p.MaxY - p.MinY + 1)) :
    TileX p i = i % (p.MaxX - p.MinX + 1) + p.MinX ∧
    TileY p i = i / (p.MaxX - p.MinX + 1) + p.MinY ∧
    0 ≤ i % (p.MaxX - p.MinX + 1) ∧ i % (p.MaxX - p.MinX + 1) < p.MaxX - p.MinX + 1 ∧
    0 ≤ i / (p.MaxX - p.MinX + 1) ∧ i / (p.MaxX - p.MinX + 1) < p.MaxY - p.MinY + 1 := by
  obtain ⟨hw, _, _⟩ := grid_sizes p hX hY hN
  have hW : 0 < p.MaxX - p.MinX + 1 := by omega
  have hm0 : 0 ≤ i % (p.MaxX - p.MinX + 1) := Int.emod_nonneg _ (by omega)
  have hm1 : i % (p.MaxX - p.MinX + 1) < p.MaxX - p.MinX + 1 := Int.emod_lt_of_pos _ hW
  have hd0 : 0 ≤ i / (p.MaxX - p.MinX + 1) := Int.ediv_nonneg h0 (by omega)
  have hd1 : i / (p.MaxX - p.MinX + 1) < p.MaxY - p.MinY + 1 :=
    Int.ediv_lt_of_lt_mul hW (by rw [mul_comm]; exact h1)
  refine ⟨?_, ?_, hm0, hm1, hd0, hd1⟩
  · unfold TileX
    rw [hw, Int.tmod_eq_emod h0 (by omega), toInt32_of_range _ (by omega) (by omega)]
  · unfold TileY
    rw [hw, Int.tdiv_eq_ediv h0 (by omega), toInt32_of_range _ (by omega) (by omega)]

/-- C10. One task per tile. For a grid with `MinX <= MaxX` and `MinY <= MaxY`
whose bounds are `int` values and whose tile count does not overflow, the
linear indices `0 <= i < NumTiles` are mapped to
`(i mod W + MinX, i div W + MinY)`, every such tile lies inside the requested
range, and every tile of the range is produced by exactly one index. -/
theorem C10_one_task_per_tile (p : Config) (hX : p.MinX ≤ p.MaxX) (hY : p.MinY ≤ p.MaxY)
    (hr : -2147483648 ≤ p.MinX ∧ p.MaxX < 2147483648 ∧
      -2147483648 ≤ p.MinY ∧ p.MaxY < 2147483648)
    (hN : (p.MaxX - p.MinX + 1) * (p.MaxY - p.MinY + 1) < 2147483648) :
    NumTiles p = (p.MaxX - p.MinX + 1) * (p.MaxY - p.MinY + 1) ∧
    (∀ i : Int, 0 ≤ i → i < NumTiles p →
      TileX p i = i % (p.MaxX - p.MinX + 1) + p.MinX ∧
      TileY p i = i / (p.MaxX - p.MinX + 1) + p.MinY ∧
      p.MinX ≤ TileX p i ∧ TileX p i ≤ p.MaxX ∧ p.MinY ≤ TileY p i ∧ TileY p i ≤ p.MaxY) ∧
    (∀ x y : Int, p.MinX ≤ x → x ≤ p.MaxX → p.MinY ≤ y → y ≤ p.MaxY →
      ∃! i : Int, 0 ≤ i ∧ i < NumTiles p ∧ TileX p i = x ∧ TileY p i = y) := by
  obtain ⟨_, _, hn⟩ := grid_sizes p hX hY hN
  have hW : 0 < p.MaxX - p.MinX + 1 := by omega
  refine ⟨hn, ?_, ?_⟩
  · intro i h0 h1
    rw [hn] at h1
    obtain ⟨hx, hy, a, b, c, d⟩ := tile_of_index p hX hY hr hN i h0 h1
    refine ⟨hx, hy, ?_, ?_, ?_, ?_⟩ <;> omega
  · intro x y hx0 hx1 hy0 hy1
    have hi0 : 0 ≤ (x - p.MinX) + (y - p.MinY) * (p.MaxX - p.MinX + 1) := by
      have : 0 ≤ (y - p.MinY) * (p.MaxX - p.MinX + 1) :=
        Int.mul_nonneg (by omega) (by omega)
      omega
    have hi1 : (x - p.MinX) + (y - p.MinY) * (p.MaxX - p.MinX + 1) <
        (p.MaxX - p.MinX + 1) * (p.MaxY - p.MinY + 1) := by
      have : (y - p.MinY) * (p.MaxX - p.MinX + 1) ≤
          (p.MaxY - p.MinY) * (p.MaxX - p.MinX + 1) :=
        Int.mul_le_mul_of_nonneg_right (by omega) (by omega)
      nlinarith
    have hmod : ((x - p.MinX) + (y - p.MinY) * (p.MaxX - p.MinX + 1)) %
        (p.MaxX - p.MinX + 1) = x - p.MinX := by
      rw [Int.add_mul_emod_self, Int.emod_eq_of_lt (by omega) (by omega)]
    have hdiv : ((x - p.MinX) + (y - p.MinY) * (p.MaxX - p.MinX + 1)) /
        (p.MaxX - p.MinX + 1) = y - p.MinY := by
      rw [Int.add_mul_ediv_right _ _ (by omega), Int.ediv_eq_zero_of_lt (by omega) (by omega)]
      omega
    refine ⟨(x - p.MinX) + (y - p.MinY) * (p.MaxX - p.MinX + 1), ?_, ?_⟩
    · obtain ⟨tx, ty, _⟩ := tile_of_index p hX hY hr hN _ hi0 hi1
      refine ⟨hi0, by rw [hn]; exact hi1, ?_, ?_⟩
      · rw [tx, hmod]; omega
      · rw [ty, hdiv]; omega
    · rintro j ⟨hj0, hj1, hjx, hjy⟩
      rw [hn] at hj1
      obtain ⟨tx, ty, _⟩ := tile_of_index p hX hY hr hN j hj0 hj1
      rw [tx] at hjx
      rw [ty] at hjy
      have hdecomp := Int.emod_add_ediv j (p.MaxX - p.MinX + 1)
      have h1 : j % (p.MaxX - p.MinX + 1) = x - p.MinX := by omega
      have h2 : j / (p.MaxX - p.MinX + 1) = y - p.MinY := by omega
      rw [h1, h2] at hdecomp
      rw [← hdecomp]
      ring

/-- C10 at a concrete input: the grid 5..7 x 10..12 has nine tiles, and the
index 4 is its centre tile (6, 11). -/
theorem C10_one_task_per_tile_witness :
    NumTiles Sample.Grid = 9 ∧ TileX Sample.Grid 4 = 6 ∧ TileY Sample.Grid 4 = 11 ∧
    (∃! i : Int, 0 ≤ i ∧ i < NumTiles Sample.Grid ∧
      TileX Sample.Grid i = 6 ∧ TileY Sample.Grid i = 11) :=
  have h := C10_one_task_per_tile Sample.Grid (by decide) (by decide) (by decide) (by decide)
  ⟨by decide, by decide, by decide, h.2.2 6 11 (by decide) (by decide) (by decide) (by decide)⟩

/-! ## Pre-flight checks of `Fetch` -/

/-- C12. Invalid range is rejected before any tile work: for every request with
`MinX > MaxX` or `MinY > MaxY`, whatever the other fields and the answers of
the collaborators, `Fetch` invokes `OnComplete` exactly once, with `false`,
does not call `Concurrency::RunMany`, issues no download, makes no external
call of the tile pipeline and leaves `OutputFiles` as it was. -/
theorem C12_invalid_range (p : Config) (env : FetchEnv) (OutputFiles : List FString)
    (h : p.MinX > p.MaxX ∨ p.MinY > p.MaxY) :
    (Fetch p env OutputFiles).OnCompleteCalls = [false] ∧
    (Fetch p env OutputFiles).Scheduled = none ∧
    (Fetch p env OutputFiles).Downloads = [] ∧
    (Fetch p env OutputFiles).Run.Steps = [] ∧
    (Fetch p env OutputFiles).Run.OutputFiles = OutputFiles := by
  have hr : (decide (p.MinX > p.MaxX) || decide (p.MinY > p.MaxY)) = true := by
    rcases h with h | h <;> simp [h]
  unfold Fetch
  by_cases h1 : (!env.bFolderOk) = true
  · simp [h1]
  · by_cases h2 : (!p.bGeoreferenceSlippyTiles && p.CRS.isEmpty) = true
    · simp [h1, h2]
    · simp [h1, h2, hr]

/-- C12 at the input of the specification: `MinX = 3`, `MaxX = 1`. -/
theorem C12_invalid_range_witness :
    (Fetch Sample.BadRange (Sample.Env [0, 1, 2]) []).OnCompleteCalls = [false] ∧
    (Fetch Sample.BadRange (Sample.Env [0, 1, 2]) []).Scheduled = none ∧
    (Fetch Sample.BadRange (Sample.Env [0, 1, 2]) []).Downloads = [] :=
  have h := C12_invalid_range Sample.BadRange (Sample.Env [0, 1, 2]) [] (Or.inl (by decide))
  ⟨h.1, h.2.1, h.2.2.1⟩

/-- The confirmation gate of `Fetch` in terms of the 32-bit value `NumTiles`: a
request that passes the earlier checks is asked for confirmation exactly when
`NumTiles` exceeds 16, and a Cancel answer ends the call with one
`OnComplete(false)` and without tile tasks. -/
theorem confirmation_gate (p : Config) (env : FetchEnv) (OutputFiles : List FString)
    (hf : env.bFolderOk = true) (hc : (!p.bGeoreferenceSlippyTiles && p.CRS.isEmpty) = false)
    (hX : p.MinX ≤ p.MaxX) (hY : p.MinY ≤ p.MaxY) :
    ((Fetch p env OutputFiles).Confirmations = 1 ↔ NumTiles p > 16) ∧
    ((Fetch p env OutputFiles).Confirmations = 0 ↔ NumTiles p ≤ 16) ∧
    (NumTiles p > 16 → env.bUserCancels = true →
      (Fetch p env OutputFiles).OnCompleteCalls = [false] ∧
      (Fetch p env OutputFiles).Scheduled = none ∧
      (Fetch p env OutputFiles).Downloads = []) := by
  have hr : (decide (p.MinX > p.MaxX) || decide (p.MinY > p.MaxY)) = false := by
    simp
    omega
  unfold Fetch
  simp only [hf, hc, hr, Bool.not_true, Bool.false_eq_true, if_false]
  by_cases hn : NumTiles p > 16
  · have hn2 : ¬ NumTiles p ≤ 16 := by omega
    cases hu : env.bUserCancels
    · cases h7 : (ContainsDot p.Format && !env.bSevenZipOk) <;> simp [hn, hn2]
    · simp [hn, hn2]
  · have hn2 : NumTiles p ≤ 16 := by omega
    cases h7 : (ContainsDot p.Format && !env.bSevenZipOk) <;> simp [hn, hn2]

/-- Within the range of `int` the gate is the one of the specification: for a
valid request whose tile count does not overflow, confirmation is requested
exactly when `(MaxX-MinX+1)*(MaxY-MinY+1)` exceeds 16. -/
theorem confirmation_gate_without_overflow (p : Config) (env : FetchEnv)
    (OutputFiles : List FString)
    (hf : env.bFolderOk = true) (hc : (!p.bGeoreferenceSlippyTiles && p.CRS.isEmpty) = false)
    (hX : p.MinX ≤ p.MaxX) (hY : p.MinY ≤ p.MaxY)
    (hN : (p.MaxX - p.MinX + 1) * (p.MaxY - p.MinY + 1) < 2147483648) :
    ((Fetch p env OutputFiles).Confirmations = 1 ↔
      (p.MaxX - p.MinX + 1) * (p.MaxY - p.MinY + 1) > 16) ∧
    ((Fetch p env OutputFiles).Confirmations = 0 ↔
      (p.MaxX - p.MinX + 1) * (p.MaxY - p.MinY + 1) ≤ 16) := by
  obtain ⟨h1, h2, _⟩ := confirmation_gate p env OutputFiles hf hc hX hY
  rw [(grid_sizes p hX hY hN).2.2] at h1 h2
  exact ⟨h1, h2⟩

/-- C13, the code at a failing input: the request for all 65536 x 65536 tiles of
zoom 16 passes the earlier checks and its tile count 4294967296 exceeds 16, but
the `int` value `NumTiles` wraps around to 0, so no confirmation is requested,
even from a user who would answer Cancel, and `Concurrency::RunMany` is called
with 0 tasks. -/
theorem C13_overflow_skips_confirmation :
    Sample.WholeWorld.MinX ≤ Sample.WholeWorld.MaxX ∧
    Sample.WholeWorld.MinY ≤ Sample.WholeWorld.MaxY ∧
    (Sample.WholeWorld.MaxX - Sample.WholeWorld.MinX + 1) *
      (Sample.WholeWorld.MaxY - Sample.WholeWorld.MinY + 1) = 4294967296 ∧
    NumTiles Sample.WholeWorld = 0 ∧
    (Fetch Sample.WholeWorld (Sample.EnvCancel []) []).Confirmations = 0 ∧
    (Fetch Sample.WholeWorld (Sample.EnvCancel []) []).Scheduled = some 0 ∧
    (Fetch Sample.WholeWorld (Sample.EnvCancel []) []).OnCompleteCalls = [true] := by
  decide

/-! ## Archive extraction -/

theorem ContainsDot_of_split (s : FString) (pre rest : List Char)
    (h : s.data = pre ++ '.' :: rest) : ContainsDot s = true := by
  unfold ContainsDot
  rw [h]
  simp

theorem takeWhile_not_dot (pre rest : List Char) (hpre : '.' ∉ pre) :
    (pre ++ '.' :: rest).takeWhile (fun c => !(c == '.')) = pre := by
  induction pre with
  | nil => simp [List.takeWhile]
  | cons c pre ih =>
    have hc : c ≠ '.' := fun hc => hpre (hc ▸ List.mem_cons_self _ _)
    have hp : '.' ∉ pre := fun hp => hpre (List.mem_cons_of_mem _ hp)
    simp [List.takeWhile_cons, hc, ih hp]

theorem LeftOfDot_of_split (s : FString) (pre rest : List Char)
    (h : s.data = pre ++ '.' :: rest) (hpre : '.' ∉ pre) : LeftOfDot s = String.mk pre := by
  unfold LeftOfDot
  rw [h, takeWhile_not_dot pre rest hpre]

/-- The one external call of the materialize step: `AddGeoreference` on the
decoded file with the corners `(X, Y)` and `(X+1, Y+1)`, or the copy of the
decoded file. -/
theorem Materialize_Steps (p : Config) (o : TileOutcome) (X Y : Int) (D : FString)
    (r : RunState) :
    (Materialize p o X Y D r).2.Steps =
      r.Steps ++
        [if p.bGeoreferenceSlippyTiles = true then
          Step.AddGeoreference D (Combine (XYZFolder p) (FileName p X Y ++ ".tif"))
            (X, Y, p.Zoom) (toInt32 (X + 1), toInt32 (Y + 1), p.Zoom) o.bGeoreferenceOk
         else Step.Copy (Combine (XYZFolder p) (FileName p X Y ++ o.GetExtension D)) D
            o.bCopyOk] := by
  unfold Materialize
  cases hg : p.bGeoreferenceSlippyTiles
  · cases hc : o.bCopyOk <;> simp
  · cases hk : o.bGeoreferenceOk <;> simp

theorem MaterializeAndReport_Steps (p : Config) (o : TileOutcome) (X Y : Int) (D : FString)
    (r : RunState) :
    (MaterializeAndReport p o X Y D r).1.Steps = (Materialize p o X Y D r).2.Steps := by
  unfold MaterializeAndReport
  dsimp only
  split <;> rfl

/-- The extraction stage when the archive does not hold exactly one matching
file: the state gains at most the guarded dialog and the two calls of the
extraction, and failure is reported. -/
theorem ExtractAndMaterialize_mismatch (p : Config) (o : TileOutcome) (X Y : Int)
    (D : FString) (r : RunState) (hd : ContainsDot p.Format = true)
    (hn : o.TileFiles.length ≠ 1) :
    (ExtractAndMaterialize p o X Y D r).2 = [false] ∧
    (ExtractAndMaterialize p o X Y D r).1.OutputFiles = r.OutputFiles ∧
    (∃ new, (ExtractAndMaterialize p o X Y D r).1.Steps = r.Steps ++ new ∧
      ∀ st ∈ new, st.IsMaterialize = false) := by
  unfold ExtractAndMaterialize
  have hb : (o.TileFiles.length != 1) = true := by simp [hn]
  cases he : o.bExtractOk
  · simp only [hd, if_true, Bool.not_false, true_and]
    exact ⟨_, rfl, by simp [Step.IsMaterialize]⟩
  · simp only [hd, hb, if_true, Bool.not_true, Bool.false_eq_true, if_false,
      ShowDialogOnce_OutputFiles, ShowDialogOnce_Steps, true_and]
    simp only [List.append_assoc, List.cons_append, List.nil_append]
    exact ⟨_, rfl, by simp [Step.IsMaterialize]⟩

/-- C14. Archive extraction requires exactly one match. For an archive format,
that is a `Format` with the text `pre` before its first dot, the files
searched for are `*.pre`. When the number of matching files is not 1 the tile
reports failure through its completion callback, appends no output path and
makes no materialize call, and its behaviour does not depend on the content of
the match list, so no element of the list is read. When the list is the single
file `f` and the extraction succeeded, the materialize step is called on `f`. -/
theorem C14_exactly_one_match (p : Config) (o : TileOutcome) (X Y : Int) (D : FString)
    (r : RunState) (b : Bool) (pre rest : List Char)
    (hfmt : p.Format.data = pre ++ '.' :: rest) (hpre : '.' ∉ pre) :
    ContainsDot p.Format = true ∧ LeftOfDot p.Format = String.mk pre ∧
    (o.bExtractOk = true →
      ∃ dir, Step.FindFiles dir ("*." ++ String.mk pre) o.TileFiles.length ∈
        (ExtractAndMaterialize p o X Y D r).1.Steps) ∧
    (o.TileFiles.length ≠ 1 →
      (OnDownloadComplete p o X Y r b).2 = [false] ∧
      (OnDownloadComplete p o X Y r b).1.OutputFiles = r.OutputFiles ∧
      (ExtractAndMaterialize p o X Y D r).2 = [false] ∧
      (∃ new, (ExtractAndMaterialize p o X Y D r).1.Steps = r.Steps ++ new ∧
        ∀ st ∈ new, st.IsMaterialize = false) ∧
      (∀ T : List FString, T.length = o.TileFiles.length →
        ExtractAndMaterialize p { o with TileFiles := T } X Y D r =
          ExtractAndMaterialize p o X Y D r)) ∧
    (∀ f : FString, o.TileFiles = [f] → o.bExtractOk = true →
      (∃ out nw se ok, Step.AddGeoreference f out nw se ok ∈
        (ExtractAndMaterialize p o X Y D r).1.Steps) ∨
      (∃ out ok, Step.Copy out f ok ∈ (ExtractAndMaterialize p o X Y D r).1.Steps)) := by
  have hd := ContainsDot_of_split p.Format pre rest hfmt
  have hl := LeftOfDot_of_split p.Format pre rest hfmt hpre
  refine ⟨hd, hl, ?_, ?_, ?_⟩
  · intro he
    refine ⟨Combine p.DownloadDir
      (p.Layer ++ "-" ++ FromInt p.Zoom ++ "-" ++ FromInt X ++ "-" ++ FromInt Y), ?_⟩
    unfold ExtractAndMaterialize
    simp only [hd, he, hl, if_true, Bool.not_true, Bool.false_eq_true, if_false]
    by_cases hn : o.TileFiles.length = 1
    · have hb : (o.TileFiles.length != 1) = false := by simp [hn]
      rw [hb]
      simp only [Bool.false_eq_true, if_false]
      obtain ⟨_, _, st, h3, _⟩ := MaterializeAndReport_spec p o X Y (o.TileFiles.headD "")
        { r with Steps := r.Steps ++ [Step.Extract
            ("x -aos \"" ++ DownloadFile p X Y ++ "\" -o\"" ++
              Combine p.DownloadDir
                (p.Layer ++ "-" ++ FromInt p.Zoom ++ "-" ++ FromInt X ++ "-" ++ FromInt Y) ++
              "\"") true] ++
            [Step.FindFiles (Combine p.DownloadDir
                (p.Layer ++ "-" ++ FromInt p.Zoom ++ "-" ++ FromInt X ++ "-" ++ FromInt Y))
              ("*." ++ String.mk pre) o.TileFiles.length] }
      rw [h3]
      simp
    · have hb : (o.TileFiles.length != 1) = true := by simp [hn]
      rw [hb]
      simp [ShowDialogOnce_Steps]
  · intro hn
    obtain ⟨h1, h2, _⟩ := OnDownloadComplete_spec p o X Y r b
    obtain ⟨g1, _, g3⟩ := ExtractAndMaterialize_mismatch p o X Y D r hd hn
    have hs : TileSucceeds p o b = false := by
      unfold TileSucceeds
      simp [hd, hn]
    rw [hs] at h1 h2
    refine ⟨h1, by simpa using h2, g1, g3, ?_⟩
    intro T hT
    have hb : (o.TileFiles.length != 1) = true := by simp [hn]
    have hb2 : (T.length != 1) = true := by rw [hT]; exact hb
    unfold ExtractAndMaterialize
    cases he : o.bExtractOk
    · simp [hd, he]
    · simp [hd, he, hb, hb2, hT]
  · intro f hf he
    have hE : ExtractAndMaterialize p o X Y D r =
        MaterializeAndReport p o X Y f
          { r with Steps := r.Steps ++ [Step.Extract
              ("x -aos \"" ++ DownloadFile p X Y ++ "\" -o\"" ++
                Combine p.DownloadDir
                  (p.Layer ++ "-" ++ FromInt p.Zoom ++ "-" ++ FromInt X ++ "-" ++ FromInt Y) ++
                "\"") true] ++
              [Step.FindFiles (Combine p.DownloadDir
                  (p.Layer ++ "-" ++ FromInt p.Zoom ++ "-" ++ FromInt X ++ "-" ++ FromInt Y))
                ("*." ++ LeftOfDot p.Format) 1] } := by
      unfold ExtractAndMaterialize
      simp [hd, he, hf]
    rw [hE, MaterializeAndReport_Steps, Materialize_Steps]
    cases hg : p.bGeoreferenceSlippyTiles
    · right
      exact ⟨_, _, List.mem_append_right _ (List.mem_singleton.2 rfl)⟩
    · left
      exact ⟨_, _, _, _, List.mem_append_right _ (List.mem_singleton.2 rfl)⟩

/-- C14 at a concrete input: the format `tif.zip` is searched for `*.tif`; a tile
with two matching files reports failure and appends nothing, a tile with one
matching file is georeferenced from that file. -/
theorem C14_exactly_one_match_witness :
    LeftOfDot Sample.Grid.Format = "tif" ∧
    (OnDownloadComplete Sample.Grid Sample.TwoFilesTile 6 10 Sample.RunStart true).2 = [false] ∧
    (OnDownloadComplete Sample.Grid Sample.TwoFilesTile 6 10 Sample.RunStart true).1.OutputFiles
      = [] ∧
    ((∃ out nw se ok, Step.AddGeoreference "dl/L-3-5-10/a.tif" out nw se ok ∈
        (ExtractAndMaterialize Sample.Grid Sample.GoodTile 5 10 "d" Sample.RunStart).1.Steps) ∨
      (∃ out ok, Step.Copy out "dl/L-3-5-10/a.tif" ok ∈
        (ExtractAndMaterialize Sample.Grid Sample.GoodTile 5 10 "d" Sample.RunStart).1.Steps)) :=
  have h := C14_exactly_one_match Sample.Grid Sample.TwoFilesTile 6 10 "d" Sample.RunStart true
    ['t', 'i', 'f'] ['z', 'i', 'p'] (by decide) (by decide)
  have g := C14_exactly_one_match Sample.Grid Sample.GoodTile 5 10 "d" Sample.RunStart true
    ['t', 'i', 'f'] ['z', 'i', 'p'] (by decide) (by decide)
  ⟨h.2.1, (h.2.2.2.1 (by decide)).1, (h.2.2.2.1 (by decide)).2.1,
    g.2.2.2.2 "dl/L-3-5-10/a.tif" rfl rfl⟩

/-! ## The dialog guard -/

theorem KeepsGuard.refl (r : RunState) : KeepsGuard r r := ⟨rfl, fun h => h⟩

theorem KeepsGuard.trans {a b c : RunState} (h1 : KeepsGuard a b) (h2 : KeepsGuard b c) :
    KeepsGuard a c :=
  ⟨h2.1.trans h1.1, fun h => h2.2 (h1.2 h)⟩

/-- A state that differs only in outputs, progress and steps keeps the guard. -/
theorem KeepsGuard.of_eq (r t : RunState) (hd : t.Dialogs = r.Dialogs)
    (hb : t.bShowedDialog = r.bShowedDialog) : KeepsGuard r t := by
  unfold KeepsGuard DialogBudget
  rw [hd, hb]
  exact ⟨rfl, fun h => h⟩

theorem ShowDialogOnce_KeepsGuard (r : RunState) : KeepsGuard r (ShowDialogOnce r) := by
  unfold KeepsGuard DialogBudget ShowDialogOnce
  cases hb : r.bShowedDialog <;> simp [hb]

theorem DecodeMapboxThreeBands_KeepsGuard (o : TileOutcome) (A B : FString) (r : RunState) :
    KeepsGuard r (DecodeMapboxThreeBands o A B r).2 := by
  unfold DecodeMapboxThreeBands
  dsimp only
  split
  · exact KeepsGuard.of_eq _ _ rfl rfl
  · split
    · exact (KeepsGuard.of_eq r _ rfl rfl).trans (ShowDialogOnce_KeepsGuard _)
    · exact KeepsGuard.of_eq _ _ rfl rfl

theorem Materialize_KeepsGuard (p : Config) (o : TileOutcome) (X Y : Int) (D : FString)
    (r : RunState) : KeepsGuard r (Materialize p o X Y D r).2 := by
  unfold Materialize
  split
  · dsimp only
    split <;> exact KeepsGuard.of_eq _ _ rfl rfl
  · dsimp only
    split <;> exact KeepsGuard.of_eq _ _ rfl rfl

theorem MaterializeAndReport_KeepsGuard (p : Config) (o : TileOutcome) (X Y : Int)
    (D : FString) (r : RunState) : KeepsGuard r (MaterializeAndReport p o X Y D r).1 := by
  unfold MaterializeAndReport
  dsimp only
  split
  · exact Materialize_KeepsGuard p o X Y D r
  · exact (Materialize_KeepsGuard p o X Y D r).trans (KeepsGuard.of_eq _ _ rfl rfl)

theorem ExtractAndMaterialize_KeepsGuard (p : Config) (o : TileOutcome) (X Y : Int)
    (D : FString) (r : RunState) : KeepsGuard r (ExtractAndMaterialize p o X Y D r).1 := by
  unfold ExtractAndMaterialize
  split
  · dsimp only
    split
    · exact KeepsGuard.of_eq _ _ rfl rfl
    · split
      · exact (KeepsGuard.of_eq r _ rfl rfl).trans (ShowDialogOnce_KeepsGuard _)
      · exact (KeepsGuard.of_eq r _ rfl rfl).trans (MaterializeAndReport_KeepsGuard _ _ _ _ _ _)
  · exact MaterializeAndReport_KeepsGuard p o X Y D r

theorem OnDownloadComplete_KeepsGuard (p : Config) (o : TileOutcome) (X Y : Int)
    (r : RunState) (b : Bool) : KeepsGuard r (OnDownloadComplete p o X Y r b).1 := by
  unfold OnDownloadComplete
  split
  · split
    · dsimp only
      split
      · exact (DecodeMapboxThreeBands_KeepsGuard o _ _ r).trans (ShowDialogOnce_KeepsGuard _)
      · exact (DecodeMapboxThreeBands_KeepsGuard o _ _ r).trans
          (ExtractAndMaterialize_KeepsGuard _ _ _ _ _ _)
    · exact ExtractAndMaterialize_KeepsGuard _ _ _ _ _ _
  · exact KeepsGuard.of_eq _ _ rfl rfl

theorem PerTile_KeepsGuard (p : Config) (o : TileOutcome) (r : RunState) (i : Int) :
    KeepsGuard r (PerTile p o r i).1 := by
  unfold PerTile
  dsimp only
  generalize o.Download (ReplacedURL p (TileX p i) (TileY p i))
    (DownloadFile p (TileX p i) (TileY p i)) = ds
  suffices h : ∀ (acc : RunState × List Bool),
      KeepsGuard acc.1 (ds.foldl (fun acc bOneSuccess =>
        ((OnDownloadComplete p o (TileX p i) (TileY p i) acc.1 bOneSuccess).1,
          acc.2 ++ (OnDownloadComplete p o (TileX p i) (TileY p i) acc.1 bOneSuccess).2))
        acc).1 from h (r, [])
  induction ds with
  | nil => intro acc; exact KeepsGuard.refl _
  | cons d ds ih =>
    intro acc
    rw [List.foldl_cons]
    exact (OnDownloadComplete_KeepsGuard p o _ _ acc.1 d).trans (ih _)

theorem RunTiles_foldl_KeepsGuard (p : Config) (Outcomes : Int → TileOutcome)
    (Order : List Int) (acc : RunState × List (Int × Bool)) :
    KeepsGuard acc.1 (Order.foldl (fun acc i =>
        ((PerTile p (Outcomes i) acc.1 i).1,
          acc.2 ++ (PerTile p (Outcomes i) acc.1 i).2.map (fun b => (i, b)))) acc).1 := by
  induction Order generalizing acc with
  | nil => exact KeepsGuard.refl _
  | cons i Order ih =>
    rw [List.foldl_cons]
    exact (PerTile_KeepsGuard p (Outcomes i) acc.1 i).trans (ih _)

theorem Dialogs_le_of_KeepsGuard {r t : RunState} (h : KeepsGuard r t) :
    t.Dialogs ≤ r.Dialogs + (if r.bShowedDialog = true then 0 else 1) ∧
    r.Dialogs ≤ t.Dialogs := by
  obtain ⟨h1, h2⟩ := h
  unfold DialogBudget at h1
  cases hr : r.bShowedDialog
  · cases ht : t.bShowedDialog <;> simp [hr, ht] at h1 ⊢ <;> omega
  · have ht := h2 hr
    simp [hr, ht] at h1 ⊢
    omega

/-- C15. Error reports are deduplicated per run. For the tile tasks of a run
taken in any order, with any outcomes and any number of fetcher completions per
tile: the number of error dialogs grows by at most one over the run, and by
none when the guard `bShowedDialog` was already set; a guard that is set after
a first part `A` of the run is still set after any continuation `B`; and a
whole `Fetch` opens at most one error dialog in its tile pipeline. -/
theorem C15_dialogs_deduplicated (p : Config) (Outcomes : Int → TileOutcome)
    (A B : List Int) (r : RunState) (env : FetchEnv) (OutputFiles : List FString) :
    (RunTiles p Outcomes A r).1.Dialogs ≤
      r.Dialogs + (if r.bShowedDialog = true then 0 else 1) ∧
    r.Dialogs ≤ (RunTiles p Outcomes A r).1.Dialogs ∧
    ((RunTiles p Outcomes A r).1.bShowedDialog = true →
      (RunTiles p Outcomes (A ++ B) r).1.bShowedDialog = true ∧
      (RunTiles p Outcomes (A ++ B) r).1.Dialogs = (RunTiles p Outcomes A r).1.Dialogs) ∧
    (Fetch p env OutputFiles).Run.Dialogs ≤ 1 := by
  have hA : KeepsGuard r (RunTiles p Outcomes A r).1 :=
    RunTiles_foldl_KeepsGuard p Outcomes A (r, [])
  have hAB : KeepsGuard (RunTiles p Outcomes A r).1 (RunTiles p Outcomes (A ++ B) r).1 := by
    unfold RunTiles
    rw [List.foldl_append]
    exact RunTiles_foldl_KeepsGuard p Outcomes B _
  refine ⟨(Dialogs_le_of_KeepsGuard hA).1, (Dialogs_le_of_KeepsGuard hA).2, ?_, ?_⟩
  · intro h
    have hd := Dialogs_le_of_KeepsGuard hAB
    rw [h] at hd
    exact ⟨hAB.2 h, by simp at hd; omega⟩
  · unfold Fetch
    dsimp only
    split
    · simp
    · split
      · simp
      · split
        · simp
        · split
          · simp
          · split
            · simp
            · have h := Dialogs_le_of_KeepsGuard (RunTiles_foldl_KeepsGuard p env.Outcomes
                env.Order ((⟨OutputFiles, false, 0, 0, []⟩ : RunState), []))
              simpa [RunTiles] using h.1

/-- C15 at a concrete input: in a run whose three tiles all fail, two at the
decoder and one at the file count, exactly one dialog is opened. -/
theorem C15_dialogs_deduplicated_witness :
    (RunTiles Sample.MapboxGrid Sample.FailingOutcomes [0, 1, 2] Sample.RunStart).2 =
      [(0, false), (1, false), (2, false)] ∧
    (RunTiles Sample.MapboxGrid Sample.FailingOutcomes [0, 1, 2] Sample.RunStart).1.Dialogs = 1 ∧
    (RunTiles Sample.MapboxGrid Sample.FailingOutcomes [0] Sample.RunStart).1.bShowedDialog
      = true ∧
    (RunTiles Sample.MapboxGrid Sample.FailingOutcomes ([0] ++ [1, 2])
      Sample.RunStart).1.bShowedDialog = true :=
  have h := C15_dialogs_deduplicated Sample.MapboxGrid Sample.FailingOutcomes [0] [1, 2]
    Sample.RunStart (Sample.Env []) []
  ⟨by decide, by decide, by decide, (h.2.2.1 (by decide)).1⟩

/-! ## Decimal renderings -/

theorem digitChar_isDigit (k : Nat) (h : k < 10) : (Nat.digitChar k).isDigit = true := by
  interval_cases k <;> rfl

theorem digitChar_value (k : Nat) (h : k < 10) : (Nat.digitChar k).toNat - 48 = k := by
  interval_cases k <;> rfl

theorem DigitsValue_append_singleton (l : List Char) (c : Char) :
    DigitsValue (l ++ [c]) = DigitsValue l * 10 + (c.toNat - 48) := by
  simp [DigitsValue, List.foldl_append]

theorem toDigitsCore_spec (fuel : Nat) : ∀ (n : Nat) (ds : List Char), n < fuel →
    ∃ l, Nat.toDigitsCore 10 fuel n ds = l ++ ds ∧ DigitsValue l = n ∧ l ≠ [] ∧
      ∀ c ∈ l, c.isDigit = true := by
  induction fuel with
  | zero => intro n ds h; omega
  | succ fuel ih =>
    intro n ds h
    unfold Nat.toDigitsCore
    dsimp only
    by_cases h0 : n / 10 = 0
    · rw [if_pos h0]
      refine ⟨[Nat.digitChar (n % 10)], rfl, ?_, by simp, ?_⟩
      · show DigitsValue [Nat.digitChar (n % 10)] = n
        simp only [DigitsValue, List.foldl]
        rw [digitChar_value _ (Nat.mod_lt _ (by omega))]
        omega
      · intro c hc
        rw [List.mem_singleton] at hc
        rw [hc]
        exact digitChar_isDigit _ (Nat.mod_lt _ (by omega))
    · rw [if_neg h0]
      obtain ⟨l, hl, hv, _, hd⟩ := ih (n / 10) (Nat.digitChar (n % 10) :: ds) (by omega)
      refine ⟨l ++ [Nat.digitChar (n % 10)], by rw [hl]; simp, ?_, by simp, ?_⟩
      · rw [DigitsValue_append_singleton, hv, digitChar_value _ (Nat.mod_lt _ (by omega))]
        omega
      · intro c hc
        rcases List.mem_append.1 hc with hc | hc
        · exact hd c hc
        · rw [List.mem_singleton] at hc
          rw [hc]
          exact digitChar_isDigit _ (Nat.mod_lt _ (by omega))

theorem toDigits_spec (n : Nat) :
    DigitsValue (Nat.toDigits 10 n) = n ∧ Nat.toDigits 10 n ≠ [] ∧
      ∀ c ∈ Nat.toDigits 10 n, c.isDigit = true := by
  obtain ⟨l, hl, hv, hne, hd⟩ := toDigitsCore_spec (n + 1) n [] (by omega)
  unfold Nat.toDigits
  rw [hl, List.append_nil]
  exact ⟨hv, hne, hd⟩

theorem FromInt_ofNat (n : Nat) : (FromInt (Int.ofNat n)).data = Nat.toDigits 10 n := rfl

theorem FromInt_negSucc (n : Nat) :
    (FromInt (Int.negSucc n)).data = '-' :: Nat.toDigits 10 (n + 1) := rfl

/-- The decimal rendering of an integer is not empty and consists of digits
and the minus sign. -/
theorem FromInt_numeric (n : Int) :
    (FromInt n).data ≠ [] ∧ ∀ c ∈ (FromInt n).data, IsNumeric c = true := by
  cases n with
  | ofNat m =>
    rw [FromInt_ofNat]
    obtain ⟨_, hne, hd⟩ := toDigits_spec m
    exact ⟨hne, fun c hc => by simp [IsNumeric, hd c hc]⟩
  | negSucc m =>
    rw [FromInt_negSucc]
    obtain ⟨_, _, hd⟩ := toDigits_spec (m + 1)
    refine ⟨by simp, fun c hc => ?_⟩
    rcases List.mem_cons.1 hc with hc | hc
    · rw [hc]; rfl
    · simp [IsNumeric, hd c hc]

/-- The decimal rendering of a natural number consists of digits only. -/
theorem FromInt_digits (n : Int) (h : 0 ≤ n) : ∀ c ∈ (FromInt n).data, c.isDigit = true := by
  cases n with
  | ofNat m =>
    rw [FromInt_ofNat]
    exact (toDigits_spec m).2.2
  | negSucc m => exact absurd h (by simp [Int.negSucc_lt_zero])

/-- Different integers have different decimal renderings. -/
theorem FromInt_injective (m n : Int) (h : FromInt m = FromInt n) : m = n := by
  have hd : (FromInt m).data = (FromInt n).data := by rw [h]
  cases m with
  | ofNat a =>
    cases n with
    | ofNat b =>
      rw [FromInt_ofNat, FromInt_ofNat] at hd
      have := (toDigits_spec a).1
      rw [hd, (toDigits_spec b).1] at this
      rw [this]
    | negSucc b =>
      rw [FromInt_ofNat, FromInt_negSucc] at hd
      have hdig := (toDigits_spec a).2.2 '-' (by rw [hd]; exact List.mem_cons_self _ _)
      exact absurd hdig (by decide)
  | negSucc a =>
    cases n with
    | ofNat b =>
      rw [FromInt_ofNat, FromInt_negSucc] at hd
      have hdig := (toDigits_spec b).2.2 '-' (by rw [← hd]; exact List.mem_cons_self _ _)
      exact absurd hdig (by decide)
    | negSucc b =>
      rw [FromInt_negSucc, FromInt_negSucc] at hd
      have hd2 := List.tail_eq_of_cons_eq hd
      have := (toDigits_spec (a + 1)).1
      rw [hd2, (toDigits_spec (b + 1)).1] at this
      have hab : a = b := by omega
      rw [hab]

/-- Two texts that start with a decimal rendering followed by a character that
is not numeric agree only if the renderings and the rests agree. -/
theorem numeric_split (D E : List Char) (b c : Char) (U V : List Char)
    (hD : ∀ d ∈ D, IsNumeric d = true) (hE : ∀ d ∈ E, IsNumeric d = true)
    (hb : IsNumeric b = false) (hc : IsNumeric c = false)
    (h : D ++ b :: U = E ++ c :: V) : D = E ∧ b :: U = c :: V := by
  induction D generalizing E with
  | nil =>
    cases E with
    | nil => exact ⟨rfl, h⟩
    | cons e E =>
      have : b = e := List.head_eq_of_cons_eq h
      have he := hE e (List.mem_cons_self _ _)
      rw [← this, hb] at he
      cases he
  | cons d D ih =>
    cases E with
    | nil =>
      have : d = c := List.head_eq_of_cons_eq h
      have hd := hD d (List.mem_cons_self _ _)
      rw [this, hc] at hd
      cases hd
    | cons e E =>
      have h1 : d = e := List.head_eq_of_cons_eq h
      have h2 : D ++ b :: U = E ++ c :: V := List.tail_eq_of_cons_eq h
      obtain ⟨h3, h4⟩ := ih E (fun x hx => hD x (List.mem_cons_of_mem _ hx))
        (fun x hx => hE x (List.mem_cons_of_mem _ hx)) h2
      exact ⟨by rw [h1, h3], h4⟩

/-! ## Upper case -/

theorem toUpper_cases (c : Char) :
    c.toUpper = c ∨ (65 ≤ c.toUpper.toNat ∧ c.toUpper.toNat ≤ 90) := by
  by_cases h : c.toNat ≥ 97 ∧ c.toNat ≤ 122
  · right
    unfold Char.toUpper
    simp only [h, and_self, if_true]
    obtain ⟨h1, h2⟩ := h
    generalize c.toNat = n at h1 h2
    interval_cases n <;> decide
  · left
    unfold Char.toUpper
    simp only [h, if_false]

theorem toUpper_eq_open (c : Char) (h : c.toUpper = '{') : c = '{' := by
  rcases toUpper_cases c with h1 | h1
  · rw [← h1]; exact h
  · rw [h] at h1
    exact absurd h1 (by decide)

theorem toUpper_eq_close (c : Char) (h : c.toUpper = '}') : c = '}' := by
  rcases toUpper_cases c with h1 | h1
  · rw [← h1]; exact h
  · rw [h] at h1
    exact absurd h1 (by decide)

theorem isDigit_toNat (c : Char) (h : c.isDigit = true) : 48 ≤ c.toNat ∧ c.toNat ≤ 57 := by
  unfold Char.isDigit at h
  simp at h
  exact h

theorem toUpper_numeric (d : Char) (h : IsNumeric d = true) : d.toUpper = d := by
  unfold IsNumeric at h
  rw [Bool.or_eq_true] at h
  rcases h with h | h
  · have := isDigit_toNat d h
    unfold Char.toUpper
    have hn : ¬ (d.toNat ≥ 97 ∧ d.toNat ≤ 122) := by omega
    simp only [hn, if_false]
  · have : d = '-' := by simpa using h
    rw [this]
    rfl

theorem numeric_ne_open (d : Char) (h : IsNumeric d = true) : d ≠ '{' := by
  intro hd
  rw [hd] at h
  exact absurd h (by decide)

theorem numeric_ne_close (d : Char) (h : IsNumeric d = true) : d ≠ '}' := by
  intro hd
  rw [hd] at h
  exact absurd h (by decide)

/-! ## Token matching -/

/-- A token starts a text exactly when the text is an opening brace, a
character equal to the letter up to case, and a closing brace. -/
theorem StartsWith_Tok_iff (a : Char) (l : List Char) :
    StartsWith (Tok a) l = true ↔
      ∃ c rest, l = '{' :: c :: '}' :: rest ∧ c.toUpper = a.toUpper := by
  unfold StartsWith Tok
  have ho : ('{' : Char).toUpper = '{' := rfl
  have hc : ('}' : Char).toUpper = '}' := rfl
  constructor
  · intro h
    match l, h with
    | c1 :: c2 :: c3 :: rest, h =>
      simp only [List.map_cons, List.map_nil, List.isPrefixOf, Bool.and_eq_true, beq_iff_eq,
        Bool.and_true, ho, hc] at h
      obtain ⟨h1, h2, h3⟩ := h
      refine ⟨c2, rest, ?_, h2.symm⟩
      rw [toUpper_eq_open c1 h1.symm, toUpper_eq_close c3 h3.symm]
    | [], h => simp [List.isPrefixOf] at h
    | [_], h => simp [List.isPrefixOf] at h
    | [_, _], h => simp [List.isPrefixOf] at h
  · rintro ⟨c, rest, rfl, h⟩
    simp [List.isPrefixOf, ho, hc, h]

theorem StartsWith_Tok_nil (a : Char) : StartsWith (Tok a) [] = false := by
  cases h : StartsWith (Tok a) [] with
  | false => rfl
  | true =>
    obtain ⟨c, rest, h1, _⟩ := (StartsWith_Tok_iff a []).1 h
    cases h1

theorem StartsWith_Tok_head (a c : Char) (cs : List Char) (hc : c ≠ '{') :
    StartsWith (Tok a) (c :: cs) = false := by
  cases h : StartsWith (Tok a) (c :: cs) with
  | false => rfl
  | true =>
    obtain ⟨c2, rest, h1, _⟩ := (StartsWith_Tok_iff a (c :: cs)).1 h
    exact absurd (List.head_eq_of_cons_eq h1) hc

theorem TokenAt_head (toks : List (Char × List Char)) (c : Char) (cs : List Char)
    (hc : c ≠ '{') : TokenAt toks (c :: cs) = none := by
  unfold TokenAt
  rw [Option.map_eq_none', List.find?_eq_none]
  intro t _
  simp [StartsWith_Tok_head t.1 c cs hc]

theorem TokenAt_nil (toks : List (Char × List Char)) : TokenAt toks [] = none := by
  unfold TokenAt
  rw [Option.map_eq_none', List.find?_eq_none]
  intro t _
  simp [StartsWith_Tok_nil]

/-- Where a token of `toks` is found, the text is a token text and the
replacement is the one of a member of `toks`. -/
theorem TokenAt_some (toks : List (Char × List Char)) (l D : List Char)
    (h : TokenAt toks l = some D) :
    ∃ c rest t, l = '{' :: c :: '}' :: rest ∧ t ∈ toks ∧ t.2 = D ∧
      c.toUpper = t.1.toUpper := by
  unfold TokenAt at h
  rw [Option.map_eq_some'] at h
  obtain ⟨t, ht, hD⟩ := h
  have hm := List.find?_some ht
  obtain ⟨c, rest, hl, hc⟩ := (StartsWith_Tok_iff t.1 l).1 hm
  exact ⟨c, rest, t, hl, List.mem_of_find?_eq_some ht, hD, hc⟩

theorem TokenAt_append (toks more : List (Char × List Char)) (l : List Char) :
    TokenAt (toks ++ more) l =
      (match TokenAt toks l with
       | some D => some D
       | none => TokenAt more l) := by
  unfold TokenAt
  rw [List.find?_append]
  cases List.find? (fun t => StartsWith (Tok t.1) l) toks <;> rfl

theorem TokenAt_singleton (a : Char) (To l : List Char) :
    TokenAt [(a, To)] l = if StartsWith (Tok a) l = true then some To else none := by
  unfold TokenAt
  cases h : StartsWith (Tok a) l <;> simp [List.find?_cons, h]

/-! ## Unfolding the two scans -/

theorem ReplaceChars_skip (From To : List Char) (k : Nat) (l : List Char) :
    ReplaceChars From To k l = ReplaceChars From To 0 (l.drop k) := by
  induction k generalizing l with
  | zero => rfl
  | succ k ih =>
    cases l with
    | nil => simp [ReplaceChars]
    | cons c cs => simp [ReplaceChars, ih]

theorem Substitute_skip (toks : List (Char × List Char)) (k : Nat) (l : List Char) :
    Substitute toks k l = Substitute toks 0 (l.drop k) := by
  induction k generalizing l with
  | zero => rfl
  | succ k ih =>
    cases l with
    | nil => simp [Substitute]
    | cons c cs => simp [Substitute, ih]

theorem ReplaceChars_nil (From To : List Char) : ReplaceChars From To 0 [] = [] := by
  simp [ReplaceChars]

theorem ReplaceChars_match (a c : Char) (To rest : List Char) (h : c.toUpper = a.toUpper) :
    ReplaceChars (Tok a) To 0 ('{' :: c :: '}' :: rest) =
      To ++ ReplaceChars (Tok a) To 0 rest := by
  have hm : StartsWith (Tok a) ('{' :: c :: '}' :: rest) = true :=
    (StartsWith_Tok_iff a _).2 ⟨c, rest, rfl, h⟩
  rw [ReplaceChars, if_pos hm, ReplaceChars_skip]
  rfl

theorem ReplaceChars_nomatch (a c : Char) (To cs : List Char)
    (h : StartsWith (Tok a) (c :: cs) = false) :
    ReplaceChars (Tok a) To 0 (c :: cs) = c :: ReplaceChars (Tok a) To 0 cs := by
  rw [ReplaceChars]
  simp [h]

theorem Substitute_nil (toks : List (Char × List Char)) : Substitute toks 0 [] = [] := by
  simp [Substitute]

theorem Substitute_match (toks : List (Char × List Char)) (c : Char) (D rest : List Char)
    (h : TokenAt toks ('{' :: c :: '}' :: rest) = some D) :
    Substitute toks 0 ('{' :: c :: '}' :: rest) = D ++ Substitute toks 0 rest := by
  rw [Substitute, h]
  dsimp only
  rw [Substitute_skip]
  rfl

theorem Substitute_nomatch (toks : List (Char × List Char)) (c : Char) (cs : List Char)
    (h : TokenAt toks (c :: cs) = none) :
    Substitute toks 0 (c :: cs) = c :: Substitute toks 0 cs := by
  rw [Substitute, h]

/-! ## Replacing after substituting -/

theorem IsLetter_spec (a : Char) (h : IsLetter a = true) :
    IsNumeric a.toUpper = false ∧ a.toUpper ≠ '{' := by
  unfold IsLetter at h
  simp only [Bool.and_eq_true, Bool.not_eq_true', beq_eq_false_iff_ne] at h
  exact h

theorem not_numeric_of_upper (a c : Char) (ha : IsLetter a = true)
    (h : c.toUpper = a.toUpper) : IsNumeric c = false ∧ c ≠ '{' := by
  obtain ⟨h1, h2⟩ := IsLetter_spec a ha
  constructor
  · cases hn : IsNumeric c with
    | false => rfl
    | true =>
      rw [toUpper_numeric c hn] at h
      rw [← h, hn] at h1
      cases h1
  · intro hc
    rw [hc] at h
    exact h2 h.symm

theorem ReplaceChars_numeric_append (a : Char) (To D u : List Char)
    (hD : ∀ d ∈ D, IsNumeric d = true) :
    ReplaceChars (Tok a) To 0 (D ++ u) = D ++ ReplaceChars (Tok a) To 0 u := by
  induction D with
  | nil => rfl
  | cons d D ih =>
    have hd := numeric_ne_open d (hD d (List.mem_cons_self _ _))
    rw [List.cons_append, ReplaceChars_nomatch a d To _ (StartsWith_Tok_head a d _ hd),
      ih (fun x hx => hD x (List.mem_cons_of_mem _ hx))]
    rfl

/-- After a letter that is not a brace and a closing brace the substitution
goes on unchanged. -/
theorem Substitute_two (toks : List (Char × List Char)) (c : Char) (rest : List Char)
    (hc : c ≠ '{') :
    Substitute toks 0 (c :: '}' :: rest) = c :: '}' :: Substitute toks 0 rest := by
  rw [Substitute_nomatch toks c _ (TokenAt_head toks c _ hc),
    Substitute_nomatch toks '}' _ (TokenAt_head toks '}' _ (by decide))]

/-- The substitution of a text in which a token was found starts with a
numeric character. -/
theorem Substitute_head_of_some (toks : List (Char × List Char)) (l D : List Char)
    (htoks : NumericToks toks) (h : TokenAt toks l = some D) :
    ∃ d u, Substitute toks 0 l = d :: u ∧ IsNumeric d = true := by
  obtain ⟨c, rest, t, hl, ht, hD, _⟩ := TokenAt_some toks l D h
  subst hl
  rw [Substitute_match toks c D rest h]
  obtain ⟨hne, hnum⟩ := htoks t ht
  rw [hD] at hne hnum
  cases D with
  | nil => exact absurd rfl hne
  | cons d D => exact ⟨d, _, rfl, hnum d (List.mem_cons_self _ _)⟩

theorem Substitute_cons_inv (toks : List (Char × List Char)) (l : List Char) (c : Char)
    (u : List Char) (htoks : NumericToks toks) (hc : IsNumeric c = false)
    (h : Substitute toks 0 l = c :: u) :
    ∃ rest, l = c :: rest ∧ Substitute toks 0 rest = u := by
  cases l with
  | nil => rw [Substitute_nil] at h; cases h
  | cons e l =>
    cases hT : TokenAt toks (e :: l) with
    | some D =>
      obtain ⟨d, v, hv, hd⟩ := Substitute_head_of_some toks _ D htoks hT
      rw [hv] at h
      have : d = c := List.head_eq_of_cons_eq h
      rw [this, hc] at hd
      cases hd
    | none =>
      rw [Substitute_nomatch toks e l hT] at h
      exact ⟨l, by rw [List.head_eq_of_cons_eq h], List.tail_eq_of_cons_eq h⟩

/-- Whether a token starts at a position is not changed by substituting the
text after the position. -/
theorem StartsWith_Substitute (toks : List (Char × List Char)) (a c : Char) (cs : List Char)
    (htoks : NumericToks toks) (ha : IsLetter a = true) :
    StartsWith (Tok a) (c :: Substitute toks 0 cs) = StartsWith (Tok a) (c :: cs) := by
  rw [Bool.eq_iff_iff, StartsWith_Tok_iff, StartsWith_Tok_iff]
  constructor
  · rintro ⟨c2, u, h, hup⟩
    have h1 : c = '{' := List.head_eq_of_cons_eq h
    have h2 : Substitute toks 0 cs = c2 :: '}' :: u := List.tail_eq_of_cons_eq h
    obtain ⟨r1, hr1, h3⟩ := Substitute_cons_inv toks cs c2 _ htoks
      (not_numeric_of_upper a c2 ha hup).1 h2
    obtain ⟨r2, hr2, _⟩ := Substitute_cons_inv toks r1 '}' _ htoks (by decide) h3
    exact ⟨c2, r2, by rw [h1, hr1, hr2], hup⟩
  · rintro ⟨c2, rest, h, hup⟩
    have h1 : c = '{' := List.head_eq_of_cons_eq h
    have h2 : cs = c2 :: '}' :: rest := List.tail_eq_of_cons_eq h
    refine ⟨c2, Substitute toks 0 rest, ?_, hup⟩
    rw [h1, h2, Substitute_two toks c2 rest (not_numeric_of_upper a c2 ha hup).2]

/-- One more `Replace` after a substitution is the substitution with one more
token. -/
theorem ReplaceChars_Substitute (toks : List (Char × List Char)) (a : Char) (To : List Char)
    (htoks : NumericToks toks) (ha : IsLetter a = true) (s : List Char) :
    ReplaceChars (Tok a) To 0 (Substitute toks 0 s) =
      Substitute (toks ++ [(a, To)]) 0 s := by
  suffices h : ∀ (n : Nat) (s : List Char), s.length ≤ n →
      ReplaceChars (Tok a) To 0 (Substitute toks 0 s) =
        Substitute (toks ++ [(a, To)]) 0 s from h s.length s (Nat.le_refl _)
  intro n
  induction n with
  | zero =>
    intro s hs
    have : s = [] := List.length_eq_zero.1 (Nat.le_zero.1 hs)
    subst this
    rw [Substitute_nil, Substitute_nil, ReplaceChars_nil]
  | succ n ih =>
    intro s hs
    cases s with
    | nil => rw [Substitute_nil, Substitute_nil, ReplaceChars_nil]
    | cons c cs =>
      cases hT : TokenAt toks (c :: cs) with
      | some D =>
        obtain ⟨c2, rest, t, hl, ht, hD, _⟩ := TokenAt_some toks _ D hT
        rw [hl] at hT hs ⊢
        have hT2 : TokenAt (toks ++ [(a, To)]) ('{' :: c2 :: '}' :: rest) = some D := by
          rw [TokenAt_append, hT]
        rw [Substitute_match toks c2 D rest hT, Substitute_match _ c2 D rest hT2,
          ReplaceChars_numeric_append a To D _ (hD ▸ (htoks t ht).2),
          ih rest (by simp at hs; omega)]
      | none =>
        rw [Substitute_nomatch toks c cs hT]
        cases hM : StartsWith (Tok a) (c :: cs) with
        | true =>
          obtain ⟨c2, rest, hl, hup⟩ := (StartsWith_Tok_iff a _).1 hM
          have h1 : c = '{' := List.head_eq_of_cons_eq hl
          have h2 : cs = c2 :: '}' :: rest := List.tail_eq_of_cons_eq hl
          subst h1
          subst h2
          have hT2 : TokenAt (toks ++ [(a, To)]) ('{' :: c2 :: '}' :: rest) = some To := by
            rw [TokenAt_append, hT, TokenAt_singleton, if_pos hM]
          rw [Substitute_two toks c2 rest (not_numeric_of_upper a c2 ha hup).2,
            ReplaceChars_match a c2 To _ hup, Substitute_match _ c2 To rest hT2,
            ih rest (by simp at hs; omega)]
        | false =>
          have hM2 : StartsWith (Tok a) (c :: Substitute toks 0 cs) = false := by
            rw [StartsWith_Substitute toks a c cs htoks ha, hM]
          have hT2 : TokenAt (toks ++ [(a, To)]) (c :: cs) = none := by
            rw [TokenAt_append, hT, TokenAt_singleton]
            simp [hM]
          rw [ReplaceChars_nomatch a c To _ hM2, Substitute_nomatch _ c cs hT2,
            ih cs (by simp at hs; omega)]

theorem Substitute_no_tokens (k : Nat) (s : List Char) : Substitute [] k s = s.drop k := by
  induction s generalizing k with
  | nil => simp [Substitute]
  | cons c cs ih =>
    cases k with
    | zero =>
      rw [Substitute]
      have : TokenAt [] (c :: cs) = none := rfl
      rw [this]
      dsimp only
      rw [ih 0]
      rfl
    | succ k => rw [Substitute, ih k]; rfl

/-- The chained `Replace` calls for tokens named by letters, with numeric
replacements, are one substitution pass. -/
theorem ReplaceAll_eq_Substitute (order : List (Char × List Char)) (s : List Char)
    (hnum : NumericToks order) (hlet : ∀ t ∈ order, IsLetter t.1 = true) :
    ReplaceAll order s = Substitute order 0 s := by
  induction order using List.reverseRecOn with
  | nil =>
    rw [Substitute_no_tokens]
    rfl
  | append_singleton order t ih =>
    unfold ReplaceAll at ih ⊢
    rw [List.foldl_append, List.foldl_cons, List.foldl_nil,
      ih (fun x hx => hnum x (List.mem_append_left _ hx))
        (fun x hx => hlet x (List.mem_append_left _ hx))]
    exact ReplaceChars_Substitute order t.1 t.2
      (fun x hx => hnum x (List.mem_append_left _ hx))
      (hlet t (List.mem_append_right _ (List.mem_singleton_self t))) s

/-! ## Tokens that remain, and text without tokens -/

theorem StartsWith_Tok_upper (a b : Char) (l : List Char) (h : a.toUpper = b.toUpper) :
    StartsWith (Tok a) l = StartsWith (Tok b) l := by
  rw [Bool.eq_iff_iff, StartsWith_Tok_iff, StartsWith_Tok_iff, h]

theorem StartsWith_Tok_three (a c : Char) (r : List Char) :
    StartsWith (Tok a) ('{' :: c :: '}' :: r) = decide (c.toUpper = a.toUpper) := by
  rw [Bool.eq_iff_iff, StartsWith_Tok_iff, decide_eq_true_iff]
  constructor
  · rintro ⟨c2, rest, h, hup⟩
    have h2 : c = c2 := List.head_eq_of_cons_eq (List.tail_eq_of_cons_eq h)
    rw [h2]
    exact hup
  · intro h
    exact ⟨c, r, rfl, h⟩

theorem TokenAt_eq_none (toks : List (Char × List Char)) (l : List Char) :
    TokenAt toks l = none ↔ ∀ t ∈ toks, StartsWith (Tok t.1) l = false := by
  unfold TokenAt
  rw [Option.map_eq_none', List.find?_eq_none]
  simp

theorem TokenAt_cons (t : Char × List Char) (toks : List (Char × List Char)) (l : List Char) :
    TokenAt (t :: toks) l =
      if StartsWith (Tok t.1) l = true then some t.2 else TokenAt toks l := by
  unfold TokenAt
  cases h : StartsWith (Tok t.1) l <;> simp [List.find?_cons, h]

theorem TokenAt_three (toks : List (Char × List Char)) (c : Char) (r1 r2 : List Char) :
    TokenAt toks ('{' :: c :: '}' :: r1) = TokenAt toks ('{' :: c :: '}' :: r2) := by
  induction toks with
  | nil => rfl
  | cons t toks ih => rw [TokenAt_cons, TokenAt_cons, ih, StartsWith_Tok_three, StartsWith_Tok_three]

theorem HasToken_cons (a c : Char) (cs : List Char) :
    HasToken a (c :: cs) = (StartsWith (Tok a) (c :: cs) || HasToken a cs) := rfl

theorem HasToken_numeric_append (a : Char) (D u : List Char)
    (hD : ∀ d ∈ D, IsNumeric d = true) : HasToken a (D ++ u) = HasToken a u := by
  induction D with
  | nil => rfl
  | cons d D ih =>
    rw [List.cons_append, HasToken_cons,
      StartsWith_Tok_head a d _ (numeric_ne_open d (hD d (List.mem_cons_self _ _))),
      Bool.false_or, ih (fun x hx => hD x (List.mem_cons_of_mem _ hx))]

theorem HasToken_append_right (a : Char) (pre u : List Char) (h : HasToken a u = true) :
    HasToken a (pre ++ u) = true := by
  induction pre with
  | nil => exact h
  | cons c pre ih => rw [List.cons_append, HasToken_cons, ih, Bool.or_true]

/-- A text in which no token with letter `a` is found, in either case, does
not contain the literal token. -/
theorem not_infix_of_HasToken (a : Char) (s : List Char) (h : HasToken a s = false) :
    ¬ (Tok a <:+: s) := by
  rintro ⟨pre, suf, hs⟩
  have h1 : HasToken a (Tok a ++ suf) = true := by
    show (StartsWith (Tok a) ('{' :: a :: '}' :: suf) || HasToken a (a :: '}' :: suf)) = true
    rw [StartsWith_Tok_three, decide_eq_true rfl, Bool.true_or]
  have h2 := HasToken_append_right a pre _ h1
  rw [← List.append_assoc, hs, h] at h2
  cases h2

/-- No token of the list is left after the substitution. -/
theorem HasToken_Substitute (toks : List (Char × List Char)) (a : Char)
    (htoks : NumericToks toks) (ha : IsLetter a = true)
    (hmem : ∃ t ∈ toks, t.1.toUpper = a.toUpper) (s : List Char) :
    HasToken a (Substitute toks 0 s) = false := by
  suffices h : ∀ (n : Nat) (s : List Char), s.length ≤ n →
      HasToken a (Substitute toks 0 s) = false from h s.length s (Nat.le_refl _)
  intro n
  induction n with
  | zero =>
    intro s hs
    have : s = [] := List.length_eq_zero.1 (Nat.le_zero.1 hs)
    subst this
    rw [Substitute_nil]
    rfl
  | succ n ih =>
    intro s hs
    cases s with
    | nil => rw [Substitute_nil]; rfl
    | cons c cs =>
      cases hT : TokenAt toks (c :: cs) with
      | some D =>
        obtain ⟨c2, rest, t, hl, ht, hD, _⟩ := TokenAt_some toks _ D hT
        rw [hl] at hT hs ⊢
        rw [Substitute_match toks c2 D rest hT,
          HasToken_numeric_append a D _ (hD ▸ (htoks t ht).2)]
        exact ih rest (by simp at hs; omega)
      | none =>
        obtain ⟨t, ht, hup⟩ := hmem
        rw [Substitute_nomatch toks c cs hT, HasToken_cons,
          StartsWith_Substitute toks a c cs htoks ha,
          ← StartsWith_Tok_upper t.1 a _ hup, (TokenAt_eq_none toks _).1 hT t ht,
          Bool.false_or]
        exact ih cs (by simp at hs; omega)

/-- A text without tokens is left as it is. -/
theorem Substitute_of_no_token (toks : List (Char × List Char)) (s : List Char)
    (h : ∀ t ∈ toks, HasToken t.1 s = false) : Substitute toks 0 s = s := by
  induction s with
  | nil => exact Substitute_nil toks
  | cons c cs ih =>
    have h1 : ∀ t ∈ toks, StartsWith (Tok t.1) (c :: cs) = false ∧ HasToken t.1 cs = false := by
      intro t ht
      have := h t ht
      rw [HasToken_cons, Bool.or_eq_false_iff] at this
      exact this
    rw [Substitute_nomatch toks c cs ((TokenAt_eq_none toks _).2 (fun t ht => (h1 t ht).1)),
      ih (fun t ht => (h1 t ht).2)]

theorem StartsWith_of_suffix (a : Char) (s l : List Char) (h : HasToken a s = false)
    (hl : l <:+ s) : StartsWith (Tok a) l = false := by
  induction s with
  | nil =>
    have : l = [] := List.suffix_nil.1 hl
    rw [this]
    exact StartsWith_Tok_nil a
  | cons c cs ih =>
    rw [HasToken_cons, Bool.or_eq_false_iff] at h
    rcases List.suffix_cons_iff.1 hl with h1 | h1
    · rw [h1]; exact h.1
    · exact ih h.2 h1

/-- Two token lists that find the same tokens in every suffix of a text
substitute it in the same way. -/
theorem Substitute_congr (toks toks2 : List (Char × List Char)) (s : List Char)
    (h : ∀ l, l <:+ s → TokenAt toks l = TokenAt toks2 l) (k : Nat) :
    Substitute toks k s = Substitute toks2 k s := by
  induction s generalizing k with
  | nil => simp [Substitute]
  | cons c cs ih =>
    have ih2 := ih (fun l hl => h l (hl.trans (List.suffix_cons c cs)))
    cases k with
    | zero =>
      simp only [Substitute]
      rw [h (c :: cs) (List.suffix_refl _)]
      cases TokenAt toks2 (c :: cs) with
      | none => simp only [ih2 0]
      | some D => simp only [ih2 2]
    | succ k =>
      simp only [Substitute]
      exact ih2 k

/-- The token found at a position does not depend on the order of the token
list when no two tokens have the same letter. -/
theorem TokenAt_perm (toks order : List (Char × List Char)) (hp : order.Perm toks)
    (hu : ∀ t ∈ toks, ∀ t2 ∈ toks, t.1.toUpper = t2.1.toUpper → t = t2) (l : List Char) :
    TokenAt order l = TokenAt toks l := by
  cases h1 : TokenAt toks l with
  | none =>
    rw [TokenAt_eq_none] at h1 ⊢
    exact fun t ht => h1 t (hp.mem_iff.1 ht)
  | some D =>
    obtain ⟨c, rest, t, hl, ht, hD, hup⟩ := TokenAt_some toks l D h1
    cases h2 : TokenAt order l with
    | none =>
      have := (TokenAt_eq_none order l).1 h2 t (hp.mem_iff.2 ht)
      rw [hl, StartsWith_Tok_three, decide_eq_true hup] at this
      cases this
    | some D2 =>
      obtain ⟨c2, rest2, t2, hl2, ht2, hD2, hup2⟩ := TokenAt_some order l D2 h2
      rw [hl] at hl2
      have hc : c = c2 := List.head_eq_of_cons_eq (List.tail_eq_of_cons_eq hl2)
      have := hu t ht t2 (hp.mem_iff.1 ht2) (by rw [← hup, ← hup2, hc])
      rw [← hD, ← hD2, this]

/-- The substitution of a text splits at an opening brace. -/
theorem Substitute_append_open (toks : List (Char × List Char))
    (hlet : ∀ t ∈ toks, IsLetter t.1 = true) (A rest : List Char) :
    Substitute toks 0 (A ++ '{' :: rest) =
      Substitute toks 0 A ++ Substitute toks 0 ('{' :: rest) := by
  suffices h : ∀ (n : Nat) (A : List Char), A.length ≤ n →
      Substitute toks 0 (A ++ '{' :: rest) =
        Substitute toks 0 A ++ Substitute toks 0 ('{' :: rest) from h A.length A (Nat.le_refl _)
  intro n
  induction n with
  | zero =>
    intro A hA
    have : A = [] := List.length_eq_zero.1 (Nat.le_zero.1 hA)
    subst this
    rw [Substitute_nil]
    rfl
  | succ n ih =>
    intro A hA
    cases A with
    | nil => rw [Substitute_nil]; rfl
    | cons c A =>
      rw [List.cons_append]
      cases hT : TokenAt toks (c :: (A ++ '{' :: rest)) with
      | some D =>
        obtain ⟨c2, r, t, hl, ht, hD, hup⟩ := TokenAt_some toks _ D hT
        have hc : c = '{' := List.head_eq_of_cons_eq hl
        have hl2 : A ++ '{' :: rest = c2 :: '}' :: r := List.tail_eq_of_cons_eq hl
        cases A with
        | nil =>
          have : '{' = c2 := List.head_eq_of_cons_eq hl2
          rw [← this] at hup
          exact absurd hup.symm (IsLetter_spec t.1 (hlet t ht)).2
        | cons e A =>
          have he : e = c2 := List.head_eq_of_cons_eq hl2
          have hl3 : A ++ '{' :: rest = '}' :: r := List.tail_eq_of_cons_eq hl2
          cases A with
          | nil => exact absurd (List.head_eq_of_cons_eq hl3) (by decide)
          | cons f A =>
            have hf : f = '}' := List.head_eq_of_cons_eq hl3
            subst hc
            subst he
            subst hf
            have hT2 : TokenAt toks ('{' :: e :: '}' :: A) = some D := by
              rw [TokenAt_three toks e A (A ++ '{' :: rest)]
              exact hT
            rw [Substitute_match toks e D A hT2]
            have hT3 : TokenAt toks ('{' :: e :: '}' :: (A ++ '{' :: rest)) = some D := hT
            rw [List.cons_append, List.cons_append, Substitute_match toks e D _ hT3,
              ih A (by simp at hA; omega), List.append_assoc]
      | none =>
        have hT2 : TokenAt toks (c :: A) = none := by
          rw [TokenAt_eq_none] at hT ⊢
          intro t ht
          cases hs : StartsWith (Tok t.1) (c :: A) with
          | false => rfl
          | true =>
            obtain ⟨c2, r, hl, hup⟩ := (StartsWith_Tok_iff t.1 _).1 hs
            have hc : c = '{' := List.head_eq_of_cons_eq hl
            have hA2 : A = c2 :: '}' :: r := List.tail_eq_of_cons_eq hl
            have := hT t ht
            rw [hc, hA2, List.cons_append, List.cons_append, StartsWith_Tok_three,
              decide_eq_true hup] at this
            cases this
        rw [Substitute_nomatch toks c _ hT, Substitute_nomatch toks c A hT2,
          ih A (by simp at hA; omega), List.cons_append]

/-! ## The URL of a tile -/

theorem URLTokens_numeric (p : Config) (X Y : Int) : NumericToks (URLTokens p X Y) := by
  intro t ht
  simp only [URLTokens, List.mem_cons, List.mem_singleton, List.not_mem_nil, or_false] at ht
  rcases ht with h | h | h <;> rw [h] <;> exact FromInt_numeric _

theorem URLTokens_letters (p : Config) (X Y : Int) :
    ∀ t ∈ URLTokens p X Y, IsLetter t.1 = true := by
  intro t ht
  simp only [URLTokens, List.mem_cons, List.mem_singleton, List.not_mem_nil, or_false] at ht
  rcases ht with h | h | h <;> rw [h] <;> rfl

theorem URLTokens_distinct (p : Config) (X Y : Int) :
    ∀ t ∈ URLTokens p X Y, ∀ t2 ∈ URLTokens p X Y, t.1.toUpper = t2.1.toUpper → t = t2 := by
  intro t ht t2 ht2 h
  simp only [URLTokens, List.mem_cons, List.mem_singleton, List.not_mem_nil, or_false] at ht ht2
  rcases ht with h1 | h1 | h1 <;> rcases ht2 with h2 | h2 | h2 <;> rw [h1, h2] at h ⊢ <;>
    dsimp only at h <;>
    first
      | rfl
      | exact absurd h (by decide)

/-- The three chained `Replace` calls of `Fetch` are one substitution pass over
the template. -/
theorem ReplacedURL_data (p : Config) (X Y : Int) :
    (ReplacedURL p X Y).data = Substitute (URLTokens p X Y) 0 p.URL.data := by
  rw [← ReplaceAll_eq_Substitute _ _ (URLTokens_numeric p X Y) (URLTokens_letters p X Y)]
  rfl

/-- Replacing the three tokens in any order gives the URL of the tile. -/
theorem ReplaceAll_perm (p : Config) (X Y : Int) (order : List (Char × List Char))
    (hp : order.Perm (URLTokens p X Y)) :
    ReplaceAll order p.URL.data = (ReplacedURL p X Y).data := by
  rw [ReplacedURL_data, ReplaceAll_eq_Substitute order _
    (fun t ht => URLTokens_numeric p X Y t (hp.mem_iff.1 ht))
    (fun t ht => URLTokens_letters p X Y t (hp.mem_iff.1 ht))]
  exact Substitute_congr _ _ _
    (fun l _ => TokenAt_perm _ _ hp (URLTokens_distinct p X Y) l) 0

/-- C18, as stated, fails: the template `http://tiles/{Z}/{X}/{Y}.png` contains
none of the literal tokens `{z}`, `{x}`, `{y}`, yet it is not returned
unchanged: `Replace` compares ignoring case and replaces the upper-case
tokens. -/
theorem C18_counterexample :
    ¬ (Tok 'z' <:+: Sample.UpperTemplate.URL.data) ∧
    ¬ (Tok 'x' <:+: Sample.UpperTemplate.URL.data) ∧
    ¬ (Tok 'y' <:+: Sample.UpperTemplate.URL.data) ∧
    ReplacedURL Sample.UpperTemplate 5 10 = "http://tiles/3/5/10.png" ∧
    ReplacedURL Sample.UpperTemplate 5 10 ≠ Sample.UpperTemplate.URL := by
  decide

/-- C18, amended. URL building, with tokens compared ignoring case. For every
template and all integers `Zoom`, `X`, `Y`, the resolved URL is the template
with every occurrence of the tokens `{z}`, `{x}`, `{y}`, in lower or upper
case, replaced by the decimal rendering of `Zoom`, `X`, `Y` respectively and
all other text unchanged; replacing the three tokens in any other order gives
the same result; the result contains no token `{z}`, `{x}` or `{y}` in either
case, in particular no literal one; and a template without such tokens is
returned unchanged. -/
theorem C18_url_building (p : Config) (X Y : Int) :
    (ReplacedURL p X Y).data = Substitute (URLTokens p X Y) 0 p.URL.data ∧
    (∀ order : List (Char × List Char), order.Perm (URLTokens p X Y) →
      ReplaceAll order p.URL.data = (ReplacedURL p X Y).data) ∧
    (∀ a ∈ ['z', 'x', 'y'], HasToken a (ReplacedURL p X Y).data = false ∧
      ¬ (Tok a <:+: (ReplacedURL p X Y).data)) ∧
    (HasToken 'z' p.URL.data = false ∧ HasToken 'x' p.URL.data = false ∧
      HasToken 'y' p.URL.data = false → ReplacedURL p X Y = p.URL) := by
  have hno : ∀ a ∈ ['z', 'x', 'y'], HasToken a (ReplacedURL p X Y).data = false := by
    intro a ha
    rw [ReplacedURL_data]
    simp only [List.mem_cons, List.mem_singleton, List.not_mem_nil, or_false] at ha
    rcases ha with h | h | h <;> rw [h]
    · exact HasToken_Substitute _ 'z' (URLTokens_numeric p X Y) (by decide)
        ⟨_, List.mem_cons_self _ _, rfl⟩ _
    · exact HasToken_Substitute _ 'x' (URLTokens_numeric p X Y) (by decide)
        ⟨_, List.mem_cons_of_mem _ (List.mem_cons_self _ _), rfl⟩ _
    · exact HasToken_Substitute _ 'y' (URLTokens_numeric p X Y) (by decide)
        ⟨_, List.mem_cons_of_mem _ (List.mem_cons_of_mem _ (List.mem_cons_self _ _)), rfl⟩ _
  refine ⟨ReplacedURL_data p X Y, fun order hp => ReplaceAll_perm p X Y order hp,
    fun a ha => ⟨hno a ha, not_infix_of_HasToken a _ (hno a ha)⟩, ?_⟩
  rintro ⟨hz, hx, hy⟩
  have h := ReplacedURL_data p X Y
  rw [Substitute_of_no_token] at h
  · exact String.ext h
  · intro t ht
    simp only [URLTokens, List.mem_cons, List.mem_singleton, List.not_mem_nil, or_false] at ht
    rcases ht with h1 | h1 | h1 <;> rw [h1] <;> assumption

/-! ## Distinct tiles, distinct URLs -/

/-- Without overflow, two linear indices in range with the same tile are the
same index. -/
theorem tile_index_inj (p : Config) (hX : p.MinX ≤ p.MaxX) (hY : p.MinY ≤ p.MaxY)
    (hr : -2147483648 ≤ p.MinX ∧ p.MaxX < 2147483648 ∧
      -2147483648 ≤ p.MinY ∧ p.MaxY < 2147483648)
    (hN : (p.MaxX - p.MinX + 1) * (p.MaxY - p.MinY + 1) < 2147483648)
    (i j : Int) (hi0 : 0 ≤ i) (hi1 : i < NumTiles p) (hj0 : 0 ≤ j) (hj1 : j < NumTiles p)
    (hx : TileX p i = TileX p j) (hy : TileY p i = TileY p j) : i = j := by
  obtain ⟨_, _, hn⟩ := grid_sizes p hX hY hN
  rw [hn] at hi1 hj1
  obtain ⟨ix, iy, _⟩ := tile_of_index p hX hY hr hN i hi0 hi1
  obtain ⟨jx, jy, _⟩ := tile_of_index p hX hY hr hN j hj0 hj1
  rw [ix, jx] at hx
  rw [iy, jy] at hy
  have h1 := Int.emod_add_ediv i (p.MaxX - p.MinX + 1)
  have h2 := Int.emod_add_ediv j (p.MaxX - p.MinX + 1)
  have hm : i % (p.MaxX - p.MinX + 1) = j % (p.MaxX - p.MinX + 1) := by omega
  have hd : i / (p.MaxX - p.MinX + 1) = j / (p.MaxX - p.MinX + 1) := by omega
  rw [← h1, ← h2, hm, hd]

theorem URLTokens_TokenAt_x (p : Config) (X Y : Int) (r : List Char) :
    TokenAt (URLTokens p X Y) ('{' :: 'x' :: '}' :: r) = some (FromInt X).data := by
  unfold URLTokens
  rw [TokenAt_cons, TokenAt_cons, StartsWith_Tok_three, StartsWith_Tok_three]
  rfl

theorem URLTokens_TokenAt_y (p : Config) (X Y : Int) (r : List Char) :
    TokenAt (URLTokens p X Y) ('{' :: 'y' :: '}' :: r) = some (FromInt Y).data := by
  unfold URLTokens
  rw [TokenAt_cons, TokenAt_cons, TokenAt_cons, StartsWith_Tok_three, StartsWith_Tok_three,
    StartsWith_Tok_three]
  rfl

/-- A piece of the template without tokens for the column and the row is
resolved in the same way for every tile. -/
theorem URLTokens_free (p : Config) (X Y X2 Y2 : Int) (A : List Char)
    (hx : HasToken 'x' A = false) (hy : HasToken 'y' A = false) :
    Substitute (URLTokens p X Y) 0 A = Substitute (URLTokens p X2 Y2) 0 A := by
  apply Substitute_congr
  intro l hl
  unfold URLTokens
  rw [TokenAt_cons, TokenAt_cons, TokenAt_cons, TokenAt_cons, TokenAt_cons, TokenAt_cons]
  dsimp only
  rw [StartsWith_of_suffix 'x' A l hx hl, StartsWith_of_suffix 'y' A l hy hl]
  rfl

/-- The substitution of a template made of three pieces around two tokens. -/
theorem Substitute_shape (toks : List (Char × List Char))
    (hlet : ∀ t ∈ toks, IsLetter t.1 = true) (A B C : List Char) (u v b : Char)
    (U V : List Char) (hb : b ≠ '{')
    (hU : ∀ r, TokenAt toks ('{' :: u :: '}' :: r) = some U)
    (hV : ∀ r, TokenAt toks ('{' :: v :: '}' :: r) = some V) :
    Substitute toks 0 (A ++ Tok u ++ b :: B ++ Tok v ++ C) =
      Substitute toks 0 A ++
        (U ++ b :: (Substitute toks 0 B ++ (V ++ Substitute toks 0 C))) := by
  have hs : A ++ Tok u ++ b :: B ++ Tok v ++ C =
      A ++ '{' :: u :: '}' :: b :: (B ++ '{' :: v :: '}' :: C) := by
    simp only [Tok, List.append_assoc, List.cons_append, List.nil_append]
  rw [hs, Substitute_append_open toks hlet, Substitute_match toks u U _ (hU _),
    Substitute_nomatch toks b _ (TokenAt_head toks b _ hb),
    Substitute_append_open toks hlet, Substitute_match toks v V _ (hV _)]

/-- For a template that names the column and the row once each, separated by a
character that is no part of a number, the URL determines the tile. -/
theorem ReplacedURL_injective (p : Config) (A B C : List Char) (u v b : Char)
    (hURL : p.URL.data = A ++ Tok u ++ b :: B ++ Tok v ++ C)
    (huv : (u = 'x' ∧ v = 'y') ∨ (u = 'y' ∧ v = 'x'))
    (hb : IsNumeric b = false ∧ b ≠ '{')
    (hA : HasToken 'x' A = false ∧ HasToken 'y' A = false)
    (hB : HasToken 'x' B = false ∧ HasToken 'y' B = false)
    (hC : HasToken 'x' C = false ∧ HasToken 'y' C = false)
    (X Y X2 Y2 : Int) (h : ReplacedURL p X Y = ReplacedURL p X2 Y2) : X = X2 ∧ Y = Y2 := by
  have hd : (ReplacedURL p X Y).data = (ReplacedURL p X2 Y2).data := by rw [h]
  rw [ReplacedURL_data, ReplacedURL_data, hURL] at hd
  have key : ∀ (U V U2 V2 : List Char),
      (∀ d ∈ U, IsNumeric d = true) → (∀ d ∈ U2, IsNumeric d = true) →
      Substitute (URLTokens p X Y) 0 A ++
        (U ++ b :: (Substitute (URLTokens p X Y) 0 B ++
          (V ++ Substitute (URLTokens p X Y) 0 C))) =
      Substitute (URLTokens p X2 Y2) 0 A ++
        (U2 ++ b :: (Substitute (URLTokens p X2 Y2) 0 B ++
          (V2 ++ Substitute (URLTokens p X2 Y2) 0 C))) → U = U2 ∧ V = V2 := by
    intro U V U2 V2 hU hU2 he
    rw [URLTokens_free p X Y X2 Y2 A hA.1 hA.2, URLTokens_free p X Y X2 Y2 B hB.1 hB.2,
      URLTokens_free p X Y X2 Y2 C hC.1 hC.2] at he
    have h1 := List.append_cancel_left he
    obtain ⟨h2, h3⟩ := numeric_split U U2 b b _ _ hU hU2 hb.1 hb.1 h1
    have h4 := List.append_cancel_left (List.tail_eq_of_cons_eq h3)
    exact ⟨h2, List.append_cancel_right h4⟩
  rcases huv with ⟨hu, hv⟩ | ⟨hu, hv⟩
  · rw [hu, hv,
      Substitute_shape _ (URLTokens_letters p X Y) A B C 'x' 'y' b _ _ hb.2
        (URLTokens_TokenAt_x p X Y) (URLTokens_TokenAt_y p X Y),
      Substitute_shape _ (URLTokens_letters p X2 Y2) A B C 'x' 'y' b _ _ hb.2
        (URLTokens_TokenAt_x p X2 Y2) (URLTokens_TokenAt_y p X2 Y2)] at hd
    obtain ⟨h1, h2⟩ := key _ _ _ _ (FromInt_numeric X).2 (FromInt_numeric X2).2 hd
    exact ⟨FromInt_injective X X2 (String.ext h1), FromInt_injective Y Y2 (String.ext h2)⟩
  · rw [hu, hv,
      Substitute_shape _ (URLTokens_letters p X Y) A B C 'y' 'x' b _ _ hb.2
        (URLTokens_TokenAt_y p X Y) (URLTokens_TokenAt_x p X Y),
      Substitute_shape _ (URLTokens_letters p X2 Y2) A B C 'y' 'x' b _ _ hb.2
        (URLTokens_TokenAt_y p X2 Y2) (URLTokens_TokenAt_x p X2 Y2)] at hd
    obtain ⟨h1, h2⟩ := key _ _ _ _ (FromInt_numeric Y).2 (FromInt_numeric Y2).2 hd
    exact ⟨FromInt_injective X X2 (String.ext h2), FromInt_injective Y Y2 (String.ext h1)⟩

/-- C19, as stated, fails: with the template `http://tiles/{z}/{x}.png`, which
has no token for the row, the tiles of the linear indices 0 and 3 of the grid
5..7 x 10..12, that is (5, 10) and (5, 11), resolve to the same URL, and a run
of `Fetch` over the nine tiles downloads each of its three URLs three times. -/
theorem C19_counterexample :
    NumTiles Sample.NoRowToken = 9 ∧
    (TileX Sample.NoRowToken 0, TileY Sample.NoRowToken 0) = (5, 10) ∧
    (TileX Sample.NoRowToken 3, TileY Sample.NoRowToken 3) = (5, 11) ∧
    ReplacedURL Sample.NoRowToken (TileX Sample.NoRowToken 0) (TileY Sample.NoRowToken 0) =
      ReplacedURL Sample.NoRowToken (TileX Sample.NoRowToken 3) (TileY Sample.NoRowToken 3) ∧
    ((Fetch Sample.NoRowToken (Sample.Env [0, 1, 2, 3, 4, 5, 6, 7, 8]) []).Downloads.map
        Prod.fst =
      ["http://tiles/3/5.png", "http://tiles/3/6.png", "http://tiles/3/7.png",
        "http://tiles/3/5.png", "http://tiles/3/6.png", "http://tiles/3/7.png",
        "http://tiles/3/5.png", "http://tiles/3/6.png", "http://tiles/3/7.png"]) := by
  decide

/-- C19, amended. Distinct tiles have distinct URLs when the template tells them
apart. For a template of the form `A {x} b B {y} C` or `A {y} b B {x} C`, where
the pieces `A`, `B`, `C` contain no token for the column or the row (in either
case) and `b` is a character other than a digit, a minus sign and an opening
brace: two tiles with the same resolved URL are the same tile, and for a grid
with `MinX <= MaxX` and `MinY <= MaxY` whose bounds are `int` values and whose
tile count does not overflow, the linear indices `i != j` in `[0, NumTiles)`
resolve to different URLs. -/
theorem C19_distinct_urls (p : Config) (A B C : List Char) (u v b : Char)
    (hURL : p.URL.data = A ++ Tok u ++ b :: B ++ Tok v ++ C)
    (huv : (u = 'x' ∧ v = 'y') ∨ (u = 'y' ∧ v = 'x'))
    (hb : IsNumeric b = false ∧ b ≠ '{')
    (hA : HasToken 'x' A = false ∧ HasToken 'y' A = false)
    (hB : HasToken 'x' B = false ∧ HasToken 'y' B = false)
    (hC : HasToken 'x' C = false ∧ HasToken 'y' C = false) :
    (∀ X Y X2 Y2 : Int, ReplacedURL p X Y = ReplacedURL p X2 Y2 → X = X2 ∧ Y = Y2) ∧
    (p.MinX ≤ p.MaxX → p.MinY ≤ p.MaxY →
      (-2147483648 ≤ p.MinX ∧ p.MaxX < 2147483648 ∧
        -2147483648 ≤ p.MinY ∧ p.MaxY < 2147483648) →
      (p.MaxX - p.MinX + 1) * (p.MaxY - p.MinY + 1) < 2147483648 →
      ∀ i j : Int, 0 ≤ i → i < NumTiles p → 0 ≤ j → j < NumTiles p → i ≠ j →
        ReplacedURL p (TileX p i) (TileY p i) ≠ ReplacedURL p (TileX p j) (TileY p j)) := by
  refine ⟨ReplacedURL_injective p A B C u v b hURL huv hb hA hB hC, ?_⟩
  intro hX hY hr hN i j hi0 hi1 hj0 hj1 hij he
  obtain ⟨hx, hy⟩ := ReplacedURL_injective p A B C u v b hURL huv hb hA hB hC _ _ _ _ he
  exact hij (tile_index_inj p hX hY hr hN i j hi0 hi1 hj0 hj1 hx hy)

/-- C19 at a concrete input: the template `http://tiles/{z}/{x}/{y}.zip` of the
grid 5..7 x 10..12 has the form of the theorem, and the tiles of the indices 0
and 3 resolve to different URLs. -/
theorem C19_distinct_urls_witness :
    ReplacedURL Sample.Grid 5 10 = "http://tiles/3/5/10.zip" ∧
    ReplacedURL Sample.Grid 5 11 = "http://tiles/3/5/11.zip" ∧
    ReplacedURL Sample.Grid (TileX Sample.Grid 0) (TileY Sample.Grid 0) ≠
      ReplacedURL Sample.Grid (TileX Sample.Grid 3) (TileY Sample.Grid 3) :=
  have h := C19_distinct_urls Sample.Grid "http://tiles/\x7bz\x7d/".data [] ".zip".data
    'x' 'y' '/' (by decide) (Or.inl ⟨rfl, rfl⟩) (by decide) (by decide) (by decide) (by decide)
  ⟨by decide, by decide,
    h.2 (by decide) (by decide) (by decide) (by decide) 0 3 (by decide) (by decide) (by decide)
      (by decide) (by decide)⟩

/-! ## Output offsets -/

theorem FileName_data (p : Config) (X Y : Int) :
    (FileName p X Y).data =
      (p.Name.data ++ ['_', 'x']) ++
        ((FromInt (XOffset p X)).data ++ '_' :: ('y' :: (FromInt (YOffset p Y)).data)) := by
  unfold FileName
  simp only [String.data_append, List.append_assoc]
  rfl

/-- The output name determines the two offsets. -/
theorem FileName_injective (p : Config) (X Y X2 Y2 : Int)
    (h : FileName p X Y = FileName p X2 Y2) :
    XOffset p X = XOffset p X2 ∧ YOffset p Y = YOffset p Y2 := by
  have hd : (FileName p X Y).data = (FileName p X2 Y2).data := by rw [h]
  rw [FileName_data, FileName_data] at hd
  have h1 := List.append_cancel_left hd
  obtain ⟨h2, h3⟩ := numeric_split _ _ '_' '_' _ _ (FromInt_numeric _).2 (FromInt_numeric _).2
    (by decide) (by decide) h1
  have h4 : (FromInt (YOffset p Y)).data = (FromInt (YOffset p Y2)).data :=
    List.tail_eq_of_cons_eq (List.tail_eq_of_cons_eq h3)
  exact ⟨FromInt_injective _ _ (String.ext h2), FromInt_injective _ _ (String.ext h4)⟩

theorem offsets_of_tile (p : Config)
    (hW : p.MaxX - p.MinX < 2147483648) (hH : p.MaxY - p.MinY < 2147483648)
    (X Y : Int) (hx0 : p.MinX ≤ X) (hx1 : X ≤ p.MaxX) (hy0 : p.MinY ≤ Y) (hy1 : Y ≤ p.MaxY) :
    XOffset p X = X - p.MinX ∧
    YOffset p Y = (if p.bMaxY_IsNorth = true then p.MaxY - Y else Y - p.MinY) := by
  unfold XOffset YOffset
  rw [toInt32_of_range (X - p.MinX) (by omega) (by omega)]
  refine ⟨rfl, ?_⟩
  cases p.bMaxY_IsNorth
  · simp only [Bool.false_eq_true, if_false]
    exact toInt32_of_range _ (by omega) (by omega)
  · simp only [if_true]
    exact toInt32_of_range _ (by omega) (by omega)

/-- C11. Output offset mapping. For a grid whose extents `MaxX - MinX` and
`MaxY - MinY` are `int` values, and every tile `(X, Y)` of it: `XOffset = X - MinX`, and `YOffset` is
`MaxY - Y` when `bMaxY_IsNorth` is set and `Y - MinY` otherwise; the offsets lie
in `[0, MaxX-MinX] x [0, MaxY-MinY]`; with the flag set the offset is
`(MaxY-MinY)` minus the unflipped one and the row `MaxY` is row 0. Under either
flag value every pair of offsets in that rectangle comes from exactly one tile
of the grid, and two tiles of the grid with the same output name
`{Name}_x{XOffset}_y{YOffset}` are the same tile. -/
theorem C11_output_offsets (p : Config)
    (hW : p.MaxX - p.MinX < 2147483648) (hH : p.MaxY - p.MinY < 2147483648) :
    (∀ X Y : Int, p.MinX ≤ X → X ≤ p.MaxX → p.MinY ≤ Y → Y ≤ p.MaxY →
      XOffset p X = X - p.MinX ∧
      YOffset p Y = (if p.bMaxY_IsNorth = true then p.MaxY - Y else Y - p.MinY) ∧
      0 ≤ XOffset p X ∧ XOffset p X ≤ p.MaxX - p.MinX ∧
      0 ≤ YOffset p Y ∧ YOffset p Y ≤ p.MaxY - p.MinY ∧
      (p.bMaxY_IsNorth = true →
        YOffset p Y = (p.MaxY - p.MinY) - (Y - p.MinY) ∧ YOffset p p.MaxY = 0)) ∧
    (∀ a b : Int, 0 ≤ a → a ≤ p.MaxX - p.MinX → 0 ≤ b → b ≤ p.MaxY - p.MinY →
      ∃! t : Int × Int, p.MinX ≤ t.1 ∧ t.1 ≤ p.MaxX ∧ p.MinY ≤ t.2 ∧ t.2 ≤ p.MaxY ∧
        XOffset p t.1 = a ∧ YOffset p t.2 = b) ∧
    (∀ X Y X2 Y2 : Int, p.MinX ≤ X → X ≤ p.MaxX → p.MinY ≤ Y → Y ≤ p.MaxY →
      p.MinX ≤ X2 → X2 ≤ p.MaxX → p.MinY ≤ Y2 → Y2 ≤ p.MaxY →
      FileName p X Y = FileName p X2 Y2 → X = X2 ∧ Y = Y2) := by
  refine ⟨?_, ?_, ?_⟩
  · intro X Y hx0 hx1 hy0 hy1
    obtain ⟨h1, h2⟩ := offsets_of_tile p hW hH X Y hx0 hx1 hy0 hy1
    obtain ⟨_, h3⟩ := offsets_of_tile p hW hH X p.MaxY hx0 hx1 (hy0.trans hy1) (Int.le_refl _)
    cases hf : p.bMaxY_IsNorth
    · rw [hf] at h2
      simp only [Bool.false_eq_true, if_false] at h2 ⊢
      refine ⟨h1, h2, ?_, ?_, ?_, ?_, ?_⟩
      · omega
      · omega
      · omega
      · omega
      · intro hc
        exact absurd hc (by decide)
    · rw [hf] at h2 h3
      simp only [if_true] at h2 h3 ⊢
      refine ⟨h1, h2, ?_, ?_, ?_, ?_, ?_⟩
      · omega
      · omega
      · omega
      · omega
      · intro _
        exact ⟨by omega, h3.trans (by omega)⟩
  · intro a b ha0 ha1 hb0 hb1
    cases hf : p.bMaxY_IsNorth
    · refine ⟨(a + p.MinX, b + p.MinY), ?_, ?_⟩
      · obtain ⟨h1, h2⟩ := offsets_of_tile p hW hH (a + p.MinX) (b + p.MinY)
          (by omega) (by omega) (by omega) (by omega)
        rw [hf] at h2
        simp only [Bool.false_eq_true, if_false] at h2
        dsimp only
        rw [h1, h2]
        refine ⟨?_, ?_, ?_, ?_, ?_, ?_⟩ <;> omega
      · rintro ⟨x, y⟩ ⟨hx0, hx1, hy0, hy1, hxa, hyb⟩
        dsimp only at hx0 hx1 hy0 hy1 hxa hyb
        obtain ⟨h1, h2⟩ := offsets_of_tile p hW hH x y hx0 hx1 hy0 hy1
        rw [hf] at h2
        simp only [Bool.false_eq_true, if_false] at h2
        rw [h1] at hxa
        rw [h2] at hyb
        have e1 : x = a + p.MinX := by omega
        have e2 : y = b + p.MinY := by omega
        rw [e1, e2]
    · refine ⟨(a + p.MinX, p.MaxY - b), ?_, ?_⟩
      · obtain ⟨h1, h2⟩ := offsets_of_tile p hW hH (a + p.MinX) (p.MaxY - b)
          (by omega) (by omega) (by omega) (by omega)
        rw [hf] at h2
        simp only [if_true] at h2
        dsimp only
        rw [h1, h2]
        refine ⟨?_, ?_, ?_, ?_, ?_, ?_⟩ <;> omega
      · rintro ⟨x, y⟩ ⟨hx0, hx1, hy0, hy1, hxa, hyb⟩
        dsimp only at hx0 hx1 hy0 hy1 hxa hyb
        obtain ⟨h1, h2⟩ := offsets_of_tile p hW hH x y hx0 hx1 hy0 hy1
        rw [hf] at h2
        simp only [if_true] at h2
        rw [h1] at hxa
        rw [h2] at hyb
        have e1 : x = a + p.MinX := by omega
        have e2 : y = p.MaxY - b := by omega
        rw [e1, e2]
  · intro X Y X2 Y2 hx0 hx1 hy0 hy1 hx2 hx3 hy2 hy3 h
    obtain ⟨ex, ey⟩ := FileName_injective p X Y X2 Y2 h
    obtain ⟨h1, h2⟩ := offsets_of_tile p hW hH X Y hx0 hx1 hy0 hy1
    obtain ⟨h3, h4⟩ := offsets_of_tile p hW hH X2 Y2 hx2 hx3 hy2 hy3
    rw [h1, h3] at ex
    rw [h2, h4] at ey
    cases hf : p.bMaxY_IsNorth
    · rw [hf] at ey
      simp only [Bool.false_eq_true, if_false] at ey
      constructor <;> omega
    · rw [hf] at ey
      simp only [if_true] at ey
      constructor <;> omega

/-- C11 at the input of the specification: in the grid 5..7 x 10..12 with the
flag set, tile (5, 10) has the offsets (0, 2) and the name `N_x0_y2`, tile
(7, 12) has the offsets (2, 0) and the name `N_x2_y0`, and (5, 10) is the only
tile with the offsets (0, 2). -/
theorem C11_output_offsets_witness :
    (XOffset Sample.Grid 5, YOffset Sample.Grid 10) = (0, 2) ∧
    (XOffset Sample.Grid 7, YOffset Sample.Grid 12) = (2, 0) ∧
    FileName Sample.Grid 5 10 = "N_x0_y2" ∧ FileName Sample.Grid 7 12 = "N_x2_y0" ∧
    (∃! t : Int × Int, Sample.Grid.MinX ≤ t.1 ∧ t.1 ≤ Sample.Grid.MaxX ∧
      Sample.Grid.MinY ≤ t.2 ∧ t.2 ≤ Sample.Grid.MaxY ∧
      XOffset Sample.Grid t.1 = 0 ∧ YOffset Sample.Grid t.2 = 2) :=
  have h := C11_output_offsets Sample.Grid (by decide) (by decide)
  ⟨by decide, by decide, by decide, by decide,
    h.2.1 0 2 (by decide) (by decide) (by decide) (by decide)⟩

end HMXYZ

/-! ## A repeated fetch -/

theorem FileExists_WriteFile (fs : Files) (File : FString) (Content : List Nat) :
    FileExists (WriteFile fs File Content) File = true := by
  simp [FileExists, WriteFile]

/-- The GET stage reports success with the state untouched exactly when the
skip test holds. -/
theorem FromURLExpecting_skip_iff (E : Engine) (s : State) (URL File : FString) (n : Int) :
    FromURLExpecting E s URL File n = (s, [true]) ↔ SkipDownload s.Files File n = true := by
  constructor
  · intro h
    have ha := FromURLExpecting_Requests E s URL File n
    rw [h] at ha
    by_cases hs : SkipDownload s.Files File n = true
    · exact hs
    · rw [if_neg hs] at ha
      simp at ha
  · intro hs
    simp [FromURLExpecting, hs]

/-- A successful `FromURL` that extended the log by `pre` and its GET ends in
the state `Saved` built from the body of the first completion of the GET, on a
state with the cache it started from. -/
theorem FromURL_success (E : Engine) (s : State) (URL File : FString)
    (pre : List HttpRequest) (c : Completion) (cs : List Completion) (r : HttpResponse)
    (ht : E.Transport (s.Requests ++ pre) { URL := URL, Verb := Verb.GET } = c :: cs)
    (hr : c.Response = some r)
    (hok : (FromURL E s URL File).2 = [true])
    (hreq : (FromURL E s URL File).1.Requests =
      s.Requests ++ pre ++ [{ URL := URL, Verb := Verb.GET }]) :
    ∃ t0 : State, t0.ExpectedSizeCache = s.ExpectedSizeCache ∧
      (FromURL E s URL File).1 =
        Saved (ProcessRequest t0 { URL := URL, Verb := Verb.GET }) URL File r.Content := by
  have hH : ({ URL := URL, Verb := Verb.GET } : HttpRequest) ∉
      [({ URL := URL, Verb := Verb.HEAD } : HttpRequest)] := by simp
  have hN : ({ URL := URL, Verb := Verb.GET } : HttpRequest) ∉ ([] : List HttpRequest) := by
    simp
  rcases FromURL_cases E s URL File with ⟨m, hm⟩ | hm | ⟨m, hm⟩
  · rw [hm] at hok hreq ⊢
    exact ⟨s, rfl,
      FromURLExpecting_success E s s URL File m [] pre c cs r (by simp) hN ht hr hok hreq⟩
  · rw [hm] at hok
    simp at hok
  · rw [hm] at hok hreq ⊢
    exact ⟨ProcessRequest s { URL := URL, Verb := Verb.HEAD }, rfl,
      FromURLExpecting_success E s _ URL File m [_] pre c cs r rfl hH ht hr hok hreq⟩

/-- C21, as stated, fails. With the stale cache record `(u, 5)`, `FromURL`
performs the GET and succeeds, and the repeated call finds the record 5 and a
file of 3 bytes and sends the GET again. With a fresh cache and an empty
resource, the first call records the size 0, and the repeated call, for which 0
means unknown, sends the GET again. -/
theorem C21_counterexample :
    (FromURL Sample.Server Sample.StaleCache "u" "f").2 = [true] ∧
    (FromURL Sample.Server Sample.StaleCache "u" "f").1.Requests =
      [{ URL := "u", Verb := Verb.GET }] ∧
    (FromURL Sample.Server (FromURL Sample.Server Sample.StaleCache "u" "f").1 "u" "f").2 =
      [true] ∧
    (FromURL Sample.Server (FromURL Sample.Server Sample.StaleCache "u" "f").1
        "u" "f").1.Requests =
      [{ URL := "u", Verb := Verb.GET }, { URL := "u", Verb := Verb.GET }] ∧
    (FromURL Sample.EmptyBody Sample.Fresh "u" "f").2 = [true] ∧
    (FromURL Sample.EmptyBody Sample.Fresh "u" "f").1.Requests =
      [{ URL := "u", Verb := Verb.HEAD }, { URL := "u", Verb := Verb.GET }] ∧
    (FromURL Sample.EmptyBody Sample.Fresh "u" "f").1.ExpectedSizeCache = [("u", 0)] ∧
    (FromURL Sample.EmptyBody (FromURL Sample.EmptyBody Sample.Fresh "u" "f").1
        "u" "f").1.Requests =
      [{ URL := "u", Verb := Verb.HEAD }, { URL := "u", Verb := Verb.GET },
        { URL := "u", Verb := Verb.GET }] := by
  decide

/-- C21, amended. Let `FromURL` extend the request log by `pre` and a GET of
the URL and report success, and let `r` be the response of the first
completion delivered for that GET, its body shorter than 2^31 bytes as a
`TArray` is. Then an immediately repeated `FromURL` of the same URL to the same
destination reports success and leaves the whole state as it is, so sends no
HEAD and no GET, exactly when the body is not empty and the URL had no cache
record before the first fetch or a record equal to the size of the body; in
every other case the repeated call sends one more request, a GET of the URL. -/
theorem C21_repeated_fetch (E : Engine) (s : State) (URL File : FString)
    (pre : List HttpRequest) (c : Completion) (cs : List Completion) (r : HttpResponse)
    (ht : E.Transport (s.Requests ++ pre) { URL := URL, Verb := Verb.GET } = c :: cs)
    (hr : c.Response = some r) (hlen : r.Content.length < 2147483648)
    (hok : (FromURL E s URL File).2 = [true])
    (hreq : (FromURL E s URL File).1.Requests =
      s.Requests ++ pre ++ [{ URL := URL, Verb := Verb.GET }]) :
    (FromURL E (FromURL E s URL File).1 URL File = ((FromURL E s URL File).1, [true]) ↔
      (r.Content ≠ [] ∧
        (TMap.Find s.ExpectedSizeCache URL = none ∨
          TMap.Find s.ExpectedSizeCache URL = some (r.Content.length : Int)))) ∧
    (FromURL E (FromURL E s URL File).1 URL File).1.Requests =
      (FromURL E s URL File).1.Requests ++
        (if r.Content ≠ [] ∧
            (TMap.Find s.ExpectedSizeCache URL = none ∨
              TMap.Find s.ExpectedSizeCache URL = some (r.Content.length : Int)) then []
         else [{ URL := URL, Verb := Verb.GET }]) := by
  obtain ⟨t0, hC, ht0⟩ := FromURL_success E s URL File pre c cs r ht hr hok hreq
  obtain ⟨_, hsize, hfind⟩ :=
    Saved_post s t0 URL File { URL := URL, Verb := Verb.GET } r.Content hC hlen
  have hex : FileExists
      (Saved (ProcessRequest t0 { URL := URL, Verb := Verb.GET }) URL File r.Content).Files
      File = true := by
    rw [Saved_Files]
    exact FileExists_WriteFile _ _ _
  rw [ht0]
  generalize Saved (ProcessRequest t0 { URL := URL, Verb := Verb.GET }) URL File r.Content = t
    at hsize hfind hex
  generalize TMap.Find s.ExpectedSizeCache URL = F at hfind ⊢
  have hne : r.Content ≠ [] ↔ (r.Content.length : Int) ≠ 0 := by
    rw [Ne, Ne, Int.natCast_eq_zero, List.length_eq_zero]
  have hskip : ∀ v : Int, SkipDownload t.Files File v = true ↔
      (r.Content ≠ [] ∧ v = (r.Content.length : Int)) := by
    intro v
    rw [SkipDownload_iff, hsize, hne]
    constructor
    · rintro ⟨_, h1, h2⟩
      exact ⟨h2 ▸ h1, h2.symm⟩
    · rintro ⟨h1, h2⟩
      exact ⟨hex, h2 ▸ h1, h2.symm⟩
  have key : ∀ v : Int, TMap.Find t.ExpectedSizeCache URL = some v →
      (v = (r.Content.length : Int) ↔ (F = none ∨ F = some (r.Content.length : Int))) →
      (FromURL E t URL File = (t, [true]) ↔
        (r.Content ≠ [] ∧ (F = none ∨ F = some (r.Content.length : Int)))) ∧
      (FromURL E t URL File).1.Requests =
        t.Requests ++
          (if r.Content ≠ [] ∧ (F = none ∨ F = some (r.Content.length : Int)) then []
           else [{ URL := URL, Verb := Verb.GET }]) := by
    intro v hv hF
    have hiff : SkipDownload t.Files File v = true ↔
        (r.Content ≠ [] ∧ (F = none ∨ F = some (r.Content.length : Int))) := by
      rw [hskip, hF]
    rw [FromURL_cached E t URL File v hv, FromURLExpecting_skip_iff, FromURLExpecting_Requests]
    refine ⟨hiff, ?_⟩
    by_cases hs : SkipDownload t.Files File v = true
    · rw [if_pos hs, if_pos (hiff.1 hs)]
    · rw [if_neg hs, if_neg (fun h => hs (hiff.2 h))]
  cases F with
  | none => exact key _ hfind (by simp)
  | some n => exact key n hfind (by simp)

/-- C21, amended, at a concrete input: a first fetch of `u` into `f` on a fresh
state sends HEAD then GET and succeeds; the repeated fetch succeeds and leaves
the state, and so the request log, as it is. -/
theorem C21_repeated_fetch_witness :
    (FromURL Sample.Server Sample.Fresh "u" "f").2 = [true] ∧
    (FromURL Sample.Server Sample.Fresh "u" "f").1.Requests =
      [{ URL := "u", Verb := Verb.HEAD }, { URL := "u", Verb := Verb.GET }] ∧
    FromURL Sample.Server (FromURL Sample.Server Sample.Fresh "u" "f").1 "u" "f" =
      ((FromURL Sample.Server Sample.Fresh "u" "f").1, [true]) :=
  have h := C21_repeated_fetch Sample.Server Sample.Fresh "u" "f"
    [{ URL := "u", Verb := Verb.HEAD }]
    { Response := some { ResponseCode := 200, ContentLength := "3", Content := [7, 8, 9] },
      bWasSuccessful := true } []
    { ResponseCode := 200, ContentLength := "3", Content := [7, 8, 9] }
    (by decide) rfl (by decide) (by decide) (by decide)
  ⟨by decide, by decide, h.1.2 ⟨by decide, Or.inl (by decide)⟩⟩

end LandscapeCombinator
